import Mathlib

/-!
# Voxel world: sparse octree, packed octree file, dense grid traversal

A shallow embedding of `src/utils/octree.cpp` and `src/utils/voxel.h` (the pointer octree
`OctreeVoxelWorld`: construction, point queries, insertion, compression, normals, ray
casting, description), of `src/voxel_octree.cpp` (the packed octree file) and of the grid
traversal `rayCastDDA` of `src/main.cpp`, with the properties of these operations.

Conventions of the embedding
* `int` values are `Int`, `uint32_t` values are `Nat` (no arithmetic is done on them).
* `OctreeNode` stands for an owning pointer `std::unique_ptr<OctreeNode>`: it is either
  `null` or a node record with its eight child pointers.
* `depth` and `maxDepth` are counters that start at `0` and only grow, they are `Nat`.
* `float` values belong to an arbitrary type with the operations `FloatOps`; no law of
  arithmetic is assumed, and `XF` provides exact values for evaluation.
* A file is the list of its bytes.
-/

namespace Octree

/-! ## Voxel (`src/utils/voxel.h`) -/

/-- The record `Voxel`. The `float3 normal` field is carried as a triple of rationals; the
octree code only ever default-initialises it. -/
structure Voxel where
  type : Nat
  color : Nat
  normal : ℚ × ℚ × ℚ
  density : Nat
  metadata : Nat
deriving DecidableEq

/-- The default constructor `Voxel()`: air, colour `0xFF000000`. -/
def Voxel.empty : Voxel :=
  { type := 0, color := 0xFF000000, normal := (0, 0, 0), density := 0, metadata := 0 }

/-- The constructor `Voxel(t, c)`. -/
def Voxel.ofTypeColor (t c : Nat) : Voxel :=
  { type := t, color := c, normal := (0, 0, 0), density := 0, metadata := 0 }

/-! ## OctreeNode -/

/-- An owning pointer to an `OctreeNode`: `null`, or a node with its fields
`children[8]`, `voxelType`, `voxelColor`, `isUniform`, `isLeaf`, `minX`, `minY`, `minZ`, `size`. -/
inductive OctreeNode where
  | null : OctreeNode
  | node (children : Fin 8 → OctreeNode) (voxelType voxelColor : Nat)
      (isUniform isLeaf : Bool) (minX minY minZ size : Int) : OctreeNode

namespace OctreeNode

/-- The test `ptr == nullptr`. -/
def isNull : OctreeNode → Bool
  | null => true
  | node _ _ _ _ _ _ _ _ _ => false

/-- Field `children[i]` (of a non-null node). -/
def children : OctreeNode → Fin 8 → OctreeNode
  | null => fun _ => null
  | node ch _ _ _ _ _ _ _ _ => ch

/-- Field `voxelType`. -/
def voxelType : OctreeNode → Nat
  | null => 0
  | node _ t _ _ _ _ _ _ _ => t

/-- Field `voxelColor`. -/
def voxelColor : OctreeNode → Nat
  | null => 0
  | node _ _ c _ _ _ _ _ _ => c

/-- Field `isLeaf`. -/
def isLeaf : OctreeNode → Bool
  | null => false
  | node _ _ _ _ l _ _ _ _ => l

/-- Field `minX`. -/
def minX : OctreeNode → Int
  | null => 0
  | node _ _ _ _ _ mx _ _ _ => mx

/-- Field `minY`. -/
def minY : OctreeNode → Int
  | null => 0
  | node _ _ _ _ _ _ my _ _ => my

/-- Field `minZ`. -/
def minZ : OctreeNode → Int
  | null => 0
  | node _ _ _ _ _ _ _ mz _ => mz

/-- Field `size`. -/
def size : OctreeNode → Int
  | null => 0
  | node _ _ _ _ _ _ _ _ sz => sz

/-- The constructor `OctreeNode(x, y, z, sz)`: an air leaf without children. -/
def create (x y z sz : Int) : OctreeNode :=
  node (fun _ => null) 0 0xFF000000 false true x y z sz

/-- The assignment `children[i] = c`. -/
def setChild : OctreeNode → Fin 8 → OctreeNode → OctreeNode
  | null, _, _ => null
  | node ch t c u l mx my mz sz, i, n =>
      node (fun j => if j = i then n else ch j) t c u l mx my mz sz

/-- The offset `(i & bit) ? childSize : 0` of octant `i` along the axis selected by `bit`. -/
def octantOffset (i : Fin 8) (bit : Nat) (childSize : Int) : Int :=
  if i.val &&& bit ≠ 0 then childSize else 0

/-- The method `OctreeNode::subdivide`. -/
def subdivide : OctreeNode → OctreeNode
  | null => null
  | node ch t c u l mx my mz sz =>
      if sz ≤ 1 ∨ l = false then node ch t c u l mx my mz sz
      else
        let childSize := Int.tdiv sz 2
        node
          (fun i =>
            node (fun _ => null) t c false true
              (mx + octantOffset i 1 childSize) (my + octantOffset i 2 childSize)
              (mz + octantOffset i 4 childSize) childSize)
          t c u false mx my mz sz

/-- The flag `allSame` of `tryCompress`: the loop over `i = 1..7` with `break` computes the
conjunction, over these slots, of "present, same material and same colour as slot 0". -/
def allSame (ch : Fin 8 → OctreeNode) : Bool :=
  ([1, 2, 3, 4, 5, 6, 7] : List (Fin 8)).all fun i =>
    !((ch i).isNull || (ch i).voxelType != (ch 0).voxelType ||
      (ch i).voxelColor != (ch 0).voxelColor)

/-- The method `OctreeNode::tryCompress`: the node after the call and the returned flag. -/
def tryCompress : OctreeNode → OctreeNode × Bool
  | null => (null, false)
  | node ch t c u l mx my mz sz =>
      if l = true ∨ (ch 0).isNull = true then (node ch t c u l mx my mz sz, false)
      else
        let firstType := (ch 0).voxelType
        let firstColor := (ch 0).voxelColor
        if allSame ch = true then
          (node (fun _ => null) firstType firstColor true true mx my mz sz, true)
        else (node ch t c u l mx my mz sz, false)

/-- The method `OctreeNode::getChildIndex`. -/
def getChildIndex (n : OctreeNode) (x y z : Int) : Fin 8 :=
  let childSize := Int.tdiv n.size 2
  ⟨(if x ≥ n.minX + childSize then 1 else 0) ||| (if y ≥ n.minY + childSize then 2 else 0)
      ||| (if z ≥ n.minZ + childSize then 4 else 0), by
    split <;> split <;> split <;> decide⟩

end OctreeNode

open OctreeNode

/-! ## OctreeVoxelWorld -/

/-- The private state of `OctreeVoxelWorld`. -/
structure OctreeVoxelWorld where
  root : OctreeNode
  worldSizeX : Int
  worldSizeY : Int
  worldSizeZ : Int
  maxDepth : Nat

/-- The loop `while (rootSize < maxSize) rootSize <<= 1` on a 32-bit `int`. `none` when the
shift would leave the `int` range or when the iteration budget is exhausted. -/
def rootSizeLoop (maxSize : Int) : Nat → Int → Option Int
  | 0, _ => none
  | fuel + 1, rootSize =>
      if rootSize < maxSize then
        if rootSize * 2 < 2 ^ 31 then rootSizeLoop maxSize fuel (rootSize * 2) else none
      else some rootSize

/-- The loop `while (temp > 1) { maxDepth++; temp >>= 1; }`. -/
def maxDepthLoop : Nat → Int → Nat → Option Nat
  | 0, _, _ => none
  | fuel + 1, temp, maxDepth =>
      if temp > 1 then maxDepthLoop fuel (temp >>> (1 : Nat)) (maxDepth + 1) else some maxDepth

/-- The constructor `OctreeVoxelWorld(sizeX, sizeY, sizeZ)`. Both loops run on a 32-bit `int`
starting from `1` (doubling) or from at most `2^30` (halving), so 32 iterations are a
complete budget; `none` means that the constructor does not return a world. -/
def OctreeVoxelWorld.create (sizeX sizeY sizeZ : Int) : Option OctreeVoxelWorld :=
  let maxSize := max sizeX (max sizeY sizeZ)
  match rootSizeLoop maxSize 32 1 with
  | none => none
  | some rootSize =>
      match maxDepthLoop 32 rootSize 0 with
      | none => none
      | some maxDepth =>
          some
            { root := OctreeNode.create 0 0 0 rootSize
              worldSizeX := sizeX, worldSizeY := sizeY, worldSizeZ := sizeZ
              maxDepth := maxDepth }

/-- The method `getVoxelRecursive(node, x, y, z, depth)`, with the member `maxDepth` as a
parameter. -/
def getVoxelRecursive (maxDepth : Nat) (x y z : Int) : OctreeNode → Nat → Voxel
  | .null, _ => Voxel.empty
  | .node ch t c u l mx my mz sz, depth =>
      if l = true ∨ depth ≥ maxDepth then { Voxel.empty with type := t, color := c }
      else
        let childIndex := (OctreeNode.node ch t c u l mx my mz sz).getChildIndex x y z
        if (ch childIndex).isNull = false then
          getVoxelRecursive maxDepth x y z (ch childIndex) (depth + 1)
        else Voxel.empty

/-- The method `getVoxel`. -/
def OctreeVoxelWorld.getVoxel (w : OctreeVoxelWorld) (x y z : Int) : Voxel :=
  if x < 0 ∨ x ≥ w.worldSizeX ∨ y < 0 ∨ y ≥ w.worldSizeY ∨ z < 0 ∨ z ≥ w.worldSizeZ then
    Voxel.empty
  else getVoxelRecursive w.maxDepth x y z w.root 0

/-- The method `isSolid`. -/
def OctreeVoxelWorld.isSolid (w : OctreeVoxelWorld) (x y z : Int) : Bool :=
  (w.getVoxel x y z).type != 0

/-- The loop of `insertVoxelRecursive` that copies the node's material and colour to every
present child after `subdivide`. -/
def copyToChildren : OctreeNode → OctreeNode
  | .null => .null
  | .node ch t c u l mx my mz sz =>
      .node
        (fun i =>
          match ch i with
          | .null => .null
          | .node ch2 _ _ u2 l2 mx2 my2 mz2 sz2 => .node ch2 t c u2 l2 mx2 my2 mz2 sz2)
        t c u l mx my mz sz

/-- The block of `insertVoxelRecursive` that creates `children[childIndex]` when the slot is
empty. -/
def ensureChild (n : OctreeNode) (childIndex : Fin 8) : OctreeNode :=
  if (n.children childIndex).isNull = true then
    let childSize := Int.tdiv n.size 2
    n.setChild childIndex
      (OctreeNode.create (n.minX + octantOffset childIndex 1 childSize)
        (n.minY + octantOffset childIndex 2 childSize)
        (n.minZ + octantOffset childIndex 4 childSize) childSize)
  else n

/-- The method `insertVoxelRecursive(node, x, y, z, voxel, depth)`. The source uses `depth`
and `maxDepth` only in the test `depth >= maxDepth` and in the recursive call with
`depth + 1`; the embedding carries `rem = maxDepth - depth`, so that the test is `rem = 0`
and the recursive call receives `rem - 1`. The node is dereferenced without a null test in
the source (it is the root or a child that was just ensured to exist). -/
def insertVoxelRecursive (x y z : Int) (voxel : Voxel) : Nat → OctreeNode → OctreeNode
  | _, .null => .null
  | 0, .node ch _ _ u _ mx my mz sz => .node ch voxel.type voxel.color u true mx my mz sz
  | rem + 1, .node ch t c u l mx my mz sz =>
      if sz = 1 then .node ch voxel.type voxel.color u true mx my mz sz
      else if l = true ∧ t = voxel.type ∧ c = voxel.color then .node ch t c u l mx my mz sz
      else
        let n1 :=
          if l = true then copyToChildren (subdivide (.node ch t c u l mx my mz sz))
          else .node ch t c u l mx my mz sz
        let childIndex := n1.getChildIndex x y z
        let n2 := ensureChild n1 childIndex
        n2.setChild childIndex (insertVoxelRecursive x y z voxel rem (n2.children childIndex))

/-- The method `setVoxel`. -/
def OctreeVoxelWorld.setVoxel (w : OctreeVoxelWorld) (x y z : Int) (voxel : Voxel) :
    OctreeVoxelWorld :=
  if x < 0 ∨ x ≥ w.worldSizeX ∨ y < 0 ∨ y ≥ w.worldSizeY ∨ z < 0 ∨ z ≥ w.worldSizeZ then w
  else if voxel.type ≠ 0 then
    { w with root := insertVoxelRecursive x y z voxel w.maxDepth w.root }
  else w

/-- The disjunction of a flag over the eight child slots, in index order. -/
def any8 (f : Fin 8 → Bool) : Bool :=
  f 0 || f 1 || f 2 || f 3 || f 4 || f 5 || f 6 || f 7

/-- The sum of a counter over the eight child slots, in index order. -/
def sum8 (f : Fin 8 → Nat) : Nat :=
  f 0 + f 1 + f 2 + f 3 + f 4 + f 5 + f 6 + f 7

/-- The lambda `compressRecursive` of `compressTree`: the node after one post-order pass and
the flag `compressedAny`. -/
def compressRecursive : OctreeNode → OctreeNode × Bool
  | .null => (.null, false)
  | .node ch t c u l mx my mz sz =>
      if l = true then (.node ch t c u l mx my mz sz, false)
      else
        let compressedChildren : Bool := any8 fun i => (compressRecursive (ch i)).2
        let r := tryCompress (.node (fun i => (compressRecursive (ch i)).1) t c u l mx my mz sz)
        (r.1, compressedChildren || r.2)

/-- The loop `do { compressed = compressRecursive(root); } while (compressed)` with an
iteration budget; `none` when the budget is exhausted before a pass reports no compression. -/
def compressLoop : Nat → OctreeNode → Option OctreeNode
  | 0, _ => none
  | fuel + 1, root =>
      let r := compressRecursive root
      if r.2 = true then compressLoop fuel r.1 else some r.1

/-- The method `compressTree`, run with an iteration budget for its loop. -/
def OctreeVoxelWorld.compressTree (fuel : Nat) (w : OctreeVoxelWorld) :
    Option OctreeVoxelWorld :=
  match compressLoop fuel w.root with
  | none => none
  | some r => some { w with root := r }

/-- The lambda `countRecursive` of `getNodeCount`. -/
def countNodes : OctreeNode → Nat
  | .null => 0
  | .node ch _ _ _ l _ _ _ _ =>
      if l = false then 1 + sum8 fun i => countNodes (ch i) else 1

/-- The lambda `countRecursive` of `getLeafCount`. -/
def countLeaves : OctreeNode → Nat
  | .null => 0
  | .node ch _ _ _ l _ _ _ _ =>
      if l = true then 1 else sum8 fun i => countLeaves (ch i)

/-- The method `getNodeCount`. -/
def OctreeVoxelWorld.getNodeCount (w : OctreeVoxelWorld) : Nat := countNodes w.root

/-- The method `getLeafCount`. -/
def OctreeVoxelWorld.getLeafCount (w : OctreeVoxelWorld) : Nat := countLeaves w.root


/-! ## Reachable worlds and the structural invariant -/

/-- Worlds reachable from construction by `setVoxel` and `compressTree` calls. -/
inductive Reachable : OctreeVoxelWorld → Prop
  | create {sizeX sizeY sizeZ : Int} {w : OctreeVoxelWorld}
      (h : OctreeVoxelWorld.create sizeX sizeY sizeZ = some w) : Reachable w
  | setVoxel {w : OctreeVoxelWorld} (x y z : Int) (voxel : Voxel) (h : Reachable w) :
      Reachable (w.setVoxel x y z voxel)
  | compressTree {w w2 : OctreeVoxelWorld} (fuel : Nat) (h : Reachable w)
      (hc : w.compressTree fuel = some w2) : Reachable w2

/-- Worlds reachable from construction by `setVoxel` calls only. -/
inductive ReachableBySet : OctreeVoxelWorld → Prop
  | create {sizeX sizeY sizeZ : Int} {w : OctreeVoxelWorld}
      (h : OctreeVoxelWorld.create sizeX sizeY sizeZ = some w) : ReachableBySet w
  | setVoxel {w : OctreeVoxelWorld} (x y z : Int) (voxel : Voxel) (h : ReachableBySet w) :
      ReachableBySet (w.setVoxel x y z voxel)

/-- Shape and geometry of a subtree whose root node lies `rem` levels above the finest
level: sizes are powers of two that halve at every level, a leaf has no children, an
internal node has its eight children placed at the octant origins. -/
inductive WellFormed : Nat → OctreeNode → Prop
  | leaf {rem : Nat} {ch : Fin 8 → OctreeNode} {t c : Nat} {u : Bool} {mx my mz sz : Int}
      (hsz : sz = 2 ^ rem) (hch : ∀ i, ch i = .null) :
      WellFormed rem (.node ch t c u true mx my mz sz)
  | inner {rem : Nat} {ch : Fin 8 → OctreeNode} {t c : Nat} {u : Bool} {mx my mz sz : Int}
      (hsz : sz = 2 ^ (rem + 1))
      (hwf : ∀ i, WellFormed rem (ch i))
      (hx : ∀ i, (ch i).minX = mx + octantOffset i 1 (2 ^ rem))
      (hy : ∀ i, (ch i).minY = my + octantOffset i 2 (2 ^ rem))
      (hz : ∀ i, (ch i).minZ = mz + octantOffset i 4 (2 ^ rem)) :
      WellFormed (rem + 1) (.node ch t c u false mx my mz sz)

/-- The position and extent of a node: `(minX, minY, minZ, size)`. -/
def OctreeNode.geom (n : OctreeNode) : Int × Int × Int × Int :=
  (n.minX, n.minY, n.minZ, n.size)

/-- The node `n` is reached from `root` by following `d` non-empty child slots. -/
inductive NodeAt (root : OctreeNode) : Nat → OctreeNode → Prop
  | root (h : root.isNull = false) : NodeAt root 0 root
  | child {d : Nat} {n : OctreeNode} (i : Fin 8) (h : NodeAt root d n)
      (hc : (n.children i).isNull = false) : NodeAt root (d + 1) (n.children i)

/-! ## Auxiliary definitions for the statements -/

/-- The voxel that `getVoxelRecursive` builds from a node's material and colour. -/
def nodeVoxel (t c : Nat) : Voxel := { Voxel.empty with type := t, color := c }

/-- The eight children that `subdivide` creates for a leaf of size `2 ^ (r + 1)`. -/
def freshChildren (t c : Nat) (mx my mz : Int) (r : Nat) : Fin 8 → OctreeNode :=
  fun i =>
    .node (fun _ => .null) t c false true (mx + octantOffset i 1 (2 ^ r))
      (my + octantOffset i 2 (2 ^ r)) (mz + octantOffset i 4 (2 ^ r)) (2 ^ r)

/-- The coordinate lies in the cube `[min, min + size)^3` of the node. -/
def InCube (n : OctreeNode) (x y z : Int) : Prop :=
  (n.minX ≤ x ∧ x < n.minX + n.size) ∧ (n.minY ≤ y ∧ y < n.minY + n.size) ∧
    (n.minZ ≤ z ∧ z < n.minZ + n.size)

/-- A world of extent `2^k` in each direction whose well-formed root covers exactly the
extent. -/
def CubeWorld (k : Nat) (w : OctreeVoxelWorld) : Prop :=
  WellFormed k w.root ∧ w.maxDepth = k ∧ w.worldSizeX = 2 ^ k ∧ w.worldSizeY = 2 ^ k ∧
    w.worldSizeZ = 2 ^ k ∧ w.root.geom = (0, 0, 0, 2 ^ k)

/-- The calls `setVoxel(x, y, z, v)` for the cells of a list, in list order. -/
def fillWith (v : Voxel) (w : OctreeVoxelWorld) (cells : List (Int × Int × Int)) :
    OctreeVoxelWorld :=
  cells.foldl (fun w p => w.setVoxel p.1 p.2.1 p.2.2 v) w

/-- The world that `OctreeVoxelWorld(4, 4, 4)` constructs. -/
def world444 : OctreeVoxelWorld :=
  { root := OctreeNode.create 0 0 0 4, worldSizeX := 4, worldSizeY := 4, worldSizeZ := 4,
    maxDepth := 2 }

/-- The world that `OctreeVoxelWorld(3, 3, 3)` constructs: extent 3 inside a root cube of
size 4. -/
def world333 : OctreeVoxelWorld :=
  { root := OctreeNode.create 0 0 0 4, worldSizeX := 3, worldSizeY := 3, worldSizeZ := 3,
    maxDepth := 2 }

/-- The world that `OctreeVoxelWorld(2, 2, 2)` constructs. -/
def world222 : OctreeVoxelWorld :=
  { root := OctreeNode.create 0 0 0 2, worldSizeX := 2, worldSizeY := 2, worldSizeZ := 2,
    maxDepth := 1 }

/-- A grass voxel `Voxel(1, 0xFF00FF00)`. -/
def grass : Voxel := Voxel.ofTypeColor 1 0xFF00FF00

/-- The world `OctreeVoxelWorld(4, 4, 4)` after `setVoxel(2, 2, 2, grass)`. -/
def world444Grass : OctreeVoxelWorld := world444.setVoxel 2 2 2 grass

/-- The eight cells of the 2x2x2 world, in an arbitrary order. -/
def cells222 : List (Int × Int × Int) :=
  [(1, 1, 1), (0, 0, 0), (1, 0, 0), (0, 1, 0), (0, 0, 1), (1, 1, 0), (0, 1, 1), (1, 0, 1)]

/-! ## Floating point values

The ray and normal code computes on `float` and `float3`. The embedding is generic in the
type of `float` values: `FloatOps` lists the operations the code uses and assumes nothing
about them, so a statement proved for every `FloatOps` holds for IEEE binary32 in
particular. `XF` is an interpretation in which finite values are exact fractions and the
infinities and NaN follow IEEE 754; it is used to run the code on inputs on which every
binary32 operation is exact (small integers and halves, divisions by one or by zero). -/

/-- The record `float3`. -/
structure Vec3 (F : Type) where
  x : F
  y : F
  z : F

/-- The component `v[i]`. -/
def Vec3.get {F : Type} (v : Vec3 F) : Fin 3 → F
  | 0 => v.x
  | 1 => v.y
  | 2 => v.z

/-- The operations on `float` used by the code: conversion from `int`, the four arithmetic
operators, `<`, `==`, `static_cast<int>(floor(x))`, `fabs`, the constants `FLT_MAX` and
`0.1f`, and the library functions `LiteMath::length` and `LiteMath::normalize`. -/
class FloatOps (F : Type) where
  ofInt : Int → F
  add : F → F → F
  sub : F → F → F
  mul : F → F → F
  div : F → F → F
  lt : F → F → Bool
  eq : F → F → Bool
  floorInt : F → Int
  abs : F → F
  fltMax : F
  tenth : F
  length : Vec3 F → F
  normalize : Vec3 F → Vec3 F

/-- The function `std::max(a, b)`: `(a < b) ? b : a`. -/
def fmax {F : Type} [FloatOps F] (a b : F) : F := if FloatOps.lt a b = true then b else a

/-- The function `std::min(a, b)`: `(b < a) ? b : a`. -/
def fmin {F : Type} [FloatOps F] (a b : F) : F := if FloatOps.lt b a = true then b else a

/-- The vector `float3(a, b, c)` built from `int` values. -/
def Vec3.ofInts {F : Type} [FloatOps F] (a b c : Int) : Vec3 F :=
  ⟨FloatOps.ofInt a, FloatOps.ofInt b, FloatOps.ofInt c⟩

/-- The vector sum `u + v`. -/
def Vec3.add {F : Type} [FloatOps F] (u v : Vec3 F) : Vec3 F :=
  ⟨FloatOps.add u.x v.x, FloatOps.add u.y v.y, FloatOps.add u.z v.z⟩

/-- The vector difference `u - v`. -/
def Vec3.sub {F : Type} [FloatOps F] (u v : Vec3 F) : Vec3 F :=
  ⟨FloatOps.sub u.x v.x, FloatOps.sub u.y v.y, FloatOps.sub u.z v.z⟩

/-- The product `v * t` of a vector and a scalar. -/
def Vec3.scale {F : Type} [FloatOps F] (v : Vec3 F) (t : F) : Vec3 F :=
  ⟨FloatOps.mul v.x t, FloatOps.mul v.y t, FloatOps.mul v.z t⟩

/-- Exact extended values: the fraction `num / den` (with `den > 0`), the two infinities and
NaN. Zero carries no sign. -/
inductive XF where
  | fin (num : Int) (den : Nat) : XF
  | pinf : XF
  | ninf : XF
  | nan : XF
deriving DecidableEq

namespace XF

/-- Negation. -/
def neg : XF → XF
  | fin a b => fin (-a) b
  | pinf => ninf
  | ninf => pinf
  | nan => nan

/-- Addition: exact on fractions, IEEE on infinities and NaN. -/
def add : XF → XF → XF
  | fin a b, fin c d => fin (a * d + c * b) (b * d)
  | nan, _ => nan
  | _, nan => nan
  | pinf, ninf => nan
  | ninf, pinf => nan
  | pinf, _ => pinf
  | _, pinf => pinf
  | ninf, _ => ninf
  | _, ninf => ninf

/-- Subtraction. -/
def sub (a b : XF) : XF := add a (neg b)

/-- The product of an infinity of sign `pos` with a fraction of numerator `a`. -/
def infTimes (pos : Bool) (a : Int) : XF :=
  if a = 0 then nan else if (0 < a) = pos then pinf else ninf

/-- Multiplication: exact on fractions, IEEE on infinities and NaN. -/
def mul : XF → XF → XF
  | fin a b, fin c d => fin (a * c) (b * d)
  | nan, _ => nan
  | _, nan => nan
  | pinf, fin c _ => infTimes true c
  | ninf, fin c _ => infTimes false c
  | fin a _, pinf => infTimes true a
  | fin a _, ninf => infTimes false a
  | pinf, pinf => pinf
  | ninf, ninf => pinf
  | pinf, ninf => ninf
  | ninf, pinf => ninf

/-- Division: exact on fractions with a non-zero divisor, IEEE otherwise (the zero divisor
counts as `+0`). -/
def div : XF → XF → XF
  | nan, _ => nan
  | _, nan => nan
  | fin a b, fin c d =>
      if c = 0 then (if a = 0 then nan else if 0 < a then pinf else ninf)
      else if 0 < c then fin (a * d) (b * c.natAbs) else fin (-(a * d)) (b * c.natAbs)
  | fin _ _, pinf => fin 0 1
  | fin _ _, ninf => fin 0 1
  | pinf, fin c _ => if 0 ≤ c then pinf else ninf
  | ninf, fin c _ => if 0 ≤ c then ninf else pinf
  | pinf, pinf => nan
  | pinf, ninf => nan
  | ninf, pinf => nan
  | ninf, ninf => nan

/-- The comparison `a < b`, false when an operand is NaN. -/
def lt : XF → XF → Bool
  | fin a b, fin c d => decide (a * d < c * b)
  | nan, _ => false
  | _, nan => false
  | ninf, ninf => false
  | ninf, _ => true
  | _, ninf => false
  | pinf, _ => false
  | _, pinf => true

/-- The comparison `a == b`, false when an operand is NaN. -/
def eq : XF → XF → Bool
  | fin a b, fin c d => decide (a * d = c * b)
  | pinf, pinf => true
  | ninf, ninf => true
  | _, _ => false

/-- The conversion `static_cast<int>(floor(x))` (defined by the language for finite values in
`int` range only; `0` stands for the other cases). -/
def floorInt : XF → Int
  | fin a b => a / b
  | _ => 0

/-- The function `fabs`. -/
def abs : XF → XF
  | fin a b => fin (Int.ofNat a.natAbs) b
  | pinf => pinf
  | ninf => pinf
  | nan => nan

/-- The length of a vector with at most one non-zero component, the only case in which it
is computed exactly here; NaN otherwise. -/
def length (v : Vec3 XF) : XF :=
  if eq v.y (fin 0 1) = true ∧ eq v.z (fin 0 1) = true then abs v.x
  else if eq v.x (fin 0 1) = true ∧ eq v.z (fin 0 1) = true then abs v.y
  else if eq v.x (fin 0 1) = true ∧ eq v.y (fin 0 1) = true then abs v.z
  else nan

/-- The function `normalize(v) = v / length(v)`. -/
def normalize (v : Vec3 XF) : Vec3 XF :=
  ⟨div v.x (length v), div v.y (length v), div v.z (length v)⟩

end XF

instance : FloatOps XF where
  ofInt i := XF.fin i 1
  add := XF.add
  sub := XF.sub
  mul := XF.mul
  div := XF.div
  lt := XF.lt
  eq := XF.eq
  floorInt := XF.floorInt
  abs := XF.abs
  fltMax := XF.fin (2 ^ 128 - 2 ^ 104) 1
  tenth := XF.fin 13421773 134217728
  length := XF.length
  normalize := XF.normalize

/-! ## The method `getNormal` -/

/-- One component of the vector that `getNormal` builds before normalising, as the `int`
value of the `float` stored: `-1` when `lowOk` (the guard `x > 0`) holds and the cell on the
negative side is not solid, else `1` when `highOk` (the guard `x < worldSize - 1`) holds and
the cell on the positive side is not solid, else the initial `0`. -/
def normalComponent (lowOk negSolid highOk posSolid : Bool) : Int :=
  if lowOk = true ∧ negSolid = false then -1
  else if highOk = true ∧ posSolid = false then 1
  else 0

/-- The vector `normal` of `OctreeVoxelWorld::getNormal` before the final test. -/
def OctreeVoxelWorld.getNormalRaw (w : OctreeVoxelWorld) (x y z : Int) : Int × Int × Int :=
  (normalComponent (decide (x > 0)) (w.isSolid (x - 1) y z) (decide (x < w.worldSizeX - 1))
      (w.isSolid (x + 1) y z),
    normalComponent (decide (y > 0)) (w.isSolid x (y - 1) z) (decide (y < w.worldSizeY - 1))
      (w.isSolid x (y + 1) z),
    normalComponent (decide (z > 0)) (w.isSolid x y (z - 1)) (decide (z < w.worldSizeZ - 1))
      (w.isSolid x y (z + 1)))

/-- The method `OctreeVoxelWorld::getNormal`. -/
def OctreeVoxelWorld.getNormal {F : Type} [FloatOps F] (w : OctreeVoxelWorld) (x y z : Int) :
    Vec3 F :=
  let normal : Vec3 F :=
    Vec3.ofInts (w.getNormalRaw x y z).1 (w.getNormalRaw x y z).2.1 (w.getNormalRaw x y z).2.2
  if FloatOps.lt (FloatOps.length normal) (FloatOps.tenth : F) = true then Vec3.ofInts 0 1 0
  else FloatOps.normalize normal

/-- The un-normalised normal as the specification words it: on each axis `-1` if the cell
on the negative side is empty, otherwise `1` if the cell on the positive side is empty,
otherwise `0`, where emptiness is `isSolid` being false. -/
def specNormalRaw (w : OctreeVoxelWorld) (x y z : Int) : Int × Int × Int :=
  ((if w.isSolid (x - 1) y z = false then -1 else if w.isSolid (x + 1) y z = false then 1 else 0),
    (if w.isSolid x (y - 1) z = false then -1 else if w.isSolid x (y + 1) z = false then 1 else 0),
    (if w.isSolid x y (z - 1) = false then -1 else if w.isSolid x y (z + 1) = false then 1 else 0))

/-! ## Packed octree file (`src/voxel_octree.h`, `src/voxel_octree.cpp`)

A file is the list of its bytes. A `uint32_t` lies in memory as four bytes, least
significant first (the layout of the encoding host named in the format description). -/

/-- The record `SparseVoxelOctreeHeader`. -/
structure SparseVoxelOctreeHeader where
  max_level_size : Nat
deriving DecidableEq

/-- The record `SparseVoxelOctree`: the header and the vector of node words. -/
structure SparseVoxelOctree where
  header : SparseVoxelOctreeHeader
  data : List Nat
deriving DecidableEq

/-- The four bytes of a `uint32_t` in memory. -/
def bytesOfU32 (w : Nat) : List Nat :=
  [w % 256, w / 256 % 256, w / 65536 % 256, w / 16777216 % 256]

/-- The `uint32_t` that four bytes in memory hold. -/
def u32OfBytes : List Nat → Nat
  | [b0, b1, b2, b3] => b0 + 256 * b1 + 65536 * b2 + 16777216 * b3
  | _ => 0

/-- The bytes of an array of `uint32_t` in memory. -/
def bytesOfWords : List Nat → List Nat
  | [] => []
  | w :: ws => bytesOfU32 w ++ bytesOfWords ws

/-- The array of `uint32_t` that a byte array (of a length divisible by four) holds. -/
def wordsOfBytes : List Nat → List Nat
  | b0 :: b1 :: b2 :: b3 :: rest => u32OfBytes [b0, b1, b2, b3] :: wordsOfBytes rest
  | _ => []

/-- The function `save_voxel_octree`: the bytes written to the file. The count is the
vector size converted to `uint32_t`. -/
def save_voxel_octree (scene : SparseVoxelOctree) : List Nat :=
  let size := scene.data.length % 2 ^ 32
  bytesOfU32 scene.header.max_level_size ++ bytesOfU32 size ++
    bytesOfWords (scene.data.take size)

/-- The state of a `std::ifstream`: the bytes not yet extracted and whether the stream is
still good. -/
structure IStream where
  rest : List Nat
  good : Bool
deriving DecidableEq

/-- The call `fs.read(dest, dest.length)`, where `dest` is the destination memory before the
call: the stream after the call and the destination memory after it. A stream that is not
good extracts nothing; a read past the end stores the bytes that are left and fails. -/
def IStream.read (fs : IStream) (dest : List Nat) : IStream × List Nat :=
  if fs.good = false then (fs, dest)
  else if dest.length ≤ fs.rest.length then
    ({ rest := fs.rest.drop dest.length, good := true }, fs.rest.take dest.length)
  else ({ rest := [], good := false }, fs.rest ++ dest.drop fs.rest.length)

/-- The vector after a call `data.resize(size)` that returns: the first `size` elements
kept, zeros appended. The exit of the call by an exception is in `vectorResize`. -/
def resizeWords (data : List Nat) (size : Nat) : List Nat :=
  data.take size ++ List.replicate (size - data.length) 0

/-- The body of `load_voxel_octree` on a file that could be opened, in a call in which
`data.resize(size)` returns: the scene after the call and the state of the local stream when
it is closed. Both exits of the function are in `load_voxel_octree_outcome`. -/
def loadStream (scene : SparseVoxelOctree) (file : List Nat) : SparseVoxelOctree × IStream :=
  let fs0 : IStream := { rest := file, good := true }
  let r1 := fs0.read (bytesOfU32 scene.header.max_level_size)
  let r2 := r1.1.read (bytesOfU32 0)
  let size := u32OfBytes r2.2
  let r3 := r2.1.read (bytesOfWords (resizeWords scene.data size))
  ({ header := { max_level_size := u32OfBytes r1.2 }, data := wordsOfBytes r3.2 }, r3.1)

/-- The function `load_voxel_octree` in a call that returns: it returns nothing, its only
effect is on `scene`. -/
def load_voxel_octree (scene : SparseVoxelOctree) (file : List Nat) : SparseVoxelOctree :=
  (loadStream scene file).1

/-- The byte stream is truncated: shorter than 8 bytes, or the word count it declares
exceeds the number of complete words that follow the count. -/
def Truncated (file : List Nat) : Prop :=
  file.length < 8 ∨ (file.length - 8) / 4 < u32OfBytes ((file.drop 4).take 4)

/-- The call `data.resize(size)` in an environment in which a vector can be grown to `n`
elements exactly when `canGrow n` holds: `none` when the call exits by an exception
(`std::length_error` or `std::bad_alloc`; the vector is then left as it was), else the vector
after the call. A call that does not grow the vector always returns. -/
def vectorResize (canGrow : Nat → Bool) (data : List Nat) (size : Nat) : Option (List Nat) :=
  if size ≤ data.length ∨ canGrow size = true then some (resizeWords data size) else none

/-- The ways in which a call of `load_voxel_octree` ends: it returns, with the scene after
the call and the state of the local stream when it is closed, or the exception of
`data.resize(size)` leaves it, with the scene at that point. -/
inductive LoadOutcome where
  | returned (scene : SparseVoxelOctree) (fs : IStream)
  | threw (scene : SparseVoxelOctree)
deriving DecidableEq

/-- The function `load_voxel_octree` on a file that could be opened, with both exits, in an
environment in which a vector can be grown to `n` elements exactly when `canGrow n` holds.
The count `size` comes from the file unchecked; when `data.resize(size)` throws, the header
has been read and the data is as it was. -/
def load_voxel_octree_outcome (canGrow : Nat → Bool) (scene : SparseVoxelOctree)
    (file : List Nat) : LoadOutcome :=
  let fs0 : IStream := { rest := file, good := true }
  let r1 := fs0.read (bytesOfU32 scene.header.max_level_size)
  let r2 := r1.1.read (bytesOfU32 0)
  let size := u32OfBytes r2.2
  let header : SparseVoxelOctreeHeader := { max_level_size := u32OfBytes r1.2 }
  match vectorResize canGrow scene.data size with
  | none => LoadOutcome.threw { header := header, data := scene.data }
  | some data =>
      let r3 := r2.1.read (bytesOfWords data)
      LoadOutcome.returned { header := header, data := wordsOfBytes r3.2 } r3.1

/-- The value of the local `size` of `load_voxel_octree` when `data.resize(size)` is called:
the count as the second `read` leaves it (0 when that read extracts nothing, zero-filled
when it extracts fewer than four bytes). -/
def loadCount (file : List Nat) : Nat :=
  let fs0 : IStream := { rest := file, good := true }
  let r1 := fs0.read (bytesOfU32 0)
  u32OfBytes (r1.1.read (bytesOfU32 0)).2

/-- An environment in which a vector can be grown to at most 1024 elements. -/
def canGrow1024 (n : Nat) : Bool := decide (n ≤ 1024)

/-! ## The method `getDescription` -/

/-- The method `OctreeVoxelWorld::getDescription`. The source also computes the local
`float compression` (see `descriptionCompression`) and never uses it. -/
def OctreeVoxelWorld.getDescription (w : OctreeVoxelWorld) : String :=
  "Octree (" ++ toString w.worldSizeX ++ "x" ++ toString w.worldSizeY ++ "x" ++
    toString w.worldSizeZ ++ "), " ++ "Nodes: " ++ toString w.getNodeCount ++ ", " ++
    "Leaves: " ++ toString w.getLeafCount

/-! ## Dense grid traversal (`src/main.cpp`) -/

/-- The constant `GRID_SIZE_X`. -/
def GRID_SIZE_X : Int := 128

/-- The constant `GRID_SIZE_Y`. -/
def GRID_SIZE_Y : Int := 64

/-- The constant `GRID_SIZE_Z`. -/
def GRID_SIZE_Z : Int := 128

/-- The enumerator `AIR`. -/
def AIR : Nat := 0

/-- The enumerator `SURFACE`. -/
def SURFACE : Nat := 1

/-- The global `voxelGrid`, read as `voxelGrid[x][y][z]`. The code reads it only at indices
inside the grid. -/
abbrev VoxelGrid := Int → Int → Int → Nat

/-- The function `std::clamp(v, lo, hi)`. -/
def clampInt (v lo hi : Int) : Int := if v < lo then lo else if hi < v then hi else v

/-- The function `initVoxelGrid`: every cell of a column up to the clamped height is
`SURFACE`. The `int` that `static_cast<int>(height)` yields for a column comes from `float`
trigonometry and is a parameter. -/
def initVoxelGrid (height : Int → Int → Int) : VoxelGrid := fun x y z =>
  if 0 ≤ x ∧ x < GRID_SIZE_X ∧ 0 ≤ z ∧ z < GRID_SIZE_Z ∧ 0 ≤ y ∧
      y ≤ clampInt (height x z) 0 (GRID_SIZE_Y - 1) then SURFACE
  else AIR

/-- The record `DDAHit`. -/
structure DDAHit (F : Type) where
  hit : Bool
  position : Vec3 F
  normal : Vec3 F
  distance : F
  voxelType : Nat

/-- The value `{false, float3(0.0f), float3(0.0f), 0.0f, AIR}` returned on a miss. -/
def DDAHit.miss {F : Type} [FloatOps F] : DDAHit F :=
  { hit := false, position := Vec3.ofInts 0 0 0, normal := Vec3.ofInts 0 0 0,
    distance := FloatOps.ofInt 0, voxelType := AIR }

/-- The test `x < 0 || x >= GRID_SIZE_X || y < 0 || y >= GRID_SIZE_Y || z < 0 || z >= GRID_SIZE_Z`. -/
def outsideGrid (x y z : Int) : Prop :=
  x < 0 ∨ x ≥ GRID_SIZE_X ∨ y < 0 ∨ y ≥ GRID_SIZE_Y ∨ z < 0 ∨ z ≥ GRID_SIZE_Z

instance (x y z : Int) : Decidable (outsideGrid x y z) := by
  unfold outsideGrid; infer_instance

/-- The vector `float3(GRID_SIZE_X/2.0f, 0, GRID_SIZE_Z/2.0f)`. -/
def gridOffset {F : Type} [FloatOps F] : Vec3 F :=
  ⟨FloatOps.div (FloatOps.ofInt GRID_SIZE_X) (FloatOps.ofInt 2), FloatOps.ofInt 0,
    FloatOps.div (FloatOps.ofInt GRID_SIZE_Z) (FloatOps.ofInt 2)⟩

/-- One iteration of the entry loop of `rayCastDDA` for an axis of extent `gridSize`:
`none` when the iteration returns a miss, else the new `(tMin, tMax)`. -/
def ddaSlabAxis {F : Type} [FloatOps F] (p d : F) (gridSize : Int) (t : F × F) :
    Option (F × F) :=
  if FloatOps.eq d (FloatOps.ofInt 0) = false then
    let t1 := FloatOps.div (FloatOps.sub (FloatOps.ofInt 0) p) d
    let t2 := FloatOps.div (FloatOps.sub (FloatOps.ofInt (gridSize - 1)) p) d
    let tNear := fmin t1 t2
    let tFar := fmax t1 t2
    let tMin := fmax t.1 tNear
    let tMax := fmin t.2 tFar
    if FloatOps.lt tMax tMin = true then none else some (tMin, tMax)
  else some t

/-- The entry loop of `rayCastDDA` over the three axes, started with `tMin = 0` and
`tMax = maxDistance`. -/
def ddaEntry {F : Type} [FloatOps F] (pos dir : Vec3 F) (maxDistance : F) : Option (F × F) :=
  match ddaSlabAxis pos.x dir.x GRID_SIZE_X (FloatOps.ofInt 0, maxDistance) with
  | none => none
  | some t =>
      match ddaSlabAxis pos.y dir.y GRID_SIZE_Y t with
      | none => none
      | some t2 => ddaSlabAxis pos.z dir.z GRID_SIZE_Z t2

/-- One component of the normal that `rayCastDDA` builds at a hit cell. -/
def ddaNormalComponent (lowOk : Bool) (neg : Nat) (highOk : Bool) (pos : Nat) : Int :=
  if lowOk = true ∧ neg = AIR then -1 else if highOk = true ∧ pos = AIR then 1 else 0

/-- The normal that `rayCastDDA` returns at the hit cell `(x, y, z)`. -/
def ddaNormal {F : Type} [FloatOps F] (grid : VoxelGrid) (x y z : Int) : Vec3 F :=
  let normal : Vec3 F :=
    Vec3.ofInts
      (ddaNormalComponent (decide (x > 0)) (grid (x - 1) y z) (decide (x < GRID_SIZE_X - 1))
        (grid (x + 1) y z))
      (ddaNormalComponent (decide (y > 0)) (grid x (y - 1) z) (decide (y < GRID_SIZE_Y - 1))
        (grid x (y + 1) z))
      (ddaNormalComponent (decide (z > 0)) (grid x y (z - 1)) (decide (z < GRID_SIZE_Z - 1))
        (grid x y (z + 1)))
  if FloatOps.lt (FloatOps.length normal) (FloatOps.tenth : F) = true then Vec3.ofInts 0 1 0
  else FloatOps.normalize normal

/-- The variables that the traversal loop of `rayCastDDA` updates. -/
structure DDAState (F : Type) where
  x : Int
  y : Int
  z : Int
  tMaxX : F
  tMaxY : F
  tMaxZ : F
  distance : F
  pos : Vec3 F

/-- The step of the traversal loop to the next cell, before `pos` is updated. -/
def ddaAdvance {F : Type} [FloatOps F] (stepX stepY stepZ : Int) (tDeltaX tDeltaY tDeltaZ : F)
    (s : DDAState F) : DDAState F :=
  if FloatOps.lt s.tMaxX s.tMaxY = true ∧ FloatOps.lt s.tMaxX s.tMaxZ = true then
    { s with x := s.x + stepX, distance := s.tMaxX, tMaxX := FloatOps.add s.tMaxX tDeltaX }
  else if FloatOps.lt s.tMaxY s.tMaxZ = true then
    { s with y := s.y + stepY, distance := s.tMaxY, tMaxY := FloatOps.add s.tMaxY tDeltaY }
  else
    { s with z := s.z + stepZ, distance := s.tMaxZ, tMaxZ := FloatOps.add s.tMaxZ tDeltaZ }

/-- The loop `while (distance < maxDistance)` of `rayCastDDA` followed by the final
`return` of a miss, with an iteration budget; `none` when the budget is exhausted. -/
def ddaLoop {F : Type} [FloatOps F] (grid : VoxelGrid) (rayStart dir : Vec3 F)
    (maxDistance : F) (stepX stepY stepZ : Int) (tDeltaX tDeltaY tDeltaZ : F) :
    Nat → DDAState F → Option (DDAHit F)
  | 0, _ => none
  | fuel + 1, s =>
      if FloatOps.lt s.distance maxDistance = true then
        if outsideGrid s.x s.y s.z then some DDAHit.miss
        else if grid s.x s.y s.z = SURFACE then
          some
            { hit := true, position := Vec3.sub s.pos gridOffset,
              normal := ddaNormal grid s.x s.y s.z, distance := s.distance,
              voxelType := SURFACE }
        else
          let s2 := ddaAdvance stepX stepY stepZ tDeltaX tDeltaY tDeltaZ s
          ddaLoop grid rayStart dir maxDistance stepX stepY stepZ tDeltaX tDeltaY tDeltaZ fuel
            { s2 with pos := Vec3.add rayStart (Vec3.scale dir s2.distance) }
      else some DDAHit.miss

/-- The first part of `rayCastDDA`: the position and the cell from which the traversal
starts, or `none` when the function returns a miss before the traversal. -/
def ddaStart {F : Type} [FloatOps F] (pos dir : Vec3 F) (maxDistance : F) :
    Option (Vec3 F × Int × Int × Int) :=
  if outsideGrid (FloatOps.floorInt pos.x) (FloatOps.floorInt pos.y) (FloatOps.floorInt pos.z)
  then
    match ddaEntry pos dir maxDistance with
    | none => none
    | some t =>
        if FloatOps.lt (FloatOps.ofInt 0) t.1 = true then
          let pos2 := Vec3.add pos (Vec3.scale dir t.1)
          some (pos2, FloatOps.floorInt pos2.x, FloatOps.floorInt pos2.y,
            FloatOps.floorInt pos2.z)
        else none
  else
    some (pos, FloatOps.floorInt pos.x, FloatOps.floorInt pos.y, FloatOps.floorInt pos.z)

/-- The initial `tMax` of an axis: `(dir != 0) ? (next - pos) / dir : FLT_MAX`, where
`next` is `cell + 1` for a positive step and `cell` otherwise. -/
def ddaInitTMax {F : Type} [FloatOps F] (cell step : Int) (p d : F) : F :=
  if FloatOps.eq d (FloatOps.ofInt 0) = false then
    FloatOps.div (FloatOps.sub (FloatOps.ofInt (if step > 0 then cell + 1 else cell)) p) d
  else FloatOps.fltMax

/-- The `tDelta` of an axis: `(dir != 0) ? fabs(1.0f / dir) : FLT_MAX`. -/
def ddaTDelta {F : Type} [FloatOps F] (d : F) : F :=
  if FloatOps.eq d (FloatOps.ofInt 0) = false then
    FloatOps.abs (FloatOps.div (FloatOps.ofInt 1) d)
  else FloatOps.fltMax

/-- The step of an axis: `(dir > 0) ? 1 : -1`. -/
def ddaStep {F : Type} [FloatOps F] (d : F) : Int :=
  if FloatOps.lt (FloatOps.ofInt 0) d = true then 1 else -1

/-- The function `rayCastDDA` over the grid `grid`, with an iteration budget for its
traversal loop. -/
def rayCastDDA {F : Type} [FloatOps F] (grid : VoxelGrid) (fuel : Nat)
    (rayOrigin rayDir : Vec3 F) (maxDistance : F) : Option (DDAHit F) :=
  let rayStart := Vec3.add rayOrigin gridOffset
  let dir : Vec3 F := FloatOps.normalize rayDir
  match ddaStart rayStart dir maxDistance with
  | none => some DDAHit.miss
  | some (pos, x, y, z) =>
      ddaLoop grid rayStart dir maxDistance (ddaStep dir.x) (ddaStep dir.y) (ddaStep dir.z)
        (ddaTDelta dir.x) (ddaTDelta dir.y) (ddaTDelta dir.z) fuel
        { x := x, y := y, z := z,
          tMaxX := ddaInitTMax x (ddaStep dir.x) pos.x dir.x,
          tMaxY := ddaInitTMax y (ddaStep dir.y) pos.y dir.y,
          tMaxZ := ddaInitTMax z (ddaStep dir.z) pos.z dir.z,
          distance := FloatOps.ofInt 0, pos := pos }

/-! ## Octree ray casting (`src/utils/octree.cpp`) -/

/-- One iteration of the slab loops of `rayCast` and `rayCastRecursive` for an axis with
bounds `lo` and `hi`: `none` when `t0 > t1` after the update, else the new `(t0, t1)`. -/
def slabStep {F : Type} [FloatOps F] (lo hi start d : F) (t : F × F) : Option (F × F) :=
  let invD := FloatOps.div (FloatOps.ofInt 1) d
  let tNear0 := FloatOps.mul (FloatOps.sub lo start) invD
  let tFar0 := FloatOps.mul (FloatOps.sub hi start) invD
  let tNear := if FloatOps.lt invD (FloatOps.ofInt 0) = true then tFar0 else tNear0
  let tFar := if FloatOps.lt invD (FloatOps.ofInt 0) = true then tNear0 else tFar0
  let t0 := fmax t.1 tNear
  let t1 := fmin t.2 tFar
  if FloatOps.lt t1 t0 = true then none else some (t0, t1)

/-- The three iterations of a slab loop against the box `[lo, hi]`. -/
def slabLoop {F : Type} [FloatOps F] (lo hi rayStart rayDir : Vec3 F) (tMin tMax : F) :
    Option (F × F) :=
  match slabStep lo.x hi.x rayStart.x rayDir.x (tMin, tMax) with
  | none => none
  | some t =>
      match slabStep lo.y hi.y rayStart.y rayDir.y t with
      | none => none
      | some t2 => slabStep lo.z hi.z rayStart.z rayDir.z t2

/-- The vector `float3(minX + size/2.0f, minY + size/2.0f, minZ + size/2.0f)` of a node. -/
def nodeCenter {F : Type} [FloatOps F] (n : OctreeNode) : Vec3 F :=
  ⟨FloatOps.add (FloatOps.ofInt n.minX) (FloatOps.div (FloatOps.ofInt n.size) (FloatOps.ofInt 2)),
    FloatOps.add (FloatOps.ofInt n.minY) (FloatOps.div (FloatOps.ofInt n.size) (FloatOps.ofInt 2)),
    FloatOps.add (FloatOps.ofInt n.minZ) (FloatOps.div (FloatOps.ofInt n.size) (FloatOps.ofInt 2))⟩

/-- The vector `float3(size/2.0f)` of a node. -/
def nodeHalfSize {F : Type} [FloatOps F] (n : OctreeNode) : Vec3 F :=
  ⟨FloatOps.div (FloatOps.ofInt n.size) (FloatOps.ofInt 2),
    FloatOps.div (FloatOps.ofInt n.size) (FloatOps.ofInt 2),
    FloatOps.div (FloatOps.ofInt n.size) (FloatOps.ofInt 2)⟩

/-- The slab loop of `rayCastRecursive` against the cube of a node. -/
def nodeSlab {F : Type} [FloatOps F] (n : OctreeNode) (rayStart rayDir : Vec3 F)
    (tMin tMax : F) : Option (F × F) :=
  slabLoop (Vec3.sub (nodeCenter n) (nodeHalfSize n)) (Vec3.add (nodeCenter n) (nodeHalfSize n))
    rayStart rayDir tMin tMax

/-- The normal that `rayCastRecursive` chooses at a leaf from `localHit`. -/
def leafNormal {F : Type} [FloatOps F] (localHit : Vec3 F) : Vec3 F :=
  let absX := FloatOps.abs localHit.x
  let absY := FloatOps.abs localHit.y
  let absZ := FloatOps.abs localHit.z
  if FloatOps.lt absY absX = true ∧ FloatOps.lt absZ absX = true then
    Vec3.ofInts (if FloatOps.lt (FloatOps.ofInt 0) localHit.x = true then 1 else -1) 0 0
  else if FloatOps.lt absZ absY = true then
    Vec3.ofInts 0 (if FloatOps.lt (FloatOps.ofInt 0) localHit.y = true then 1 else -1) 0
  else
    Vec3.ofInts 0 0 (if FloatOps.lt (FloatOps.ofInt 0) localHit.z = true then 1 else -1)

/-- The first result of a loop over the eight child slots that returns at the first
success. -/
def firstSome8 {α : Type} (f : Fin 8 → Option α) : Option α :=
  match f 0 with
  | some r => some r
  | none =>
  match f 1 with
  | some r => some r
  | none =>
  match f 2 with
  | some r => some r
  | none =>
  match f 3 with
  | some r => some r
  | none =>
  match f 4 with
  | some r => some r
  | none =>
  match f 5 with
  | some r => some r
  | none =>
  match f 6 with
  | some r => some r
  | none => f 7

/-- The method `rayCastRecursive`: `none` when it returns false (the output parameters are
then left untouched), else the values of `hitPos`, `normal` and `hitVoxel` after the call.
The last argument is `hitVoxel` before the call. -/
def rayCastRecursive {F : Type} [FloatOps F] (rayStart rayDir : Vec3 F) :
    OctreeNode → F → F → Voxel → Option (Vec3 F × Vec3 F × Voxel)
  | .null, _, _, _ => none
  | .node ch t c u l mx my mz sz, tMin, tMax, hitVoxel =>
      if l = true then
        if t = 0 then none
        else
          match nodeSlab (.node ch t c u l mx my mz sz) rayStart rayDir tMin tMax with
          | none => none
          | some t01 =>
              if FloatOps.lt t01.1 tMax = true then
                let hitPos := Vec3.add rayStart (Vec3.scale rayDir t01.1)
                some (hitPos,
                  leafNormal (Vec3.sub hitPos (nodeCenter (.node ch t c u l mx my mz sz))),
                  { hitVoxel with type := t, color := c })
              else none
      else
        firstSome8 fun i =>
          if (ch i).isNull = true then none
          else
            match nodeSlab (ch i) rayStart rayDir tMin tMax with
            | none => none
            | some t01 =>
                if FloatOps.lt t01.1 tMax = true then
                  rayCastRecursive rayStart rayDir (ch i) t01.1 t01.2 Voxel.empty
                else none

/-- The vector `float3(worldSizeX/2.0f, 0, worldSizeZ/2.0f)`. -/
def OctreeVoxelWorld.offset {F : Type} [FloatOps F] (w : OctreeVoxelWorld) : Vec3 F :=
  ⟨FloatOps.div (FloatOps.ofInt w.worldSizeX) (FloatOps.ofInt 2), FloatOps.ofInt 0,
    FloatOps.div (FloatOps.ofInt w.worldSizeZ) (FloatOps.ofInt 2)⟩

/-- The method `OctreeVoxelWorld::rayCast`: `none` when it returns false, else the values of
`hitPos`, `normal` and `hitVoxel` after the call. The last argument is `hitVoxel` before
the call. -/
def OctreeVoxelWorld.rayCast {F : Type} [FloatOps F] (w : OctreeVoxelWorld)
    (origin direction : Vec3 F) (maxDist : F) (hitVoxel : Voxel) :
    Option (Vec3 F × Vec3 F × Voxel) :=
  let rayStart := Vec3.add origin w.offset
  let rayDir : Vec3 F := FloatOps.normalize direction
  match slabLoop (Vec3.ofInts 0 0 0) (Vec3.ofInts w.worldSizeX w.worldSizeY w.worldSizeZ)
      rayStart rayDir (FloatOps.ofInt 0) maxDist with
  | none => none
  | some t =>
      match rayCastRecursive rayStart rayDir w.root t.1 t.2 hitVoxel with
      | none => none
      | some r => some (Vec3.sub r.1 w.offset, r.2.1, r.2.2)

/-! ## Inputs of the ray evaluations -/

/-- The grid in which only the cell (5, 0, 0) is `SURFACE`. -/
def gridCell500 : VoxelGrid := fun x y z => if x = 5 ∧ y = 0 ∧ z = 0 then SURFACE else AIR

/-- The world that `OctreeVoxelWorld(128, 64, 128)` constructs. -/
def world128 : OctreeVoxelWorld :=
  { root := OctreeNode.create 0 0 0 128, worldSizeX := 128, worldSizeY := 64,
    worldSizeZ := 128, maxDepth := 7 }

/-- The world `OctreeVoxelWorld(128, 64, 128)` after `setVoxel(5, 0, 0, grass)`. -/
def world128Cell500 : OctreeVoxelWorld := world128.setVoxel 5 0 0 grass

/-- The exact value `n / 2`. -/
def XF.halves (n : Int) : XF := XF.fin n 2

/-- The terrain whose every column has the height 19 (the `int` of `base_y = 64 * 0.3f`). -/
def flatTerrain : VoxelGrid := initVoxelGrid fun _ _ => 19

/-- The world-space origin `(0, 0, 0)`. -/
def originZero : Vec3 XF := ⟨XF.fin 0 1, XF.fin 0 1, XF.fin 0 1⟩

/-- The direction `(0, -1, 0)`. -/
def dirDown : Vec3 XF := ⟨XF.fin 0 1, XF.fin (-1) 1, XF.fin 0 1⟩

/-- The world-space origin `(-74, 0.5, -63.5)`, which is `(-10, 0.5, 0.5)` in grid space. -/
def originLeft : Vec3 XF := ⟨XF.fin (-74) 1, XF.halves 1, XF.halves (-127)⟩

/-- The direction `(1, 0, 0)`. -/
def dirPlusX : Vec3 XF := ⟨XF.fin 1 1, XF.fin 0 1, XF.fin 0 1⟩

/-- The local `float compression` of `getDescription`:
`100.0f * (1.0f - (float)nodes / (worldSizeX * worldSizeY * worldSizeZ))`. -/
def OctreeVoxelWorld.descriptionCompression {F : Type} [FloatOps F] (w : OctreeVoxelWorld) : F :=
  FloatOps.mul (FloatOps.ofInt 100)
    (FloatOps.sub (FloatOps.ofInt 1)
      (FloatOps.div (FloatOps.ofInt (Int.ofNat w.getNodeCount))
        (FloatOps.ofInt (w.worldSizeX * w.worldSizeY * w.worldSizeZ))))

/-- The world `OctreeVoxelWorld(2, 2, 2)` after `setVoxel(0, 0, 0, Voxel(1, 0xFF00FF00))` and
`setVoxel(1, 0, 0, Voxel(2, 0xFF0000FF))`: material 1 in octant 0, material 2 in octant 1. -/
def world222Pair : OctreeVoxelWorld :=
  (world222.setVoxel 0 0 0 (Voxel.ofTypeColor 1 0xFF00FF00)).setVoxel 1 0 0
    (Voxel.ofTypeColor 2 0xFF0000FF)

/-- The world-space origin `(2, 0.5, -0.5)`, which is `(3, 0.5, 0.5)` in the space of the
2x2x2 octree. -/
def originRight : Vec3 XF := ⟨XF.fin 2 1, XF.halves 1, XF.halves (-1)⟩

/-- The direction `(-1, 0, 0)`. -/
def dirMinusX : Vec3 XF := ⟨XF.fin (-1) 1, XF.fin 0 1, XF.fin 0 1⟩

/-- The number of cells of an axis of extent `size` from the cell `cell` to the face that
the step direction leads to, the cell itself included: `size - cell` for the step `1`,
`cell + 1` for the step `-1`. -/
def cellsAhead (step cell size : Int) : Int := if step = 1 then size - cell else cell + 1

/-- One axis of a slab test of a ray against the slab `[0, hi]`, as the specification words
it: the parameters at which the ray meets the two planes, the nearer one raising `tMin` and
the farther one lowering `tMax`; `none` when the interval becomes empty, else the new
`(tMin, tMax)`. An axis along which the ray does not move (zero direction component) is
tested only when `testParallel` is set: the interval is then kept when the origin
coordinate lies in the slab and emptied when it does not. -/
def specSlabAxis {F : Type} [FloatOps F] (testParallel : Bool) (hi : Int) (p d : F)
    (t : F × F) : Option (F × F) :=
  if FloatOps.eq d (FloatOps.ofInt 0) = false then
    let t1 := FloatOps.div (FloatOps.sub (FloatOps.ofInt 0) p) d
    let t2 := FloatOps.div (FloatOps.sub (FloatOps.ofInt hi) p) d
    let tNear := fmin t1 t2
    let tFar := fmax t1 t2
    let tMin := fmax t.1 tNear
    let tMax := fmin t.2 tFar
    if FloatOps.lt tMax tMin = true then none else some (tMin, tMax)
  else if testParallel = true ∧
      (FloatOps.lt p (FloatOps.ofInt 0) = true ∨ FloatOps.lt (FloatOps.ofInt hi) p = true) then
    none
  else some t

/-- The 3-axis slab test of a ray against the box `[0,hiX] x [0,hiY] x [0,hiZ]`, started with
the interval `[0, maxDistance]`. The test of the specification against the box of the grid
is `specEntry true GRID_SIZE_X GRID_SIZE_Y GRID_SIZE_Z`. -/
def specEntry {F : Type} [FloatOps F] (testParallel : Bool) (hiX hiY hiZ : Int)
    (pos dir : Vec3 F) (maxDistance : F) : Option (F × F) :=
  match specSlabAxis testParallel hiX pos.x dir.x (FloatOps.ofInt 0, maxDistance) with
  | none => none
  | some t =>
      match specSlabAxis testParallel hiY pos.y dir.y t with
      | none => none
      | some t2 => specSlabAxis testParallel hiZ pos.z dir.z t2

/-- The world-space origin `(136.5, -5, -63.5)`, which is `(200.5, -5, 0.5)` in grid space. -/
def originBeside : Vec3 XF := ⟨XF.halves 273, XF.fin (-5) 1, XF.halves (-127)⟩

/-- The direction `(0, 1, 0)`. -/
def dirPlusY : Vec3 XF := ⟨XF.fin 0 1, XF.fin 1 1, XF.fin 0 1⟩

/-- The world-space origin `(66, 0.5, -63.5)`, which is `(130, 0.5, 0.5)` in grid space. -/
def originFar : Vec3 XF := ⟨XF.fin 66 1, XF.halves 1, XF.halves (-127)⟩

/-- The node `leaf` is a leaf of the tree under a node: the node itself when its `isLeaf`
flag is set, else a leaf of the tree under one of its children (the nodes that the traversal
of `getLeafCount` counts). -/
inductive IsLeafOf : OctreeNode → OctreeNode → Prop
  | here (ch : Fin 8 → OctreeNode) (t c : Nat) (u : Bool) (mx my mz sz : Int) :
      IsLeafOf (.node ch t c u true mx my mz sz) (.node ch t c u true mx my mz sz)
  | child (ch : Fin 8 → OctreeNode) (t c : Nat) (u : Bool) (mx my mz sz : Int) (i : Fin 8)
      {leaf : OctreeNode} (h : IsLeafOf (ch i) leaf) :
      IsLeafOf (.node ch t c u false mx my mz sz) leaf

/-- The grid in which only the cell (64, 0, 64) is `SURFACE`. -/
def gridCell64 : VoxelGrid := fun x y z => if x = 64 ∧ y = 0 ∧ z = 64 then SURFACE else AIR

/-- The world `OctreeVoxelWorld(128, 64, 128)` after `setVoxel(64, 0, 64, grass)`. -/
def world128Cell64 : OctreeVoxelWorld := world128.setVoxel 64 0 64 grass

/-- The world-space origin `(0, 64, 0)`, which is `(64, 64, 64)` on the top face in grid
space. -/
def originTop : Vec3 XF := ⟨XF.fin 0 1, XF.fin 64 1, XF.fin 0 1⟩

/-! ## Basic facts -/

section Basic

variable {ch : Fin 8 → OctreeNode} {t c : Nat} {u l : Bool} {mx my mz sz : Int}

theorem tdiv_two_pow_succ (r : Nat) : Int.tdiv ((2 : Int) ^ (r + 1)) 2 = 2 ^ r := by
  rw [Int.tdiv_eq_ediv (by positivity) (by norm_num), pow_succ]
  exact Int.mul_ediv_cancel _ (by norm_num)

theorem two_pow_succ_ne_one (r : Nat) : (2 : Int) ^ (r + 1) ≠ 1 := by
  have h : (1 : Int) ≤ 2 ^ r := one_le_pow₀ (by norm_num)
  rw [pow_succ]; omega

theorem one_lt_two_pow_succ (r : Nat) : (1 : Int) < 2 ^ (r + 1) := by
  have h : (1 : Int) ≤ 2 ^ r := one_le_pow₀ (by norm_num)
  rw [pow_succ]; omega

theorem WellFormed.isNull_eq {rem : Nat} {n : OctreeNode} (h : WellFormed rem n) :
    n.isNull = false := by
  cases h <;> rfl

theorem WellFormed.size_eq {rem : Nat} {n : OctreeNode} (h : WellFormed rem n) :
    n.size = 2 ^ rem := by
  cases h <;> simp [OctreeNode.size, *]

theorem WellFormed.isLeaf_zero {n : OctreeNode} (h : WellFormed 0 n) : n.isLeaf = true := by
  cases h; rfl

theorem geom_setChild (n : OctreeNode) (i : Fin 8) (m : OctreeNode) :
    (n.setChild i m).geom = n.geom := by
  cases n <;> rfl

theorem isNull_setChild (n : OctreeNode) (i : Fin 8) (m : OctreeNode) :
    (n.setChild i m).isNull = n.isNull := by
  cases n <;> rfl

theorem geom_subdivide (n : OctreeNode) : (subdivide n).geom = n.geom := by
  cases n with
  | null => rfl
  | node ch t c u l mx my mz sz => simp only [subdivide]; split <;> rfl

theorem geom_copyToChildren (n : OctreeNode) : (copyToChildren n).geom = n.geom := by
  cases n <;> rfl

theorem geom_ensureChild (n : OctreeNode) (i : Fin 8) : (ensureChild n i).geom = n.geom := by
  unfold ensureChild; split
  · exact geom_setChild _ _ _
  · rfl

theorem isNull_subdivide (n : OctreeNode) : (subdivide n).isNull = n.isNull := by
  cases n with
  | null => rfl
  | node ch t c u l mx my mz sz => simp only [subdivide]; split <;> rfl

theorem isNull_copyToChildren (n : OctreeNode) : (copyToChildren n).isNull = n.isNull := by
  cases n <;> rfl

theorem isNull_ensureChild (n : OctreeNode) (i : Fin 8) :
    (ensureChild n i).isNull = n.isNull := by
  unfold ensureChild; split
  · exact isNull_setChild _ _ _
  · rfl

theorem geom_insertVoxelRecursive (x y z : Int) (v : Voxel) (rem : Nat) (n : OctreeNode) :
    (insertVoxelRecursive x y z v rem n).geom = n.geom := by
  cases n with
  | null => cases rem <;> rfl
  | node ch t c u l mx my mz sz =>
    cases rem with
    | zero => rfl
    | succ r =>
      simp only [insertVoxelRecursive]
      split
      · rfl
      · split
        · rfl
        · rw [geom_setChild, geom_ensureChild]
          split
          · rw [geom_copyToChildren, geom_subdivide]
          · rfl

theorem isNull_insertVoxelRecursive (x y z : Int) (v : Voxel) (rem : Nat) (n : OctreeNode) :
    (insertVoxelRecursive x y z v rem n).isNull = n.isNull := by
  cases n with
  | null => cases rem <;> rfl
  | node ch t c u l mx my mz sz =>
    cases rem with
    | zero => rfl
    | succ r =>
      simp only [insertVoxelRecursive]
      split
      · rfl
      · split
        · rfl
        · rw [isNull_setChild, isNull_ensureChild]
          split
          · rw [isNull_copyToChildren, isNull_subdivide]
          · rfl

theorem geom_eq_iff (n m : OctreeNode) :
    n.geom = m.geom ↔
      n.minX = m.minX ∧ n.minY = m.minY ∧ n.minZ = m.minZ ∧ n.size = m.size := by
  simp [OctreeNode.geom, Prod.ext_iff]

theorem getChildIndex_congr {n m : OctreeNode} (h : n.geom = m.geom) (x y z : Int) :
    n.getChildIndex x y z = m.getChildIndex x y z := by
  obtain ⟨h1, h2, h3, h4⟩ := (geom_eq_iff n m).1 h
  simp only [getChildIndex, h1, h2, h3, h4]

end Basic

/-! ## Insertion on well-formed trees -/

section Insert

variable (x y z : Int) (v : Voxel)

theorem wellFormed_freshChildren (t c : Nat) (mx my mz : Int) (r : Nat) (i : Fin 8) :
    WellFormed r (freshChildren t c mx my mz r i) :=
  WellFormed.leaf rfl (fun _ => rfl)

theorem subdivide_leaf (ch : Fin 8 → OctreeNode) (t c : Nat) (u : Bool) (mx my mz : Int)
    (r : Nat) :
    subdivide (.node ch t c u true mx my mz (2 ^ (r + 1))) =
      .node (freshChildren t c mx my mz r) t c u false mx my mz (2 ^ (r + 1)) := by
  have h1 : ¬ ((2 : Int) ^ (r + 1) ≤ 1) := not_le.2 (one_lt_two_pow_succ r)
  simp only [subdivide, h1, false_or, Bool.true_eq_false, if_false, tdiv_two_pow_succ]
  rfl

theorem insert_leaf_same (ch : Fin 8 → OctreeNode) (u : Bool) (mx my mz : Int) (r : Nat) :
    insertVoxelRecursive x y z v (r + 1) (.node ch v.type v.color u true mx my mz (2 ^ (r + 1))) =
      .node ch v.type v.color u true mx my mz (2 ^ (r + 1)) := by
  simp [insertVoxelRecursive, two_pow_succ_ne_one]

theorem insert_leaf_diff (ch : Fin 8 → OctreeNode) (t c : Nat) (u : Bool) (mx my mz : Int)
    (r : Nat) (hd : ¬ (t = v.type ∧ c = v.color)) :
    insertVoxelRecursive x y z v (r + 1) (.node ch t c u true mx my mz (2 ^ (r + 1))) =
      .node
        (fun j =>
          if j = (OctreeNode.node ch t c u true mx my mz (2 ^ (r + 1))).getChildIndex x y z then
            insertVoxelRecursive x y z v r
              (freshChildren t c mx my mz r
                ((OctreeNode.node ch t c u true mx my mz (2 ^ (r + 1))).getChildIndex x y z))
          else freshChildren t c mx my mz r j)
        t c u false mx my mz (2 ^ (r + 1)) := by
  simp only [insertVoxelRecursive, two_pow_succ_ne_one, if_false, true_and, hd, if_true,
    subdivide_leaf]
  rfl

theorem insert_inner (ch : Fin 8 → OctreeNode) (t c : Nat) (u : Bool) (mx my mz : Int)
    (r : Nat) (hch : ∀ i, (ch i).isNull = false) :
    insertVoxelRecursive x y z v (r + 1) (.node ch t c u false mx my mz (2 ^ (r + 1))) =
      .node
        (fun j =>
          if j = (OctreeNode.node ch t c u false mx my mz (2 ^ (r + 1))).getChildIndex x y z then
            insertVoxelRecursive x y z v r
              (ch ((OctreeNode.node ch t c u false mx my mz (2 ^ (r + 1))).getChildIndex x y z))
          else ch j)
        t c u false mx my mz (2 ^ (r + 1)) := by
  simp only [insertVoxelRecursive, two_pow_succ_ne_one, if_false, Bool.false_eq_true, false_and,
    ensureChild, OctreeNode.children, hch]
  rfl

theorem wellFormed_update {r : Nat} {ch : Fin 8 → OctreeNode} {t c : Nat} {u : Bool}
    {mx my mz : Int} (hwf : ∀ i, WellFormed r (ch i))
    (hx : ∀ i, (ch i).minX = mx + octantOffset i 1 (2 ^ r))
    (hy : ∀ i, (ch i).minY = my + octantOffset i 2 (2 ^ r))
    (hz : ∀ i, (ch i).minZ = mz + octantOffset i 4 (2 ^ r))
    (idx : Fin 8) (m : OctreeNode) (hm : WellFormed r m) (hg : m.geom = (ch idx).geom) :
    WellFormed (r + 1)
      (.node (fun j => if j = idx then m else ch j) t c u false mx my mz (2 ^ (r + 1))) := by
  obtain ⟨g1, g2, g3, _⟩ := (geom_eq_iff _ _).1 hg
  refine WellFormed.inner rfl ?_ ?_ ?_ ?_ <;> intro j <;> by_cases hj : j = idx
  · rw [if_pos hj]; exact hm
  · rw [if_neg hj]; exact hwf j
  · rw [if_pos hj, hj, g1]; exact hx idx
  · rw [if_neg hj]; exact hx j
  · rw [if_pos hj, hj, g2]; exact hy idx
  · rw [if_neg hj]; exact hy j
  · rw [if_pos hj, hj, g3]; exact hz idx
  · rw [if_neg hj]; exact hz j

theorem wellFormed_insert :
    ∀ (rem : Nat) (n : OctreeNode), WellFormed rem n →
      WellFormed rem (insertVoxelRecursive x y z v rem n) := by
  intro rem
  induction rem with
  | zero =>
    intro n h
    cases h with
    | leaf hsz hch => exact WellFormed.leaf hsz hch
  | succ r ih =>
    intro n h
    cases h with
    | @leaf _ ch t c u mx my mz sz hsz hch =>
      subst hsz
      by_cases hd : t = v.type ∧ c = v.color
      · obtain ⟨h1, h2⟩ := hd
        subst h1 h2
        rw [insert_leaf_same]
        exact WellFormed.leaf rfl hch
      · rw [insert_leaf_diff x y z v _ _ _ _ _ _ _ _ hd]
        exact wellFormed_update (wellFormed_freshChildren t c mx my mz r) (fun _ => rfl)
          (fun _ => rfl) (fun _ => rfl) _ _ (ih _ (wellFormed_freshChildren _ _ _ _ _ _ _))
          (geom_insertVoxelRecursive x y z v r _)
    | @inner _ ch t c u mx my mz sz hsz hwf hx hy hz =>
      subst hsz
      rw [insert_inner x y z v _ _ _ _ _ _ _ _ (fun i => (hwf i).isNull_eq)]
      exact wellFormed_update hwf hx hy hz _ _ (ih _ (hwf _))
        (geom_insertVoxelRecursive x y z v r _)

theorem getVoxelRecursive_leaf (md : Nat) (ch : Fin 8 → OctreeNode) (t c : Nat) (u : Bool)
    (mx my mz sz : Int) (depth : Nat) :
    getVoxelRecursive md x y z (.node ch t c u true mx my mz sz) depth = nodeVoxel t c := by
  simp [getVoxelRecursive, nodeVoxel]

theorem getVoxelRecursive_bottom (md : Nat) (ch : Fin 8 → OctreeNode) (t c : Nat) (u l : Bool)
    (mx my mz sz : Int) (depth : Nat) (hd : md ≤ depth) :
    getVoxelRecursive md x y z (.node ch t c u l mx my mz sz) depth = nodeVoxel t c := by
  simp [getVoxelRecursive, nodeVoxel, hd]

theorem getVoxelRecursive_inner (md : Nat) (ch : Fin 8 → OctreeNode) (t c : Nat) (u : Bool)
    (mx my mz sz : Int) (depth : Nat) (hd : depth < md)
    (hn : (ch ((OctreeNode.node ch t c u false mx my mz sz).getChildIndex x y z)).isNull = false) :
    getVoxelRecursive md x y z (.node ch t c u false mx my mz sz) depth =
      getVoxelRecursive md x y z
        (ch ((OctreeNode.node ch t c u false mx my mz sz).getChildIndex x y z)) (depth + 1) := by
  simp only [getVoxelRecursive, Bool.false_eq_true, false_or, ge_iff_le, not_le.2 hd, if_false]
  rw [if_pos hn]

theorem getVoxelRecursive_update_same (md : Nat) (ch ch0 : Fin 8 → OctreeNode)
    (t c t0 c0 : Nat) (u u0 l0 : Bool) (mx my mz sz : Int) (depth : Nat) (hd : depth < md)
    (m : OctreeNode) (hm : m.isNull = false) :
    getVoxelRecursive md x y z
        (.node
          (fun j =>
            if j = (OctreeNode.node ch0 t0 c0 u0 l0 mx my mz sz).getChildIndex x y z then m
            else ch j)
          t c u false mx my mz sz) depth =
      getVoxelRecursive md x y z m (depth + 1) := by
  have hi : ∀ f : Fin 8 → OctreeNode,
      (OctreeNode.node f t c u false mx my mz sz).getChildIndex x y z =
        (OctreeNode.node ch0 t0 c0 u0 l0 mx my mz sz).getChildIndex x y z := fun _ => rfl
  rw [getVoxelRecursive_inner x y z md _ _ _ _ _ _ _ _ depth hd]
  · rw [hi, if_pos rfl]
  · rw [hi, if_pos rfl]; exact hm

theorem getVoxelRecursive_insert :
    ∀ (rem : Nat) (n : OctreeNode) (md depth : Nat), WellFormed rem n → depth + rem = md →
      getVoxelRecursive md x y z (insertVoxelRecursive x y z v rem n) depth =
        nodeVoxel v.type v.color := by
  intro rem
  induction rem with
  | zero =>
    intro n md depth h hmd
    cases h with
    | leaf hsz hch => exact getVoxelRecursive_leaf x y z _ _ _ _ _ _ _ _ _ _
  | succ r ih =>
    intro n md depth h hmd
    cases h with
    | @leaf _ ch t c u mx my mz sz hsz hch =>
      subst hsz
      by_cases hd : t = v.type ∧ c = v.color
      · obtain ⟨h1, h2⟩ := hd
        subst h1 h2
        rw [insert_leaf_same]
        exact getVoxelRecursive_leaf x y z _ _ _ _ _ _ _ _ _ _
      · rw [insert_leaf_diff x y z v _ _ _ _ _ _ _ _ hd,
          getVoxelRecursive_update_same x y z md _ _ _ _ _ _ _ _ _ _ _ _ _ depth (by omega) _
            (by rw [isNull_insertVoxelRecursive]; rfl)]
        exact ih _ md (depth + 1) (wellFormed_freshChildren _ _ _ _ _ _ _) (by omega)
    | @inner _ ch t c u mx my mz sz hsz hwf hx hy hz =>
      subst hsz
      rw [insert_inner x y z v _ _ _ _ _ _ _ _ (fun i => (hwf i).isNull_eq),
        getVoxelRecursive_update_same x y z md _ _ _ _ _ _ _ _ _ _ _ _ _ depth (by omega) _
          (by rw [isNull_insertVoxelRecursive]; exact (hwf _).isNull_eq)]
      exact ih _ md (depth + 1) (hwf _) (by omega)

end Insert

/-! ## The constructor -/

section Create

theorem two_pow_succ_shiftRight (j : Nat) : ((2 : Int) ^ (j + 1)) >>> (1 : Nat) = 2 ^ j := by
  rw [Int.shiftRight_eq_div_pow, pow_succ, pow_one]
  exact Int.mul_ediv_cancel _ (by norm_num)

theorem rootSizeLoop_some (maxSize : Int) :
    ∀ (fuel i : Nat) (s : Int), rootSizeLoop maxSize fuel (2 ^ i) = some s →
      ∃ j, i ≤ j ∧ s = 2 ^ j ∧ maxSize ≤ 2 ^ j ∧ (j = i ∨ (2 : Int) ^ (j - 1) < maxSize) := by
  intro fuel
  induction fuel with
  | zero => intro i s h; simp [rootSizeLoop] at h
  | succ f ih =>
    intro i s h
    rw [rootSizeLoop] at h
    by_cases hlt : (2 : Int) ^ i < maxSize
    · rw [if_pos hlt] at h
      by_cases hov : (2 : Int) ^ i * 2 < 2 ^ 31
      · rw [if_pos hov, ← pow_succ] at h
        obtain ⟨j, hij, hs, hmax, hj⟩ := ih (i + 1) s h
        refine ⟨j, by omega, hs, hmax, Or.inr ?_⟩
        rcases hj with hj | hj
        · subst hj; simpa using hlt
        · exact hj
      · rw [if_neg hov] at h; cases h
    · rw [if_neg hlt] at h
      cases h
      exact ⟨i, le_refl _, rfl, not_lt.1 hlt, Or.inl rfl⟩

theorem rootSizeLoop_terminates (maxSize : Int) (hmax : maxSize ≤ 2 ^ 30) :
    ∀ (fuel i : Nat), i ≤ 30 → 31 ≤ fuel + i →
      ∃ s, rootSizeLoop maxSize fuel (2 ^ i) = some s := by
  intro fuel
  induction fuel with
  | zero => intro i h1 h2; omega
  | succ f ih =>
    intro i h1 h2
    rw [rootSizeLoop]
    by_cases hlt : (2 : Int) ^ i < maxSize
    · have hi : i < 30 := by
        by_contra hcon
        have : i = 30 := by omega
        subst this
        omega
      have hov : (2 : Int) ^ i * 2 < 2 ^ 31 := by
        rw [← pow_succ]
        exact pow_lt_pow_right₀ (by norm_num) (by omega)
      rw [if_pos hlt, if_pos hov, ← pow_succ]
      exact ih (i + 1) (by omega) (by omega)
    · rw [if_neg hlt]; exact ⟨_, rfl⟩

theorem maxDepthLoop_two_pow :
    ∀ (fuel j d : Nat), j < fuel → maxDepthLoop fuel (2 ^ j) d = some (d + j) := by
  intro fuel
  induction fuel with
  | zero => intro j d h; omega
  | succ f ih =>
    intro j d h
    rw [maxDepthLoop]
    cases j with
    | zero => simp
    | succ k =>
      rw [if_pos (one_lt_two_pow_succ k), two_pow_succ_shiftRight, ih k (d + 1) (by omega)]
      congr 1; omega

theorem maxDepthLoop_some :
    ∀ (fuel j d m : Nat), maxDepthLoop fuel (2 ^ j) d = some m → m = d + j := by
  intro fuel
  induction fuel with
  | zero => intro j d m h; simp [maxDepthLoop] at h
  | succ f ih =>
    intro j d m h
    rw [maxDepthLoop] at h
    cases j with
    | zero => simp at h; omega
    | succ k =>
      rw [if_pos (one_lt_two_pow_succ k), two_pow_succ_shiftRight] at h
      have := ih k (d + 1) m h
      omega

/-- What a successful construction returns: an air leaf root of size `2 ^ maxDepth` at the
origin, where `2 ^ maxDepth` is the least power of two that covers the largest extent. -/
theorem create_some {sizeX sizeY sizeZ : Int} {w : OctreeVoxelWorld}
    (h : OctreeVoxelWorld.create sizeX sizeY sizeZ = some w) :
    w.root = OctreeNode.create 0 0 0 (2 ^ w.maxDepth) ∧
      w.worldSizeX = sizeX ∧ w.worldSizeY = sizeY ∧ w.worldSizeZ = sizeZ ∧
      max sizeX (max sizeY sizeZ) ≤ 2 ^ w.maxDepth ∧
      (w.maxDepth = 0 ∨ (2 : Int) ^ (w.maxDepth - 1) < max sizeX (max sizeY sizeZ)) := by
  unfold OctreeVoxelWorld.create at h
  simp only at h
  cases hr : rootSizeLoop (max sizeX (max sizeY sizeZ)) 32 1 with
  | none => rw [hr] at h; cases h
  | some s =>
    rw [hr] at h
    simp only at h
    have hr2 : rootSizeLoop (max sizeX (max sizeY sizeZ)) 32 (2 ^ 0) = some s := by simpa using hr
    obtain ⟨j, _, hs, hmax, hj⟩ := rootSizeLoop_some _ 32 0 s hr2
    subst hs
    cases hm : maxDepthLoop 32 (2 ^ j) 0 with
    | none => rw [hm] at h; cases h
    | some m =>
      rw [hm] at h
      have hmj := maxDepthLoop_some 32 j 0 m hm
      simp only [Option.some.injEq] at h
      subst h
      have : m = j := by omega
      subst this
      exact ⟨rfl, rfl, rfl, rfl, hmax, by simpa using hj⟩

theorem create_wellFormed {sizeX sizeY sizeZ : Int} {w : OctreeVoxelWorld}
    (h : OctreeVoxelWorld.create sizeX sizeY sizeZ = some w) :
    WellFormed w.maxDepth w.root := by
  rw [(create_some h).1]
  exact WellFormed.leaf rfl (fun _ => rfl)

theorem create_terminates (sizeX sizeY sizeZ : Int) (hx : sizeX ≤ 2 ^ 30) (hy : sizeY ≤ 2 ^ 30)
    (hz : sizeZ ≤ 2 ^ 30) : ∃ w, OctreeVoxelWorld.create sizeX sizeY sizeZ = some w := by
  have hmax : max sizeX (max sizeY sizeZ) ≤ 2 ^ 30 := max_le hx (max_le hy hz)
  obtain ⟨s, hs⟩ := rootSizeLoop_terminates _ hmax 32 0 (by norm_num) (by norm_num)
  obtain ⟨j, _, hsj, hle, hj⟩ := rootSizeLoop_some _ 32 0 s hs
  have hj30 : j ≤ 30 := by
    rcases hj with hj | hj
    · omega
    · by_contra hcon
      have h1 : (2 : Int) ^ 30 ≤ 2 ^ (j - 1) := pow_le_pow_right₀ (by norm_num) (by omega)
      omega
  have hm := maxDepthLoop_two_pow 32 j 0 (by omega)
  simp only [pow_zero] at hs
  unfold OctreeVoxelWorld.create
  simp only [hs, hsj, hm]
  exact ⟨_, rfl⟩

end Create

/-! ## Compression -/

section Compress

theorem any8_eq_false (f : Fin 8 → Bool) : any8 f = false ↔ ∀ i, f i = false := by
  constructor
  · intro h i
    simp only [any8, Bool.or_eq_false_iff] at h
    fin_cases i <;> simp [h]
  · intro h
    simp [any8, h]

theorem any8_eq_true (f : Fin 8 → Bool) : any8 f = true ↔ ∃ i, f i = true := by
  rw [← not_iff_not]
  simp [any8_eq_false]

theorem sum8_le (f g : Fin 8 → Nat) (h : ∀ i, f i ≤ g i) : sum8 f ≤ sum8 g := by
  have h0 := h 0; have h1 := h 1; have h2 := h 2; have h3 := h 3
  have h4 := h 4; have h5 := h 5; have h6 := h 6; have h7 := h 7
  simp only [sum8]; omega

theorem sum8_lt (f g : Fin 8 → Nat) (h : ∀ i, f i ≤ g i) (i : Fin 8) (hi : f i < g i) :
    sum8 f < sum8 g := by
  have h0 := h 0; have h1 := h 1; have h2 := h 2; have h3 := h 3
  have h4 := h 4; have h5 := h 5; have h6 := h 6; have h7 := h 7
  simp only [sum8]
  fin_cases i
  · change f 0 < g 0 at hi; omega
  · change f 1 < g 1 at hi; omega
  · change f 2 < g 2 at hi; omega
  · change f 3 < g 3 at hi; omega
  · change f 4 < g 4 at hi; omega
  · change f 5 < g 5 at hi; omega
  · change f 6 < g 6 at hi; omega
  · change f 7 < g 7 at hi; omega

theorem sum8_ge (f : Fin 8 → Nat) (h : ∀ i, 1 ≤ f i) : 8 ≤ sum8 f := by
  have h0 := h 0; have h1 := h 1; have h2 := h 2; have h3 := h 3
  have h4 := h 4; have h5 := h 5; have h6 := h 6; have h7 := h 7
  simp only [sum8]; omega

theorem allSame_iff (ch : Fin 8 → OctreeNode) (h0 : (ch 0).isNull = false) :
    allSame ch = true ↔
      ∀ i, (ch i).isNull = false ∧ (ch i).voxelType = (ch 0).voxelType ∧
        (ch i).voxelColor = (ch 0).voxelColor := by
  constructor
  · intro h i
    simp only [allSame, List.all_cons, List.all_nil, Bool.and_true, Bool.and_eq_true,
      Bool.not_eq_true', Bool.or_eq_false_iff, bne_eq_false_iff_eq] at h
    fin_cases i
    · exact ⟨h0, rfl, rfl⟩
    · exact ⟨h.1.1.1, h.1.1.2, h.1.2⟩
    · exact ⟨h.2.1.1.1, h.2.1.1.2, h.2.1.2⟩
    · exact ⟨h.2.2.1.1.1, h.2.2.1.1.2, h.2.2.1.2⟩
    · exact ⟨h.2.2.2.1.1.1, h.2.2.2.1.1.2, h.2.2.2.1.2⟩
    · exact ⟨h.2.2.2.2.1.1.1, h.2.2.2.2.1.1.2, h.2.2.2.2.1.2⟩
    · exact ⟨h.2.2.2.2.2.1.1.1, h.2.2.2.2.2.1.1.2, h.2.2.2.2.2.1.2⟩
    · exact ⟨h.2.2.2.2.2.2.1.1, h.2.2.2.2.2.2.1.2, h.2.2.2.2.2.2.2⟩
  · intro h
    simp only [allSame, List.all_cons, List.all_nil, Bool.and_true, Bool.and_eq_true,
      Bool.not_eq_true', Bool.or_eq_false_iff, bne_eq_false_iff_eq]
    exact ⟨⟨⟨(h 1).1, (h 1).2.1⟩, (h 1).2.2⟩, ⟨⟨(h 2).1, (h 2).2.1⟩, (h 2).2.2⟩,
      ⟨⟨(h 3).1, (h 3).2.1⟩, (h 3).2.2⟩, ⟨⟨(h 4).1, (h 4).2.1⟩, (h 4).2.2⟩,
      ⟨⟨(h 5).1, (h 5).2.1⟩, (h 5).2.2⟩, ⟨⟨(h 6).1, (h 6).2.1⟩, (h 6).2.2⟩,
      ⟨(h 7).1, (h 7).2.1⟩, (h 7).2.2⟩

theorem tryCompress_node (ch : Fin 8 → OctreeNode) (t c : Nat) (u l : Bool)
    (mx my mz sz : Int) :
    tryCompress (.node ch t c u l mx my mz sz) =
      if l = false ∧ (ch 0).isNull = false ∧ allSame ch = true then
        (.node (fun _ => .null) (ch 0).voxelType (ch 0).voxelColor true true mx my mz sz, true)
      else (.node ch t c u l mx my mz sz, false) := by
  simp only [tryCompress]
  cases l <;> cases (ch 0).isNull <;> simp

theorem tryCompress_false (n : OctreeNode) (h : (tryCompress n).2 = false) :
    (tryCompress n).1 = n := by
  cases n with
  | null => rfl
  | node ch t c u l mx my mz sz =>
    rw [tryCompress_node] at h ⊢
    split at h
    · cases h
    · rename_i hc; rw [if_neg hc]

theorem geom_tryCompress (n : OctreeNode) : (tryCompress n).1.geom = n.geom := by
  cases n with
  | null => rfl
  | node ch t c u l mx my mz sz => rw [tryCompress_node]; split <;> rfl

theorem isNull_tryCompress (n : OctreeNode) : (tryCompress n).1.isNull = n.isNull := by
  cases n with
  | null => rfl
  | node ch t c u l mx my mz sz => rw [tryCompress_node]; split <;> rfl

theorem compressRecursive_node (ch : Fin 8 → OctreeNode) (t c : Nat) (u : Bool)
    (mx my mz sz : Int) :
    compressRecursive (.node ch t c u false mx my mz sz) =
      ((tryCompress (.node (fun i => (compressRecursive (ch i)).1) t c u false mx my mz sz)).1,
        (any8 fun i => (compressRecursive (ch i)).2) ||
          (tryCompress
            (.node (fun i => (compressRecursive (ch i)).1) t c u false mx my mz sz)).2) := by
  simp [compressRecursive]

theorem compressRecursive_leaf (ch : Fin 8 → OctreeNode) (t c : Nat) (u : Bool)
    (mx my mz sz : Int) :
    compressRecursive (.node ch t c u true mx my mz sz) =
      (.node ch t c u true mx my mz sz, false) := by
  simp [compressRecursive]

theorem geom_compressRecursive (n : OctreeNode) : (compressRecursive n).1.geom = n.geom := by
  cases n with
  | null => rfl
  | node ch t c u l mx my mz sz =>
    cases l
    · rw [compressRecursive_node]; exact geom_tryCompress _
    · rw [compressRecursive_leaf]

theorem isNull_compressRecursive (n : OctreeNode) :
    (compressRecursive n).1.isNull = n.isNull := by
  cases n with
  | null => rfl
  | node ch t c u l mx my mz sz =>
    cases l
    · rw [compressRecursive_node]; exact isNull_tryCompress _
    · rw [compressRecursive_leaf]

/-- A pass that reports no compression has not changed the tree. -/
theorem compressRecursive_false (n : OctreeNode) :
    (compressRecursive n).2 = false → (compressRecursive n).1 = n := by
  induction n with
  | null => intro _; rfl
  | node ch t c u l mx my mz sz ih =>
    cases l
    · rw [compressRecursive_node]
      intro h
      simp only [Bool.or_eq_false_iff, any8_eq_false] at h
      have hch : (fun i => (compressRecursive (ch i)).1) = ch := funext fun i => ih i (h.1 i)
      rw [hch] at h ⊢
      exact tryCompress_false _ h.2
    · rw [compressRecursive_leaf]; intro _; rfl

theorem wellFormed_tryCompress {rem : Nat} {n : OctreeNode} (h : WellFormed rem n) :
    WellFormed rem (tryCompress n).1 := by
  cases h with
  | leaf hsz hch => rw [tryCompress_node]; simp only [Bool.true_eq_false, false_and, if_false]
                    exact WellFormed.leaf hsz hch
  | inner hsz hwf hx hy hz =>
    rw [tryCompress_node]
    split
    · exact WellFormed.leaf hsz (fun _ => rfl)
    · exact WellFormed.inner hsz hwf hx hy hz

theorem wellFormed_compressRecursive {rem : Nat} {n : OctreeNode} (h : WellFormed rem n) :
    WellFormed rem (compressRecursive n).1 := by
  induction h with
  | leaf hsz hch => rw [compressRecursive_leaf]; exact WellFormed.leaf hsz hch
  | inner hsz hwf hx hy hz ih =>
    rw [compressRecursive_node]
    apply wellFormed_tryCompress
    refine WellFormed.inner hsz ih ?_ ?_ ?_ <;> intro i
    · rw [((geom_eq_iff _ _).1 (geom_compressRecursive _)).1]; exact hx i
    · rw [((geom_eq_iff _ _).1 (geom_compressRecursive _)).2.1]; exact hy i
    · rw [((geom_eq_iff _ _).1 (geom_compressRecursive _)).2.2.1]; exact hz i

theorem wellFormed_compressLoop {rem : Nat} :
    ∀ (fuel : Nat) (n m : OctreeNode), WellFormed rem n → compressLoop fuel n = some m →
      WellFormed rem m := by
  intro fuel
  induction fuel with
  | zero => intro n m _ h; cases h
  | succ f ih =>
    intro n m hn h
    rw [compressLoop] at h
    split at h
    · exact ih _ _ (wellFormed_compressRecursive hn) h
    · cases h; exact wellFormed_compressRecursive hn

theorem countNodes_pos (n : OctreeNode) (h : n.isNull = false) : 1 ≤ countNodes n := by
  cases n with
  | null => cases h
  | node ch t c u l mx my mz sz => simp only [countNodes]; split <;> omega

theorem countNodes_compressRecursive (n : OctreeNode) :
    countNodes (compressRecursive n).1 ≤ countNodes n ∧
      ((compressRecursive n).2 = true → countNodes (compressRecursive n).1 < countNodes n) := by
  induction n with
  | null => exact ⟨le_refl _, fun h => by cases h⟩
  | node ch t c u l mx my mz sz ih =>
    cases l
    · rw [compressRecursive_node, tryCompress_node]
      have hle : sum8 (fun i => countNodes (compressRecursive (ch i)).1) ≤
          sum8 (fun i => countNodes (ch i)) := sum8_le _ _ fun i => (ih i).1
      by_cases hc : (false = false) ∧ (compressRecursive (ch 0)).1.isNull = false ∧
          allSame (fun i => (compressRecursive (ch i)).1) = true
      · rw [if_pos hc]
        have hall := (allSame_iff _ hc.2.1).1 hc.2.2
        have h8 := sum8_ge (fun i => countNodes (compressRecursive (ch i)).1)
          (fun i => countNodes_pos _ (hall i).1)
        simp only [countNodes, Bool.true_eq_false, if_false, if_true]
        omega
      · rw [if_neg hc]
        simp only [countNodes, if_true, Bool.or_false, any8_eq_true]
        refine ⟨by omega, ?_⟩
        rintro ⟨i, hi⟩
        have := sum8_lt (fun i => countNodes (compressRecursive (ch i)).1)
          (fun i => countNodes (ch i)) (fun i => (ih i).1) i ((ih i).2 hi)
        omega
    · rw [compressRecursive_leaf]; exact ⟨le_refl _, fun h => by cases h⟩

/-- The loop of `compressTree` ends within `countNodes root + 1` passes. -/
theorem compressLoop_terminates :
    ∀ (fuel : Nat) (n : OctreeNode), countNodes n < fuel → ∃ m, compressLoop fuel n = some m := by
  intro fuel
  induction fuel with
  | zero => intro n h; omega
  | succ f ih =>
    intro n h
    rw [compressLoop]
    by_cases hc : (compressRecursive n).2 = true
    · simp only [hc, if_true]
      exact ih _ (by have := (countNodes_compressRecursive n).2 hc; omega)
    · simp only [hc]; exact ⟨_, rfl⟩

/-- The result of the loop does not depend on the budget. -/
theorem compressLoop_fuel_irrel :
    ∀ (f1 f2 : Nat) (n m1 m2 : OctreeNode), compressLoop f1 n = some m1 →
      compressLoop f2 n = some m2 → m1 = m2 := by
  intro f1
  induction f1 with
  | zero => intro f2 n m1 m2 h; cases h
  | succ f ih =>
    intro f2 n m1 m2 h1 h2
    cases f2 with
    | zero => cases h2
    | succ g =>
      rw [compressLoop] at h1 h2
      by_cases hc : (compressRecursive n).2 = true
      · simp only [hc, if_true] at h1 h2
        exact ih g _ _ _ h1 h2
      · simp only [hc] at h1 h2
        cases h1; cases h2; rfl

/-- The tree that the loop returns is a fixed point of the pass. -/
theorem compressLoop_fixed :
    ∀ (fuel : Nat) (n m : OctreeNode), compressLoop fuel n = some m →
      compressRecursive m = (m, false) := by
  intro fuel
  induction fuel with
  | zero => intro n m h; cases h
  | succ f ih =>
    intro n m h
    rw [compressLoop] at h
    by_cases hc : (compressRecursive n).2 = true
    · simp only [hc, if_true] at h
      exact ih _ _ h
    · simp only [hc] at h
      cases h
      have hf : (compressRecursive n).2 = false := by simpa using hc
      have hid := compressRecursive_false n hf
      rw [hid]
      exact Prod.ext hid hf

end Compress

/-! ## Reachable worlds are well formed -/

section Worlds

theorem maxDepth_setVoxel (w : OctreeVoxelWorld) (x y z : Int) (v : Voxel) :
    (w.setVoxel x y z v).maxDepth = w.maxDepth := by
  unfold OctreeVoxelWorld.setVoxel; split
  · rfl
  · split <;> rfl

theorem wellFormed_setVoxel (w : OctreeVoxelWorld) (x y z : Int) (v : Voxel)
    (h : WellFormed w.maxDepth w.root) :
    WellFormed (w.setVoxel x y z v).maxDepth (w.setVoxel x y z v).root := by
  unfold OctreeVoxelWorld.setVoxel; split
  · exact h
  · split
    · exact wellFormed_insert x y z v _ _ h
    · exact h

theorem compressTree_some {w w2 : OctreeVoxelWorld} {fuel : Nat}
    (h : w.compressTree fuel = some w2) :
    compressLoop fuel w.root = some w2.root ∧ w2.worldSizeX = w.worldSizeX ∧
      w2.worldSizeY = w.worldSizeY ∧ w2.worldSizeZ = w.worldSizeZ ∧
      w2.maxDepth = w.maxDepth := by
  unfold OctreeVoxelWorld.compressTree at h
  cases hr : compressLoop fuel w.root with
  | none => rw [hr] at h; cases h
  | some r => rw [hr] at h; cases h; exact ⟨rfl, rfl, rfl, rfl, rfl⟩

theorem compressTree_terminates (w : OctreeVoxelWorld) :
    ∃ w2, w.compressTree (w.getNodeCount + 1) = some w2 := by
  obtain ⟨m, hm⟩ := compressLoop_terminates (w.getNodeCount + 1) w.root
    (by unfold OctreeVoxelWorld.getNodeCount; omega)
  exact ⟨{ w with root := m }, by unfold OctreeVoxelWorld.compressTree; rw [hm]⟩

theorem reachable_wellFormed {w : OctreeVoxelWorld} (h : Reachable w) :
    WellFormed w.maxDepth w.root := by
  induction h with
  | create h => exact create_wellFormed h
  | setVoxel x y z v _ ih => exact wellFormed_setVoxel _ x y z v ih
  | compressTree fuel _ hc ih =>
    obtain ⟨h1, _, _, _, h5⟩ := compressTree_some hc
    rw [h5]
    exact wellFormed_compressLoop fuel _ _ ih h1

theorem reachableBySet_reachable {w : OctreeVoxelWorld} (h : ReachableBySet w) :
    Reachable w := by
  induction h with
  | create h => exact Reachable.create h
  | setVoxel x y z v _ ih => exact Reachable.setVoxel x y z v ih

theorem create_444 : OctreeVoxelWorld.create 4 4 4 = some world444 := by rfl

theorem create_333 : OctreeVoxelWorld.create 3 3 3 = some world333 := by rfl

theorem create_222 : OctreeVoxelWorld.create 2 2 2 = some world222 := by rfl

end Worlds

/-! ## Geometry of the octants -/

section Geometry

theorem octantOffset_getChildIndex (ch : Fin 8 → OctreeNode) (t c : Nat) (u l : Bool)
    (mx my mz : Int) (r : Nat) (x y z s : Int) :
    octantOffset ((OctreeNode.node ch t c u l mx my mz (2 ^ (r + 1))).getChildIndex x y z) 1 s =
        (if x ≥ mx + 2 ^ r then s else 0) ∧
      octantOffset ((OctreeNode.node ch t c u l mx my mz (2 ^ (r + 1))).getChildIndex x y z) 2 s =
        (if y ≥ my + 2 ^ r then s else 0) ∧
      octantOffset ((OctreeNode.node ch t c u l mx my mz (2 ^ (r + 1))).getChildIndex x y z) 4 s =
        (if z ≥ mz + 2 ^ r then s else 0) := by
  simp only [getChildIndex, OctreeNode.size, OctreeNode.minX, OctreeNode.minY, OctreeNode.minZ,
    tdiv_two_pow_succ, octantOffset]
  by_cases hx : x ≥ mx + 2 ^ r <;> by_cases hy : y ≥ my + 2 ^ r <;>
    by_cases hz : z ≥ mz + 2 ^ r <;> simp only [hx, hy, hz, if_true, if_false] <;>
    exact ⟨rfl, rfl, rfl⟩

theorem octant_bits :
    ∀ i : Fin 8,
      (if i.val &&& 1 ≠ 0 then 1 else 0) ||| (if i.val &&& 2 ≠ 0 then 2 else 0) |||
        (if i.val &&& 4 ≠ 0 then 4 else 0) = i.val := by
  decide

theorem getChildIndex_eq_of_bits (ch : Fin 8 → OctreeNode) (t c : Nat) (u l : Bool)
    (mx my mz : Int) (r : Nat) (x y z : Int) (i : Fin 8)
    (hx : x ≥ mx + 2 ^ r ↔ i.val &&& 1 ≠ 0) (hy : y ≥ my + 2 ^ r ↔ i.val &&& 2 ≠ 0)
    (hz : z ≥ mz + 2 ^ r ↔ i.val &&& 4 ≠ 0) :
    (OctreeNode.node ch t c u l mx my mz (2 ^ (r + 1))).getChildIndex x y z = i := by
  simp only [getChildIndex, OctreeNode.size, OctreeNode.minX, OctreeNode.minY, OctreeNode.minZ,
    tdiv_two_pow_succ, hx, hy, hz]
  apply Fin.ext
  convert octant_bits i

/-- A point of the parent's cube lies in the cube of the child that `getChildIndex`
selects. -/
theorem inCube_child (ch : Fin 8 → OctreeNode) (t c : Nat) (u l : Bool) (mx my mz : Int)
    (r : Nat) (x y z : Int) (k : OctreeNode)
    (hk : k.geom =
      (mx + octantOffset ((OctreeNode.node ch t c u l mx my mz (2 ^ (r + 1))).getChildIndex x y z)
          1 (2 ^ r),
        my + octantOffset ((OctreeNode.node ch t c u l mx my mz (2 ^ (r + 1))).getChildIndex x y z)
          2 (2 ^ r),
        mz + octantOffset ((OctreeNode.node ch t c u l mx my mz (2 ^ (r + 1))).getChildIndex x y z)
          4 (2 ^ r), 2 ^ r))
    (h : InCube (.node ch t c u l mx my mz (2 ^ (r + 1))) x y z) : InCube k x y z := by
  obtain ⟨o1, o2, o4⟩ := octantOffset_getChildIndex ch t c u l mx my mz r x y z (2 ^ r)
  rw [o1, o2, o4] at hk
  simp only [OctreeNode.geom, Prod.mk.injEq] at hk
  obtain ⟨k1, k2, k3, k4⟩ := hk
  simp only [InCube, OctreeNode.size, OctreeNode.minX, OctreeNode.minY, OctreeNode.minZ,
    pow_succ] at h
  unfold InCube
  rw [k1, k2, k3, k4]
  generalize (2 : Int) ^ r = s at *
  obtain ⟨⟨a1, a2⟩, ⟨b1, b2⟩, c1, c2⟩ := h
  refine ⟨?_, ?_, ?_⟩ <;> split <;> omega

/-- A point of the cube of child `i` is routed to slot `i` by `getChildIndex` and lies in
the parent's cube. -/
theorem getChildIndex_of_inCube_child (ch : Fin 8 → OctreeNode) (t c : Nat) (u l : Bool)
    (mx my mz : Int) (r : Nat) (x y z : Int) (i : Fin 8) (k : OctreeNode)
    (hk : k.geom =
      (mx + octantOffset i 1 (2 ^ r), my + octantOffset i 2 (2 ^ r),
        mz + octantOffset i 4 (2 ^ r), 2 ^ r))
    (h : InCube k x y z) :
    (OctreeNode.node ch t c u l mx my mz (2 ^ (r + 1))).getChildIndex x y z = i ∧
      InCube (.node ch t c u l mx my mz (2 ^ (r + 1))) x y z := by
  simp only [OctreeNode.geom, Prod.mk.injEq] at hk
  obtain ⟨k1, k2, k3, k4⟩ := hk
  unfold InCube at h
  rw [k1, k2, k3, k4] at h
  have hs : (0 : Int) < 2 ^ r := by positivity
  simp only [octantOffset] at h
  obtain ⟨⟨a1, a2⟩, ⟨b1, b2⟩, c1, c2⟩ := h
  constructor
  · apply getChildIndex_eq_of_bits
    · constructor
      · intro hx; by_contra hb; rw [if_neg (not_not.2 hb)] at a2; omega
      · intro hb; rw [if_pos hb] at a1; omega
    · constructor
      · intro hx; by_contra hb; rw [if_neg (not_not.2 hb)] at b2; omega
      · intro hb; rw [if_pos hb] at b1; omega
    · constructor
      · intro hx; by_contra hb; rw [if_neg (not_not.2 hb)] at c2; omega
      · intro hb; rw [if_pos hb] at c1; omega
  · simp only [InCube, OctreeNode.size, OctreeNode.minX, OctreeNode.minY, OctreeNode.minZ,
      pow_succ]
    generalize (2 : Int) ^ r = s at *
    refine ⟨⟨?_, ?_⟩, ⟨?_, ?_⟩, ?_, ?_⟩
    · split at a1 <;> omega
    · split at a2 <;> omega
    · split at b1 <;> omega
    · split at b2 <;> omega
    · split at c1 <;> omega
    · split at c2 <;> omega

theorem WellFormed.geom_child {r : Nat} {ch : Fin 8 → OctreeNode} {mx my mz : Int}
    (hwf : ∀ i, WellFormed r (ch i))
    (hx : ∀ i, (ch i).minX = mx + octantOffset i 1 (2 ^ r))
    (hy : ∀ i, (ch i).minY = my + octantOffset i 2 (2 ^ r))
    (hz : ∀ i, (ch i).minZ = mz + octantOffset i 4 (2 ^ r)) (i : Fin 8) :
    (ch i).geom =
      (mx + octantOffset i 1 (2 ^ r), my + octantOffset i 2 (2 ^ r),
        mz + octantOffset i 4 (2 ^ r), 2 ^ r) := by
  simp only [OctreeNode.geom, hx i, hy i, hz i, (hwf i).size_eq]

end Geometry

/-! ## Frame property of insertion and compression of uniform trees -/

section Frame

theorem getVoxelRecursive_update (a b c : Int) (md : Nat) (ch : Fin 8 → OctreeNode)
    (t k : Nat) (u : Bool) (mx my mz sz : Int) (depth : Nat) (hd : depth < md) (idx : Fin 8)
    (m : OctreeNode) (hm : m.isNull = false) (hch : ∀ i, (ch i).isNull = false) :
    getVoxelRecursive md a b c
        (.node (fun j => if j = idx then m else ch j) t k u false mx my mz sz) depth =
      if (OctreeNode.node ch t k u false mx my mz sz).getChildIndex a b c = idx then
        getVoxelRecursive md a b c m (depth + 1)
      else
        getVoxelRecursive md a b c
          (ch ((OctreeNode.node ch t k u false mx my mz sz).getChildIndex a b c)) (depth + 1) := by
  have hi : (OctreeNode.node (fun j => if j = idx then m else ch j) t k u false mx my mz
      sz).getChildIndex a b c = (OctreeNode.node ch t k u false mx my mz sz).getChildIndex a b c :=
    rfl
  rw [getVoxelRecursive_inner a b c md _ _ _ _ _ _ _ _ depth hd]
  · rw [hi]
    by_cases h : (OctreeNode.node ch t k u false mx my mz sz).getChildIndex a b c = idx
    · rw [if_pos h, if_pos h]
    · rw [if_neg h, if_neg h]
  · rw [hi]
    by_cases h : (OctreeNode.node ch t k u false mx my mz sz).getChildIndex a b c = idx
    · rw [if_pos h]; exact hm
    · rw [if_neg h]; exact hch _

theorem inCube_zero_eq {n : OctreeNode} (h : WellFormed 0 n) {x y z a b c : Int}
    (hp : InCube n x y z) (hq : InCube n a b c) : a = x ∧ b = y ∧ c = z := by
  have hs := h.size_eq
  unfold InCube at hp hq
  rw [hs] at hp hq
  simp only [pow_zero] at hp hq
  omega

/-- Inserting at `(x, y, z)` does not change what is read at another coordinate of the
node's cube. -/
theorem getVoxelRecursive_insert_frame (x y z : Int) (v : Voxel) (a b c : Int)
    (hne : ¬ (a = x ∧ b = y ∧ c = z)) :
    ∀ (rem : Nat) (n : OctreeNode) (md depth : Nat), WellFormed rem n → depth + rem = md →
      InCube n x y z → InCube n a b c →
      getVoxelRecursive md a b c (insertVoxelRecursive x y z v rem n) depth =
        getVoxelRecursive md a b c n depth := by
  intro rem
  induction rem with
  | zero =>
    intro n md depth h _ hp hq
    exact absurd (inCube_zero_eq h hp hq) hne
  | succ r ih =>
    intro n md depth h hmd hp hq
    cases h with
    | @leaf _ ch t k u mx my mz sz hsz hch =>
      subst hsz
      by_cases hd : t = v.type ∧ k = v.color
      · obtain ⟨h1, h2⟩ := hd
        subst h1 h2
        rw [insert_leaf_same]
      · rw [insert_leaf_diff x y z v _ _ _ _ _ _ _ _ hd,
          getVoxelRecursive_update a b c md (freshChildren t k mx my mz r) _ _ _ _ _ _ _ depth
            (by omega) _ _ (by rw [isNull_insertVoxelRecursive]; rfl) (fun _ => rfl),
          getVoxelRecursive_leaf]
        split
        · rename_i hidx
          have hp2 : InCube (freshChildren t k mx my mz r
              ((OctreeNode.node ch t k u true mx my mz (2 ^ (r + 1))).getChildIndex x y z))
              x y z := inCube_child _ _ _ _ _ _ _ _ _ _ _ _ _ rfl hp
          have hq2 : InCube (freshChildren t k mx my mz r
              ((OctreeNode.node ch t k u true mx my mz (2 ^ (r + 1))).getChildIndex x y z))
              a b c := by
            have hidx2 : (OctreeNode.node ch t k u true mx my mz (2 ^ (r + 1))).getChildIndex
                a b c = (OctreeNode.node ch t k u true mx my mz (2 ^ (r + 1))).getChildIndex
                x y z := hidx
            rw [← hidx2]
            exact inCube_child _ _ _ _ _ _ _ _ _ _ _ _ _ rfl hq
          rw [ih _ md (depth + 1) (wellFormed_freshChildren _ _ _ _ _ _ _) (by omega) hp2 hq2]
          exact getVoxelRecursive_leaf a b c _ _ _ _ _ _ _ _ _ _
        · exact getVoxelRecursive_leaf a b c _ _ _ _ _ _ _ _ _ _
    | @inner _ ch t k u mx my mz sz hsz hwf hx hy hz =>
      subst hsz
      rw [insert_inner x y z v _ _ _ _ _ _ _ _ (fun i => (hwf i).isNull_eq),
        getVoxelRecursive_update a b c md _ _ _ _ _ _ _ _ depth (by omega) _ _
          (by rw [isNull_insertVoxelRecursive]; exact (hwf _).isNull_eq)
          (fun i => (hwf i).isNull_eq),
        getVoxelRecursive_inner a b c md _ _ _ _ _ _ _ _ depth (by omega) (hwf _).isNull_eq]
      split
      · rename_i hidx
        have hp2 : InCube (ch ((OctreeNode.node ch t k u false mx my mz
            (2 ^ (r + 1))).getChildIndex x y z)) x y z :=
          inCube_child _ _ _ _ _ _ _ _ _ _ _ _ _ (WellFormed.geom_child hwf hx hy hz _) hp
        have hq2 : InCube (ch ((OctreeNode.node ch t k u false mx my mz
            (2 ^ (r + 1))).getChildIndex a b c)) a b c :=
          inCube_child _ _ _ _ _ _ _ _ _ _ _ _ _ (WellFormed.geom_child hwf hx hy hz _) hq
        rw [hidx] at hq2 ⊢
        exact ih _ md (depth + 1) (hwf _) (by omega) hp2 hq2
      · rfl

theorem nodeVoxel_inj {t c t0 c0 : Nat} (h : nodeVoxel t c = nodeVoxel t0 c0) :
    t = t0 ∧ c = c0 := by
  have h1 := congrArg Voxel.type h
  have h2 := congrArg Voxel.color h
  exact ⟨h1, h2⟩

/-- A well-formed subtree that reads the same material and colour at every coordinate of
its cube is collapsed by one pass into a single leaf of that material and colour. -/
theorem compressRecursive_uniform (t0 c0 : Nat) (md : Nat) {rem : Nat} {n : OctreeNode}
    (h : WellFormed rem n) :
    ∀ depth, depth + rem = md →
      (∀ x y z, InCube n x y z → getVoxelRecursive md x y z n depth = nodeVoxel t0 c0) →
      ∃ u, (compressRecursive n).1 =
        .node (fun _ => .null) t0 c0 u true n.minX n.minY n.minZ n.size := by
  induction h with
  | @leaf rem ch t c u mx my mz sz hsz hch =>
    intro depth _ hall
    have hpos : (0 : Int) < 2 ^ rem := by positivity
    have hin : InCube (.node ch t c u true mx my mz sz) mx my mz := by
      simp only [InCube, OctreeNode.minX, OctreeNode.minY, OctreeNode.minZ, OctreeNode.size, hsz]
      omega
    have hv := hall mx my mz hin
    rw [getVoxelRecursive_leaf] at hv
    obtain ⟨h1, h2⟩ := nodeVoxel_inj hv
    subst h1 h2
    have hnull : ch = fun _ => .null := funext hch
    subst hnull
    exact ⟨u, by rw [compressRecursive_leaf]; rfl⟩
  | @inner r ch t c u mx my mz sz hsz hwf hx hy hz ih =>
    intro depth hmd hall
    subst hsz
    have hkids : ∀ i, ∃ ui, (compressRecursive (ch i)).1 =
        .node (fun _ => .null) t0 c0 ui true (ch i).minX (ch i).minY (ch i).minZ
          (ch i).size := by
      intro i
      apply ih i (depth + 1) (by omega)
      intro x y z hin
      obtain ⟨hidx, hpar⟩ := getChildIndex_of_inCube_child ch t c u false mx my mz r x y z i
        (ch i) (WellFormed.geom_child hwf hx hy hz i) hin
      have hv := hall x y z hpar
      rw [getVoxelRecursive_inner x y z md _ _ _ _ _ _ _ _ depth (by omega)
        (hwf _).isNull_eq, hidx] at hv
      exact hv
    have hnn : ∀ i, (compressRecursive (ch i)).1.isNull = false ∧
        (compressRecursive (ch i)).1.voxelType = t0 ∧
        (compressRecursive (ch i)).1.voxelColor = c0 := by
      intro i
      obtain ⟨ui, hi⟩ := hkids i
      rw [hi]
      exact ⟨rfl, rfl, rfl⟩
    have hsame : allSame (fun i => (compressRecursive (ch i)).1) = true := by
      rw [allSame_iff _ (hnn 0).1]
      intro i
      exact ⟨(hnn i).1, by rw [(hnn i).2.1, (hnn 0).2.1], by rw [(hnn i).2.2, (hnn 0).2.2]⟩
    rw [compressRecursive_node, tryCompress_node, if_pos ⟨rfl, (hnn 0).1, hsame⟩]
    simp only [(hnn 0).2.1, (hnn 0).2.2]
    exact ⟨true, rfl⟩

end Frame

/-! ## Properties of the octree operations -/

section Claims

/-- C1: in a world reachable by `setVoxel` and `compressTree` calls, writing a non-air voxel
at a coordinate inside the world extent and reading the same coordinate back returns the
material and the colour that were written. -/
theorem setVoxel_then_getVoxel (w : OctreeVoxelWorld) (hw : Reachable w) (x y z : Int)
    (v : Voxel) (hx : 0 ≤ x ∧ x < w.worldSizeX) (hy : 0 ≤ y ∧ y < w.worldSizeY)
    (hz : 0 ≤ z ∧ z < w.worldSizeZ) (hv : v.type ≠ 0) :
    ((w.setVoxel x y z v).getVoxel x y z).type = v.type ∧
      ((w.setVoxel x y z v).getVoxel x y z).color = v.color := by
  have hr : ¬ (x < 0 ∨ x ≥ w.worldSizeX ∨ y < 0 ∨ y ≥ w.worldSizeY ∨ z < 0 ∨
      z ≥ w.worldSizeZ) := by omega
  have hset : w.setVoxel x y z v =
      { w with root := insertVoxelRecursive x y z v w.maxDepth w.root } := by
    unfold OctreeVoxelWorld.setVoxel
    rw [if_neg hr, if_pos hv]
  rw [hset]
  unfold OctreeVoxelWorld.getVoxel
  rw [if_neg hr]
  rw [getVoxelRecursive_insert x y z v w.maxDepth w.root w.maxDepth 0 (reachable_wellFormed hw)
    (by omega)]
  exact ⟨rfl, rfl⟩

/-- Witness for C1 on the 4x4x4 world, cell (2,2,2), grass. -/
theorem setVoxel_then_getVoxel_witness :
    ((world444.setVoxel 2 2 2 grass).getVoxel 2 2 2).type = grass.type ∧
      ((world444.setVoxel 2 2 2 grass).getVoxel 2 2 2).color = grass.color :=
  setVoxel_then_getVoxel world444 (Reachable.create create_444) 2 2 2 grass (by decide)
    (by decide) (by decide) (by decide)

/-- C6: outside the world extent `getVoxel` returns the empty voxel (type 0, colour
`0xFF000000`) and `isSolid` is false, whatever the tree holds. -/
theorem getVoxel_outside_extent (w : OctreeVoxelWorld) (x y z : Int)
    (h : x < 0 ∨ x ≥ w.worldSizeX ∨ y < 0 ∨ y ≥ w.worldSizeY ∨ z < 0 ∨ z ≥ w.worldSizeZ) :
    w.getVoxel x y z = Voxel.empty ∧ (w.getVoxel x y z).type = 0 ∧
      (w.getVoxel x y z).color = 0xFF000000 ∧ w.isSolid x y z = false := by
  have hg : w.getVoxel x y z = Voxel.empty := by
    unfold OctreeVoxelWorld.getVoxel; rw [if_pos h]
  refine ⟨hg, ?_, ?_, ?_⟩
  · rw [hg]; rfl
  · rw [hg]; rfl
  · unfold OctreeVoxelWorld.isSolid; rw [hg]; rfl

/-- Witness for C6: the coordinate (3,3,3) lies inside the root cube of size 4 of the 3x3x3
world and outside its extent. -/
theorem getVoxel_outside_extent_witness :
    world333.getVoxel 3 3 3 = Voxel.empty ∧ (world333.getVoxel 3 3 3).type = 0 ∧
      (world333.getVoxel 3 3 3).color = 0xFF000000 ∧ world333.isSolid 3 3 3 = false :=
  getVoxel_outside_extent world333 3 3 3 (by decide)

/-- C7: `setVoxel` returns the world unchanged when the coordinate lies outside the world
extent or the voxel is air; every query and counter is therefore unchanged. -/
theorem setVoxel_noop (w : OctreeVoxelWorld) (x y z : Int) (v : Voxel)
    (h : (x < 0 ∨ x ≥ w.worldSizeX ∨ y < 0 ∨ y ≥ w.worldSizeY ∨ z < 0 ∨ z ≥ w.worldSizeZ) ∨
      v.type = 0) :
    w.setVoxel x y z v = w ∧
      (∀ a b c, (w.setVoxel x y z v).getVoxel a b c = w.getVoxel a b c) ∧
      (w.setVoxel x y z v).getNodeCount = w.getNodeCount := by
  have hs : w.setVoxel x y z v = w := by
    unfold OctreeVoxelWorld.setVoxel
    rcases h with h | h
    · rw [if_pos h]
    · split
      · rfl
      · rw [if_neg (not_not.2 h)]
  rw [hs]
  exact ⟨rfl, fun _ _ _ => rfl, rfl⟩

/-- Witness for C7: an air voxel written over the grass cell (2,2,2) does not clear it. -/
theorem setVoxel_noop_witness :
    (world444.setVoxel 2 2 2 grass).setVoxel 2 2 2 Voxel.empty =
        world444.setVoxel 2 2 2 grass ∧
      (((world444.setVoxel 2 2 2 grass).setVoxel 2 2 2 Voxel.empty).getVoxel 2 2 2).type = 1 :=
  ⟨(setVoxel_noop (world444.setVoxel 2 2 2 grass) 2 2 2 Voxel.empty (Or.inr rfl)).1, by decide⟩

theorem octantOffset_one (i : Fin 8) (s : Int) :
    octantOffset i 1 s = if i.val.testBit 0 then s else 0 := by
  fin_cases i <;> rfl

theorem octantOffset_two (i : Fin 8) (s : Int) :
    octantOffset i 2 s = if i.val.testBit 1 then s else 0 := by
  fin_cases i <;> rfl

theorem octantOffset_four (i : Fin 8) (s : Int) :
    octantOffset i 4 s = if i.val.testBit 2 then s else 0 := by
  fin_cases i <;> rfl

/-- C8: `subdivide` on a leaf of size greater than 1 makes it internal, keeps its own
fields, and fills the eight slots with childless leaves of half the size that carry the
parent's material and colour, placed at the parent's origin plus half the size on X, Y, Z
according to bits 0, 1, 2 of the slot index; the voxel looked up from the node is the same
before and after, for every coordinate. -/
theorem subdivide_spec (ch : Fin 8 → OctreeNode) (t c : Nat) (u : Bool) (mx my mz sz : Int)
    (hsz : 1 < sz) :
    subdivide (.node ch t c u true mx my mz sz) =
        .node
          (fun i =>
            .node (fun _ => .null) t c false true
              (mx + if i.val.testBit 0 then sz / 2 else 0)
              (my + if i.val.testBit 1 then sz / 2 else 0)
              (mz + if i.val.testBit 2 then sz / 2 else 0) (sz / 2))
          t c u false mx my mz sz ∧
      ∀ (maxDepth : Nat) (x y z : Int) (depth : Nat),
        getVoxelRecursive maxDepth x y z (subdivide (.node ch t c u true mx my mz sz)) depth =
          getVoxelRecursive maxDepth x y z (.node ch t c u true mx my mz sz) depth := by
  have h1 : ¬ (sz ≤ 1) := not_le.2 hsz
  have hdiv : Int.tdiv sz 2 = sz / 2 := Int.tdiv_eq_ediv (by omega) (by norm_num)
  have hs : subdivide (.node ch t c u true mx my mz sz) =
      .node
        (fun i =>
          .node (fun _ => .null) t c false true
            (mx + if i.val.testBit 0 then sz / 2 else 0)
            (my + if i.val.testBit 1 then sz / 2 else 0)
            (mz + if i.val.testBit 2 then sz / 2 else 0) (sz / 2))
        t c u false mx my mz sz := by
    simp only [subdivide, h1, false_or, Bool.true_eq_false, if_false, hdiv, octantOffset_one,
      octantOffset_two, octantOffset_four]
  refine ⟨hs, ?_⟩
  intro md x y z depth
  rw [hs, getVoxelRecursive_leaf]
  by_cases hd : depth < md
  · rw [getVoxelRecursive_inner x y z md _ _ _ _ _ _ _ _ depth hd (by rfl)]
    exact getVoxelRecursive_leaf x y z _ _ _ _ _ _ _ _ _ _
  · exact getVoxelRecursive_bottom x y z _ _ _ _ _ _ _ _ _ _ _ (not_lt.1 hd)

/-- Witness for C8: the air leaf of size 4 at the origin. -/
theorem subdivide_spec_witness :
    subdivide (.node (fun _ => .null) 0 0xFF000000 false true 0 0 0 4) =
        .node
          (fun i =>
            .node (fun _ => .null) 0 0xFF000000 false true
              (0 + if i.val.testBit 0 then 4 / 2 else 0)
              (0 + if i.val.testBit 1 then 4 / 2 else 0)
              (0 + if i.val.testBit 2 then 4 / 2 else 0) (4 / 2))
          0 0xFF000000 false false 0 0 0 4 ∧
      getVoxelRecursive 2 3 1 2
          (subdivide (.node (fun _ => .null) 0 0xFF000000 false true 0 0 0 4)) 0 =
        getVoxelRecursive 2 3 1 2 (.node (fun _ => .null) 0 0xFF000000 false true 0 0 0 4) 0 :=
  ⟨(subdivide_spec (fun _ => .null) 0 0xFF000000 false 0 0 0 4 (by decide)).1,
    (subdivide_spec (fun _ => .null) 0 0xFF000000 false 0 0 0 4 (by decide)).2 2 3 1 2 0⟩

/-- C9: for extents between 1 and 2^30 the constructor returns a world whose root is an air
leaf at the origin, whose size is the least power of two that is at least the largest
extent, with `2 ^ maxDepth` equal to the root size. -/
theorem create_spec (sizeX sizeY sizeZ : Int) (hx : 1 ≤ sizeX ∧ sizeX ≤ 2 ^ 30)
    (hy : 1 ≤ sizeY ∧ sizeY ≤ 2 ^ 30) (hz : 1 ≤ sizeZ ∧ sizeZ ≤ 2 ^ 30) :
    ∃ w, OctreeVoxelWorld.create sizeX sizeY sizeZ = some w ∧
      w.root = OctreeNode.create 0 0 0 w.root.size ∧
      w.worldSizeX = sizeX ∧ w.worldSizeY = sizeY ∧ w.worldSizeZ = sizeZ ∧
      (2 : Int) ^ w.maxDepth = w.root.size ∧
      max sizeX (max sizeY sizeZ) ≤ w.root.size ∧
      (1 < max sizeX (max sizeY sizeZ) → w.root.size / 2 < max sizeX (max sizeY sizeZ)) ∧
      ∀ k : Nat, max sizeX (max sizeY sizeZ) ≤ 2 ^ k → w.root.size ≤ 2 ^ k := by
  obtain ⟨w, hw⟩ := create_terminates sizeX sizeY sizeZ hx.2 hy.2 hz.2
  obtain ⟨hroot, h1, h2, h3, hle, hmin⟩ := create_some hw
  have hsize : w.root.size = 2 ^ w.maxDepth := by rw [hroot]; rfl
  refine ⟨w, hw, ?_, h1, h2, h3, hsize.symm, ?_, ?_, ?_⟩
  · rw [hsize]; exact hroot
  · rw [hsize]; exact hle
  · intro _
    rw [hsize]
    rcases hmin with h0 | hlt
    · rw [h0]; have : 1 ≤ max sizeX (max sizeY sizeZ) := le_max_of_le_left hx.1
      simp only [pow_zero]; omega
    · obtain ⟨m, hm⟩ : ∃ m, w.maxDepth = m + 1 := by
        cases hmd : w.maxDepth with
        | zero =>
          rw [hmd] at hlt hle
          simp only [pow_zero, Nat.zero_sub] at hlt hle
          omega
        | succ m => exact ⟨m, rfl⟩
      rw [hm] at hlt ⊢
      rw [pow_succ, Int.mul_ediv_cancel _ (by norm_num)]
      simpa using hlt
  · intro k hk
    rw [hsize]
    rcases hmin with h0 | hlt
    · rw [h0]; simpa using (one_le_pow₀ (by norm_num : (1 : Int) ≤ 2) : (1 : Int) ≤ 2 ^ k)
    · have hlt2 : (2 : Int) ^ (w.maxDepth - 1) < 2 ^ k := lt_of_lt_of_le hlt hk
      have := (pow_lt_pow_iff_right₀ (by norm_num : (1 : Int) < 2)).1 hlt2
      exact pow_le_pow_right₀ (by norm_num) (by omega)

/-- Witness for C9: extents 3 x 2 x 1 give a root of size 4. -/
theorem create_spec_witness :
    ∃ w, OctreeVoxelWorld.create 3 2 1 = some w ∧
      w.root = OctreeNode.create 0 0 0 w.root.size ∧
      w.worldSizeX = 3 ∧ w.worldSizeY = 2 ∧ w.worldSizeZ = 1 ∧
      (2 : Int) ^ w.maxDepth = w.root.size ∧
      max (3 : Int) (max 2 1) ≤ w.root.size ∧
      (1 < max (3 : Int) (max 2 1) → w.root.size / 2 < max (3 : Int) (max 2 1)) ∧
      ∀ k : Nat, max (3 : Int) (max 2 1) ≤ 2 ^ k → w.root.size ≤ 2 ^ k :=
  create_spec 3 2 1 (by decide) (by decide) (by decide)

theorem nodeAt_wellFormed {root : OctreeNode} {md : Nat} (hroot : WellFormed md root)
    {d : Nat} {n : OctreeNode} (hn : NodeAt root d n) :
    ∃ rem, d + rem = md ∧ WellFormed rem n := by
  induction hn with
  | root _ => exact ⟨md, by omega, hroot⟩
  | @child d n i _ hc ih =>
    obtain ⟨rem, hrem, hwf⟩ := ih
    cases hwf with
    | leaf hsz hch =>
      simp only [OctreeNode.children, hch] at hc
      cases hc
    | @inner r ch t c u mx my mz sz hsz hwf hx hy hz =>
      exact ⟨r, by omega, hwf i⟩

theorem reachable_world444Grass : Reachable world444Grass :=
  Reachable.setVoxel 2 2 2 grass (Reachable.create create_444)

/-- C10: in a reachable world every node reached from the root through `d` child slots is
either a leaf with eight empty slots or an internal node with eight filled slots whose
children have half its size and sit at its origin plus half its size on X, Y, Z according
to bits 0, 1, 2 of the slot index; its size is `rootSize / 2^d`, at least 1, the root size
is `2 ^ maxDepth` and `d` is at most `maxDepth`. -/
theorem structural_invariant (w : OctreeVoxelWorld) (hw : Reachable w) (d : Nat)
    (n : OctreeNode) (hn : NodeAt w.root d n) :
    (n.isLeaf = true → ∀ i, (n.children i).isNull = true) ∧
      (n.isLeaf = false → ∀ i : Fin 8,
        (n.children i).isNull = false ∧ (n.children i).size = n.size / 2 ∧
          (n.children i).minX = n.minX + (if i.val.testBit 0 then n.size / 2 else 0) ∧
          (n.children i).minY = n.minY + (if i.val.testBit 1 then n.size / 2 else 0) ∧
          (n.children i).minZ = n.minZ + (if i.val.testBit 2 then n.size / 2 else 0)) ∧
      n.size = w.root.size / 2 ^ d ∧ 1 ≤ n.size ∧ w.root.size = 2 ^ w.maxDepth ∧
      d ≤ w.maxDepth := by
  have hroot := reachable_wellFormed hw
  obtain ⟨rem, hrem, hwf⟩ := nodeAt_wellFormed hroot hn
  have hsize : n.size = w.root.size / 2 ^ d := by
    rw [hwf.size_eq, hroot.size_eq, ← hrem, pow_add]
    exact (Int.mul_ediv_cancel_left _ (by positivity)).symm
  have hpos : (1 : Int) ≤ n.size := by
    rw [hwf.size_eq]; exact one_le_pow₀ (by norm_num)
  refine ⟨?_, ?_, hsize, hpos, hroot.size_eq, by omega⟩
  · intro hl i
    cases hwf with
    | leaf hsz hch => simp only [OctreeNode.children, hch]; rfl
    | inner hsz hwf hx hy hz => cases hl
  · intro hl i
    cases hwf with
    | leaf hsz hch => cases hl
    | @inner r ch t c u mx my mz sz hsz hwf hx hy hz =>
      have hhalf : sz / 2 = 2 ^ r := by
        rw [hsz, pow_succ]; exact Int.mul_ediv_cancel _ (by norm_num)
      show (ch i).isNull = false ∧ (ch i).size = sz / 2 ∧
        (ch i).minX = mx + (if i.val.testBit 0 then sz / 2 else 0) ∧
        (ch i).minY = my + (if i.val.testBit 1 then sz / 2 else 0) ∧
        (ch i).minZ = mz + (if i.val.testBit 2 then sz / 2 else 0)
      rw [hhalf]
      exact ⟨(hwf i).isNull_eq, (hwf i).size_eq,
        by rw [hx i, octantOffset_one], by rw [hy i, octantOffset_two],
        by rw [hz i, octantOffset_four]⟩

/-- Witness for C10: slot 7 of the root of the 4x4x4 world after one `setVoxel` at
(2,2,2), an internal node of size 2 at depth 1. -/
theorem structural_invariant_witness :
    ((world444Grass.root.children 7).isLeaf = false) ∧
      (world444Grass.root.children 7).size = world444Grass.root.size / 2 ^ 1 ∧
      (1 : Int) ≤ (world444Grass.root.children 7).size ∧ 1 ≤ world444Grass.maxDepth :=
  have h := structural_invariant world444Grass reachable_world444Grass 1
    (world444Grass.root.children 7) (NodeAt.child 7 (NodeAt.root (by decide)) (by decide))
  ⟨by decide, h.2.2.1, h.2.2.2.1, h.2.2.2.2.2⟩

/-- C3: `compressTree` returns, and on the world it returns a further pass of
`compressRecursive` reports no compression and leaves the tree identical, so a second
`compressTree` call returns the same world and every `getVoxel` result is unchanged. -/
theorem compressTree_idempotent (w : OctreeVoxelWorld) :
    ∃ w1, w.compressTree (w.getNodeCount + 1) = some w1 ∧
      (∀ fuel w2, w.compressTree fuel = some w2 → w2 = w1) ∧
      compressRecursive w1.root = (w1.root, false) ∧
      (∀ fuel, 0 < fuel → w1.compressTree fuel = some w1) ∧
      ∀ fuel w2, w1.compressTree fuel = some w2 →
        w2 = w1 ∧ ∀ x y z, w2.getVoxel x y z = w1.getVoxel x y z := by
  obtain ⟨w1, h1⟩ := compressTree_terminates w
  obtain ⟨hl, _, _, _, _⟩ := compressTree_some h1
  have hfix := compressLoop_fixed _ _ _ hl
  have hsecond : ∀ fuel, 0 < fuel → w1.compressTree fuel = some w1 := by
    intro fuel hf
    obtain ⟨f, rfl⟩ : ∃ f, fuel = f + 1 := ⟨fuel - 1, by omega⟩
    unfold OctreeVoxelWorld.compressTree
    rw [compressLoop, hfix]
    rfl
  refine ⟨w1, h1, ?_, hfix, hsecond, ?_⟩
  · intro fuel w2 h2
    obtain ⟨hl2, a, b, c, e⟩ := compressTree_some h2
    obtain ⟨_, a1, b1, c1, e1⟩ := compressTree_some h1
    have hr := compressLoop_fuel_irrel _ _ _ _ _ hl2 hl
    cases w1; cases w2
    simp only [OctreeVoxelWorld.mk.injEq] at *
    exact ⟨hr, by omega, by omega, by omega, by omega⟩
  · intro fuel w2 h2
    have hf : 0 < fuel := by
      cases fuel with
      | zero => simp [OctreeVoxelWorld.compressTree, compressLoop] at h2
      | succ f => omega
    have h3 := hsecond fuel hf
    rw [h3] at h2
    cases h2
    exact ⟨rfl, fun _ _ _ => rfl⟩

/-- C2 (evaluation at the failing input): in the 4x4x4 world with only cell (2,2,2) set to
grass, `getVoxel(2,2,2)` reads material 1 before `compressTree` and material 0 after it,
and the node count falls from 17 to 1. -/
theorem compressTree_drops_voxel :
    ∃ w w2, OctreeVoxelWorld.create 4 4 4 = some w ∧
      (w.setVoxel 2 2 2 grass).compressTree 2 = some w2 ∧
      ((w.setVoxel 2 2 2 grass).getVoxel 2 2 2).type = 1 ∧
      (w.setVoxel 2 2 2 grass).getNodeCount = 17 ∧
      (w2.getVoxel 2 2 2).type = 0 ∧ w2.getNodeCount = 1 :=
  ⟨world444, _, rfl, rfl, by decide, by decide, by decide, by decide⟩

/-- C5 (evaluation at the failing input): on the root of the 4x4x4 world with only cell
(2,2,2) set, slot 7 holds an internal node, and `tryCompress` nevertheless returns true and
turns the root into an air leaf. -/
theorem tryCompress_ignores_child_isLeaf :
    (world444Grass.root.children 7).isLeaf = false ∧
      (tryCompress world444Grass.root).2 = true ∧
      (tryCompress world444Grass.root).1.isLeaf = true ∧
      (tryCompress world444Grass.root).1.voxelType = 0 := by
  decide

theorem geom_compressLoop :
    ∀ (fuel : Nat) (n m : OctreeNode), compressLoop fuel n = some m → m.geom = n.geom := by
  intro fuel
  induction fuel with
  | zero => intro n m h; cases h
  | succ f ih =>
    intro n m h
    rw [compressLoop] at h
    split at h
    · rw [ih _ _ h, geom_compressRecursive]
    · cases h; exact geom_compressRecursive n

/-- In a reachable world the root sits at the origin with size `2 ^ maxDepth`, the least
power of two that covers the largest extent. -/
theorem reachable_root {w : OctreeVoxelWorld} (h : Reachable w) :
    w.root.geom = (0, 0, 0, 2 ^ w.maxDepth) ∧
      max w.worldSizeX (max w.worldSizeY w.worldSizeZ) ≤ 2 ^ w.maxDepth ∧
      (w.maxDepth = 0 ∨
        (2 : Int) ^ (w.maxDepth - 1) < max w.worldSizeX (max w.worldSizeY w.worldSizeZ)) := by
  induction h with
  | create h =>
    obtain ⟨hroot, h1, h2, h3, hle, hmin⟩ := create_some h
    rw [h1, h2, h3]
    refine ⟨?_, hle, hmin⟩
    rw [hroot]; rfl
  | @setVoxel w x y z v _ ih =>
    unfold OctreeVoxelWorld.setVoxel
    split
    · exact ih
    · split
      · refine ⟨?_, ih.2.1, ih.2.2⟩
        show (insertVoxelRecursive x y z v w.maxDepth w.root).geom = _
        rw [geom_insertVoxelRecursive]; exact ih.1
      · exact ih
  | compressTree fuel _ hc ih =>
    obtain ⟨h1, h2, h3, h4, h5⟩ := compressTree_some hc
    rw [h2, h3, h4, h5, geom_compressLoop _ _ _ h1]
    exact ih

theorem cubeWorld_of_reachable {k : Nat} {w : OctreeVoxelWorld} (hw : Reachable w)
    (hX : w.worldSizeX = 2 ^ k) (hY : w.worldSizeY = 2 ^ k) (hZ : w.worldSizeZ = 2 ^ k) :
    CubeWorld k w := by
  obtain ⟨hgeom, hle, hmin⟩ := reachable_root hw
  rw [hX, hY, hZ] at hle hmin
  simp only [max_self] at hle hmin
  have hk : w.maxDepth = k := by
    have h4 : k ≤ w.maxDepth := (pow_le_pow_iff_right₀ (by norm_num : (1 : Int) < 2)).1 hle
    rcases hmin with h0 | hlt
    · omega
    · have := (pow_lt_pow_iff_right₀ (by norm_num : (1 : Int) < 2)).1 hlt
      omega
  refine ⟨hk ▸ reachable_wellFormed hw, hk, hX, hY, hZ, ?_⟩
  rw [hgeom, hk]

theorem cubeWorld_inCube {k : Nat} {w : OctreeVoxelWorld} (h : CubeWorld k w) (x y z : Int) :
    InCube w.root x y z ↔
      ¬ (x < 0 ∨ x ≥ w.worldSizeX ∨ y < 0 ∨ y ≥ w.worldSizeY ∨ z < 0 ∨ z ≥ w.worldSizeZ) := by
  obtain ⟨_, _, h1, h2, h3, hg⟩ := h
  simp only [OctreeNode.geom, Prod.mk.injEq] at hg
  obtain ⟨g1, g2, g3, g4⟩ := hg
  unfold InCube
  rw [g1, g2, g3, g4, h1, h2, h3]
  omega

theorem cubeWorld_setVoxel {k : Nat} {w : OctreeVoxelWorld} (h : CubeWorld k w) (x y z : Int)
    (v : Voxel) : CubeWorld k (w.setVoxel x y z v) := by
  obtain ⟨hwf, hmd, h1, h2, h3, hg⟩ := h
  unfold OctreeVoxelWorld.setVoxel
  split
  · exact ⟨hwf, hmd, h1, h2, h3, hg⟩
  · split
    · refine ⟨?_, hmd, h1, h2, h3, ?_⟩
      · show WellFormed k (insertVoxelRecursive x y z v w.maxDepth w.root)
        rw [hmd]
        exact wellFormed_insert x y z v _ _ hwf
      · show (insertVoxelRecursive x y z v w.maxDepth w.root).geom = _
        rw [geom_insertVoxelRecursive]; exact hg
    · exact ⟨hwf, hmd, h1, h2, h3, hg⟩

/-- After `setVoxel` of a non-air voxel `v`, a cell of the extent reads `v` if it is the
cell written or if it read `v` before. -/
theorem cubeWorld_setVoxel_read {k : Nat} {w : OctreeVoxelWorld} (h : CubeWorld k w)
    (v : Voxel) (hv : v.type ≠ 0) (x y z a b c : Int) (hin : InCube w.root a b c)
    (hor : (a = x ∧ b = y ∧ c = z) ∨
      getVoxelRecursive k a b c w.root 0 = nodeVoxel v.type v.color) :
    getVoxelRecursive k a b c (w.setVoxel x y z v).root 0 = nodeVoxel v.type v.color := by
  have hmd := h.2.1
  have hwf : WellFormed w.maxDepth w.root := hmd ▸ h.1
  by_cases hr : x < 0 ∨ x ≥ w.worldSizeX ∨ y < 0 ∨ y ≥ w.worldSizeY ∨ z < 0 ∨ z ≥ w.worldSizeZ
  · have hs : w.setVoxel x y z v = w := by unfold OctreeVoxelWorld.setVoxel; rw [if_pos hr]
    rw [hs]
    rcases hor with ⟨rfl, rfl, rfl⟩ | hold
    · exact absurd hr ((cubeWorld_inCube h a b c).1 hin)
    · exact hold
  · have hs : (w.setVoxel x y z v).root = insertVoxelRecursive x y z v w.maxDepth w.root := by
      unfold OctreeVoxelWorld.setVoxel; rw [if_neg hr, if_pos hv]
    rw [hs]
    by_cases heq : a = x ∧ b = y ∧ c = z
    · obtain ⟨rfl, rfl, rfl⟩ := heq
      exact getVoxelRecursive_insert a b c v _ _ k 0 hwf (by omega)
    · rcases hor with hsame | hold
      · exact absurd hsame heq
      · rw [getVoxelRecursive_insert_frame x y z v a b c heq _ _ k 0 hwf (by omega)
          ((cubeWorld_inCube h x y z).2 hr) hin]
        exact hold

theorem cubeWorld_fillWith (v : Voxel) (hv : v.type ≠ 0) (k : Nat) :
    ∀ (cells : List (Int × Int × Int)) (w : OctreeVoxelWorld), CubeWorld k w →
      CubeWorld k (fillWith v w cells) ∧
        ∀ a b c, InCube w.root a b c →
          ((a, b, c) ∈ cells ∨ getVoxelRecursive k a b c w.root 0 = nodeVoxel v.type v.color) →
          getVoxelRecursive k a b c (fillWith v w cells).root 0 = nodeVoxel v.type v.color := by
  intro cells
  induction cells with
  | nil =>
    intro w h
    refine ⟨h, ?_⟩
    intro a b c _ hor
    rcases hor with hmem | hold
    · cases hmem
    · exact hold
  | cons p rest ih =>
    intro w h
    have h2 := cubeWorld_setVoxel h p.1 p.2.1 p.2.2 v
    obtain ⟨hc, hread⟩ := ih (w.setVoxel p.1 p.2.1 p.2.2 v) h2
    refine ⟨hc, ?_⟩
    intro a b c hin hor
    have hin2 : InCube (w.setVoxel p.1 p.2.1 p.2.2 v).root a b c := by
      unfold InCube at hin ⊢
      obtain ⟨g1, g2, g3, g4⟩ := (geom_eq_iff _ _).1 (h2.2.2.2.2.2.trans h.2.2.2.2.2.symm)
      rw [g1, g2, g3, g4]
      exact hin
    apply hread a b c hin2
    rcases hor with hmem | hold
    · rcases List.mem_cons.1 hmem with hp | hrest
      · right
        apply cubeWorld_setVoxel_read h v hv _ _ _ a b c hin
        left
        rw [← hp]
        exact ⟨rfl, rfl, rfl⟩
      · exact Or.inl hrest
    · right
      exact cubeWorld_setVoxel_read h v hv _ _ _ a b c hin (Or.inr hold)

theorem compressLoop_of_collapse {n : OctreeNode} {t c : Nat} {u : Bool} {mx my mz sz : Int}
    (h : (compressRecursive n).1 = .node (fun _ => .null) t c u true mx my mz sz) :
    ∀ fuel, 2 ≤ fuel →
      compressLoop fuel n = some (.node (fun _ => .null) t c u true mx my mz sz) := by
  intro fuel hf
  obtain ⟨f, rfl⟩ : ∃ f, fuel = f + 2 := ⟨fuel - 2, by omega⟩
  rw [compressLoop]
  by_cases hc : (compressRecursive n).2 = true
  · simp only [hc, if_true]
    rw [h, compressLoop, compressRecursive_leaf]
    rfl
  · simp only [hc]
    rw [h]
    rfl

/-- C4: in a reachable world of extent `2^k` cubed (in particular a freshly constructed
one), after `setVoxel` of one non-air voxel `v` at the cells of any list that contains every
cell of the extent, `compressTree` returns a world with one node, one leaf, in which
`getVoxel` reads the material and colour of `v` at every cell of the extent. -/
theorem fill_then_compress (k : Nat) (v : Voxel) (hv : v.type ≠ 0) (w : OctreeVoxelWorld)
    (hw : Reachable w) (hX : w.worldSizeX = 2 ^ k) (hY : w.worldSizeY = 2 ^ k)
    (hZ : w.worldSizeZ = 2 ^ k) (cells : List (Int × Int × Int))
    (hcells : ∀ x y z : Int, 0 ≤ x ∧ x < 2 ^ k → 0 ≤ y ∧ y < 2 ^ k → 0 ≤ z ∧ z < 2 ^ k →
      (x, y, z) ∈ cells) :
    ∃ w2, (∀ fuel, 2 ≤ fuel → (fillWith v w cells).compressTree fuel = some w2) ∧
      w2.getNodeCount = 1 ∧ w2.getLeafCount = 1 ∧
      ∀ x y z : Int, 0 ≤ x ∧ x < 2 ^ k → 0 ≤ y ∧ y < 2 ^ k → 0 ≤ z ∧ z < 2 ^ k →
        (w2.getVoxel x y z).type = v.type ∧ (w2.getVoxel x y z).color = v.color := by
  have hcw := cubeWorld_of_reachable hw hX hY hZ
  obtain ⟨hfill, hread⟩ := cubeWorld_fillWith v hv k cells w hcw
  have hrange : ∀ x y z : Int, 0 ≤ x ∧ x < 2 ^ k → 0 ≤ y ∧ y < 2 ^ k → 0 ≤ z ∧ z < 2 ^ k →
      InCube w.root x y z := by
    intro x y z hx hy hz
    rw [cubeWorld_inCube hcw, hcw.2.2.1, hcw.2.2.2.1, hcw.2.2.2.2.1]
    omega
  have hgeom : (fillWith v w cells).root.geom = w.root.geom :=
    hfill.2.2.2.2.2.trans hcw.2.2.2.2.2.symm
  have hall : ∀ x y z, InCube (fillWith v w cells).root x y z →
      getVoxelRecursive k x y z (fillWith v w cells).root 0 = nodeVoxel v.type v.color := by
    intro x y z hin
    have hin0 : InCube w.root x y z := by
      unfold InCube at hin ⊢
      obtain ⟨g1, g2, g3, g4⟩ := (geom_eq_iff _ _).1 hgeom
      rw [← g1, ← g2, ← g3, ← g4]
      exact hin
    have hr := (cubeWorld_inCube hcw x y z).1 hin0
    rw [hcw.2.2.1, hcw.2.2.2.1, hcw.2.2.2.2.1] at hr
    exact hread x y z hin0 (Or.inl (hcells x y z (by omega) (by omega) (by omega)))
  obtain ⟨u, hu⟩ := compressRecursive_uniform v.type v.color k hfill.1 0 (by omega) hall
  have hloop := compressLoop_of_collapse hu
  refine ⟨{ fillWith v w cells with
      root := .node (fun _ => .null) v.type v.color u true (fillWith v w cells).root.minX
        (fillWith v w cells).root.minY (fillWith v w cells).root.minZ
        (fillWith v w cells).root.size }, ?_, ?_, ?_, ?_⟩
  · intro fuel hf
    unfold OctreeVoxelWorld.compressTree
    rw [hloop fuel hf]
  · rfl
  · rfl
  · intro x y z hx hy hz
    have hnr : ¬ (x < 0 ∨ x ≥ (fillWith v w cells).worldSizeX ∨ y < 0 ∨
        y ≥ (fillWith v w cells).worldSizeY ∨ z < 0 ∨ z ≥ (fillWith v w cells).worldSizeZ) := by
      rw [hfill.2.2.1, hfill.2.2.2.1, hfill.2.2.2.2.1]
      omega
    unfold OctreeVoxelWorld.getVoxel
    rw [if_neg hnr, getVoxelRecursive_leaf]
    exact ⟨rfl, rfl⟩

/-- Witness for C4: the 2x2x2 world with all eight cells set to material 5. -/
theorem fill_then_compress_witness :
    ∃ w2, (∀ fuel, 2 ≤ fuel →
        (fillWith (Voxel.ofTypeColor 5 0xFF808080) world222 cells222).compressTree fuel =
          some w2) ∧
      w2.getNodeCount = 1 ∧ w2.getLeafCount = 1 ∧
      ∀ x y z : Int, 0 ≤ x ∧ x < 2 ^ 1 → 0 ≤ y ∧ y < 2 ^ 1 → 0 ≤ z ∧ z < 2 ^ 1 →
        (w2.getVoxel x y z).type = (Voxel.ofTypeColor 5 0xFF808080).type ∧
          (w2.getVoxel x y z).color = (Voxel.ofTypeColor 5 0xFF808080).color :=
  fill_then_compress 1 (Voxel.ofTypeColor 5 0xFF808080) (by decide) world222
    (Reachable.create create_222) rfl rfl rfl cells222
    (by
      intro x y z hx hy hz
      have h1 : x = 0 ∨ x = 1 := by omega
      have h2 : y = 0 ∨ y = 1 := by omega
      have h3 : z = 0 ∨ z = 1 := by omega
      rcases h1 with rfl | rfl <;> rcases h2 with rfl | rfl <;> rcases h3 with rfl | rfl <;>
        decide)

/-- C18: on a non-leaf node with at least one empty child slot `tryCompress` returns false
and leaves the node exactly as it was. -/
theorem tryCompress_missing_child (ch : Fin 8 → OctreeNode) (t c : Nat) (u : Bool)
    (mx my mz sz : Int) (i : Fin 8) (hi : (ch i).isNull = true) :
    tryCompress (.node ch t c u false mx my mz sz) = (.node ch t c u false mx my mz sz, false) := by
  rw [tryCompress_node]
  apply if_neg
  rintro ⟨_, h0, hall⟩
  have := ((allSame_iff ch h0).1 hall i).1
  rw [hi] at this
  cases this

/-- Witness for C18: an internal node of size 2 whose slot 3 is empty and whose other slots
hold air leaves. -/
theorem tryCompress_missing_child_witness :
    tryCompress
        (.node (fun j => if j = 3 then .null else OctreeNode.create 0 0 0 1) 0 0xFF000000 false
          false 0 0 0 2) =
      (.node (fun j => if j = 3 then .null else OctreeNode.create 0 0 0 1) 0 0xFF000000 false
        false 0 0 0 2, false) :=
  tryCompress_missing_child _ 0 0xFF000000 false 0 0 0 2 3 (by decide)

theorem normalComponent_interior (negSolid posSolid : Bool) :
    normalComponent true negSolid true posSolid =
      if negSolid = false then -1 else if posSolid = false then 1 else 0 := by
  cases negSolid <;> cases posSolid <;> rfl

/-- C11 (counterexample): at cell (0,0,0) of the empty 4x4x4 world every neighbour is empty,
so the unguarded rule gives (-1,-1,-1), while `getNormal` builds (1,1,1): the cells at
coordinate -1 are never consulted. -/
theorem getNormalRaw_ne_spec_at_corner :
    world444.getNormalRaw 0 0 0 = (1, 1, 1) ∧ specNormalRaw world444 0 0 0 = (-1, -1, -1) ∧
      world444.getNormalRaw 0 0 0 ≠ specNormalRaw world444 0 0 0 := by
  decide

/-- C11 (amended): on each axis the un-normalised component is `-1` if the coordinate is
positive and the negative neighbour is empty, otherwise `1` if the coordinate is below
`worldSize - 1` and the positive neighbour is empty, otherwise `0`; it agrees with the
unguarded rule on an axis where the cell is strictly between the two boundary layers.
`getNormal` returns the vector normalised, or `(0,1,0)` when all components are `0`, for
every `length` that is below `0.1f` on the zero vector only. -/
theorem getNormal_guarded {F : Type} [FloatOps F]
    (hlen : ∀ a b c : Int, (a = -1 ∨ a = 0 ∨ a = 1) → (b = -1 ∨ b = 0 ∨ b = 1) →
      (c = -1 ∨ c = 0 ∨ c = 1) →
      (FloatOps.lt (FloatOps.length (Vec3.ofInts a b c : Vec3 F)) FloatOps.tenth = true ↔
        (a = 0 ∧ b = 0 ∧ c = 0)))
    (w : OctreeVoxelWorld) (x y z : Int) :
    (w.getNormalRaw x y z).1 =
        (if 0 < x ∧ w.isSolid (x - 1) y z = false then -1
          else if x < w.worldSizeX - 1 ∧ w.isSolid (x + 1) y z = false then 1 else 0) ∧
      (w.getNormalRaw x y z).2.1 =
        (if 0 < y ∧ w.isSolid x (y - 1) z = false then -1
          else if y < w.worldSizeY - 1 ∧ w.isSolid x (y + 1) z = false then 1 else 0) ∧
      (w.getNormalRaw x y z).2.2 =
        (if 0 < z ∧ w.isSolid x y (z - 1) = false then -1
          else if z < w.worldSizeZ - 1 ∧ w.isSolid x y (z + 1) = false then 1 else 0) ∧
      (0 < x → x < w.worldSizeX - 1 →
        (w.getNormalRaw x y z).1 = (specNormalRaw w x y z).1) ∧
      (0 < y → y < w.worldSizeY - 1 →
        (w.getNormalRaw x y z).2.1 = (specNormalRaw w x y z).2.1) ∧
      (0 < z → z < w.worldSizeZ - 1 →
        (w.getNormalRaw x y z).2.2 = (specNormalRaw w x y z).2.2) ∧
      (w.getNormal x y z : Vec3 F) =
        (if w.getNormalRaw x y z = (0, 0, 0) then Vec3.ofInts 0 1 0
          else FloatOps.normalize
            (Vec3.ofInts (w.getNormalRaw x y z).1 (w.getNormalRaw x y z).2.1
              (w.getNormalRaw x y z).2.2)) := by
  have hcomp : ∀ (lo hi : Prop) [Decidable lo] [Decidable hi] (a b : Bool),
      normalComponent (decide lo) a (decide hi) b =
        (if lo ∧ a = false then -1 else if hi ∧ b = false then 1 else 0) := by
    intro lo hi _ _ a b
    simp [normalComponent]
  have hrange : ∀ (lo hi : Bool) (a b : Bool),
      normalComponent lo a hi b = -1 ∨ normalComponent lo a hi b = 0 ∨
        normalComponent lo a hi b = 1 := by
    intro lo hi a b
    cases lo <;> cases hi <;> cases a <;> cases b <;> simp [normalComponent]
  refine ⟨hcomp _ _ _ _, hcomp _ _ _ _, hcomp _ _ _ _, ?_, ?_, ?_, ?_⟩
  · intro h1 h2
    simp only [OctreeVoxelWorld.getNormalRaw, specNormalRaw, h1, h2, gt_iff_lt, decide_True,
      normalComponent_interior]
  · intro h1 h2
    simp only [OctreeVoxelWorld.getNormalRaw, specNormalRaw, h1, h2, gt_iff_lt, decide_True,
      normalComponent_interior]
  · intro h1 h2
    simp only [OctreeVoxelWorld.getNormalRaw, specNormalRaw, h1, h2, gt_iff_lt, decide_True,
      normalComponent_interior]
  · unfold OctreeVoxelWorld.getNormal
    have h := hlen (w.getNormalRaw x y z).1 (w.getNormalRaw x y z).2.1
      (w.getNormalRaw x y z).2.2 (hrange _ _ _ _) (hrange _ _ _ _) (hrange _ _ _ _)
    have hz : w.getNormalRaw x y z = (0, 0, 0) ↔
        ((w.getNormalRaw x y z).1 = 0 ∧ (w.getNormalRaw x y z).2.1 = 0 ∧
          (w.getNormalRaw x y z).2.2 = 0) := by
      simp [Prod.ext_iff]
    simp only []
    by_cases hc : w.getNormalRaw x y z = (0, 0, 0)
    · rw [if_pos hc, if_pos (h.2 (hz.1 hc))]
    · rw [if_neg hc, if_neg (fun hl => hc (hz.2 (h.1 hl)))]

theorem XF.length_small_iff (a b c : Int) (ha : a = -1 ∨ a = 0 ∨ a = 1)
    (hb : b = -1 ∨ b = 0 ∨ b = 1) (hc : c = -1 ∨ c = 0 ∨ c = 1) :
    (FloatOps.lt (FloatOps.length (Vec3.ofInts a b c : Vec3 XF)) FloatOps.tenth = true ↔
      (a = 0 ∧ b = 0 ∧ c = 0)) := by
  rcases ha with rfl | rfl | rfl <;> rcases hb with rfl | rfl | rfl <;>
    rcases hc with rfl | rfl | rfl <;> decide

/-- Witness for C11 (amended): the corner cell (0,0,0) of the 4x4x4 world after
`setVoxel(2,2,2, grass)`, with the exact values. -/
theorem getNormal_guarded_witness :
    (world444Grass.getNormalRaw 0 0 0).1 =
        (if (0 : Int) < 0 ∧ world444Grass.isSolid (0 - 1) 0 0 = false then -1
          else if (0 : Int) < world444Grass.worldSizeX - 1 ∧
            world444Grass.isSolid (0 + 1) 0 0 = false then 1 else 0) ∧
      (world444Grass.getNormalRaw 0 0 0).1 = 1 :=
  ⟨(getNormal_guarded XF.length_small_iff world444Grass 0 0 0).1, by decide⟩

theorem length_bytesOfU32 (w : Nat) : (bytesOfU32 w).length = 4 := rfl

theorem length_bytesOfWords (ws : List Nat) : (bytesOfWords ws).length = 4 * ws.length := by
  induction ws with
  | nil => rfl
  | cons w ws ih =>
    simp only [bytesOfWords, List.length_append, length_bytesOfU32, ih, List.length_cons]
    omega

theorem u32OfBytes_bytesOfU32 (w : Nat) (h : w < 2 ^ 32) : u32OfBytes (bytesOfU32 w) = w := by
  simp only [bytesOfU32, u32OfBytes]
  omega

theorem wordsOfBytes_bytesOfWords (ws : List Nat) (h : ∀ w ∈ ws, w < 2 ^ 32) :
    wordsOfBytes (bytesOfWords ws) = ws := by
  induction ws with
  | nil => rfl
  | cons w ws ih =>
    have hw := u32OfBytes_bytesOfU32 w (h w (List.mem_cons_self _ _))
    have ht := ih (fun v hv => h v (List.mem_cons_of_mem _ hv))
    simp only [bytesOfU32] at hw
    show u32OfBytes [w % 256, w / 256 % 256, w / 65536 % 256, w / 16777216 % 256] ::
      wordsOfBytes (bytesOfWords ws) = w :: ws
    rw [ht, hw]

theorem length_wordsOfBytes (l : List Nat) : (wordsOfBytes l).length = l.length / 4 := by
  induction l using wordsOfBytes.induct with
  | case1 b0 b1 b2 b3 rest ih =>
    simp only [wordsOfBytes, List.length_cons, ih]
    omega
  | case2 l h =>
    have hl : l.length < 4 := by
      match l, h with
      | [], _ => simp
      | [_], _ => simp
      | [_, _], _ => simp
      | [_, _, _], _ => simp
      | b0 :: b1 :: b2 :: b3 :: rest, h => exact absurd rfl (h b0 b1 b2 b3 rest)
    have hw : wordsOfBytes l = [] := by
      match l, h with
      | [], _ => rfl
      | [_], _ => rfl
      | [_, _], _ => rfl
      | [_, _, _], _ => rfl
      | b0 :: b1 :: b2 :: b3 :: rest, h => exact absurd rfl (h b0 b1 b2 b3 rest)
    rw [hw]
    simp only [List.length_nil]
    omega

theorem wordsOfBytes_append_take (a b : List Nat) :
    (wordsOfBytes (a ++ b)).take (a.length / 4) = wordsOfBytes a := by
  induction a using wordsOfBytes.induct with
  | case1 b0 b1 b2 b3 rest ih =>
    have hk : (b0 :: b1 :: b2 :: b3 :: rest).length / 4 = rest.length / 4 + 1 := by
      simp only [List.length_cons]; omega
    rw [hk]
    show u32OfBytes [b0, b1, b2, b3] :: List.take (rest.length / 4) (wordsOfBytes (rest ++ b)) =
      u32OfBytes [b0, b1, b2, b3] :: wordsOfBytes rest
    rw [ih]
  | case2 l h =>
    have hl : (wordsOfBytes l).length = l.length / 4 := length_wordsOfBytes l
    have hw : wordsOfBytes l = [] := by
      match l, h with
      | [], _ => rfl
      | [_], _ => rfl
      | [_, _], _ => rfl
      | [_, _, _], _ => rfl
      | b0 :: b1 :: b2 :: b3 :: rest, h => exact absurd rfl (h b0 b1 b2 b3 rest)
    rw [hw] at hl ⊢
    simp only [List.length_nil] at hl
    rw [← hl, List.take_zero]

theorem read_enough (rest dest : List Nat) (h : dest.length ≤ rest.length) :
    IStream.read { rest := rest, good := true } dest =
      ({ rest := rest.drop dest.length, good := true }, rest.take dest.length) := by
  simp [IStream.read, h]

theorem read_short (rest dest : List Nat) (h : rest.length < dest.length) :
    IStream.read { rest := rest, good := true } dest =
      ({ rest := [], good := false }, rest ++ dest.drop rest.length) := by
  simp [IStream.read, not_le.2 h]

theorem read_failed (rest dest : List Nat) :
    IStream.read { rest := rest, good := false } dest = ({ rest := rest, good := false }, dest) := by
  simp [IStream.read]

theorem length_resizeWords (data : List Nat) (size : Nat) :
    (resizeWords data size).length = size := by
  simp only [resizeWords, List.length_append, List.length_take, List.length_replicate]
  omega

/-- C12: for a scene with fewer than 2^32 words (header and words being `uint32_t` values),
`save_voxel_octree` writes the 4 header bytes, the 4 bytes of the word count and the words in
order, `8 + 4n` bytes in all, and `load_voxel_octree` on these bytes returns a scene with the
same header and data, whatever the scene held before. -/
theorem save_load_roundtrip (s prior : SparseVoxelOctree)
    (hh : s.header.max_level_size < 2 ^ 32) (hd : ∀ w ∈ s.data, w < 2 ^ 32)
    (hn : s.data.length < 2 ^ 32) :
    save_voxel_octree s =
        bytesOfU32 s.header.max_level_size ++ bytesOfU32 s.data.length ++ bytesOfWords s.data ∧
      (save_voxel_octree s).length = 8 + 4 * s.data.length ∧
      load_voxel_octree prior (save_voxel_octree s) = s := by
  have hsave : save_voxel_octree s =
      bytesOfU32 s.header.max_level_size ++ bytesOfU32 s.data.length ++ bytesOfWords s.data := by
    simp only [save_voxel_octree, Nat.mod_eq_of_lt hn, List.take_length]
  refine ⟨hsave, ?_, ?_⟩
  · rw [hsave]
    simp only [List.length_append, length_bytesOfU32, length_bytesOfWords]
  · rw [hsave]
    unfold load_voxel_octree loadStream
    simp only [List.append_assoc]
    rw [read_enough _ _ (by
      simp only [List.length_append, length_bytesOfU32, length_bytesOfWords]; omega)]
    simp only [length_bytesOfU32]
    rw [List.drop_left' (length_bytesOfU32 _), List.take_left' (length_bytesOfU32 _),
      read_enough _ _ (by
        simp only [List.length_append, length_bytesOfU32, length_bytesOfWords]; omega)]
    simp only [length_bytesOfU32]
    rw [List.drop_left' (length_bytesOfU32 _), List.take_left' (length_bytesOfU32 _),
      u32OfBytes_bytesOfU32 _ hn, u32OfBytes_bytesOfU32 _ hh,
      read_enough _ _ (by
        simp only [length_bytesOfWords, length_resizeWords]; omega)]
    simp only [length_bytesOfWords, length_resizeWords]
    rw [← length_bytesOfWords, List.take_length, wordsOfBytes_bytesOfWords _ hd]

/-- Witness for C12: a scene with header 7 and two words, loaded over a scene that held
three other words. -/
theorem save_load_roundtrip_witness :
    save_voxel_octree ⟨⟨7⟩, [5, 4294967295]⟩ =
        bytesOfU32 7 ++ bytesOfU32 2 ++ bytesOfWords [5, 4294967295] ∧
      (save_voxel_octree ⟨⟨7⟩, [5, 4294967295]⟩).length = 8 + 4 * 2 ∧
      load_voxel_octree ⟨⟨1⟩, [9, 9, 9]⟩ (save_voxel_octree ⟨⟨7⟩, [5, 4294967295]⟩) =
        ⟨⟨7⟩, [5, 4294967295]⟩ :=
  save_load_roundtrip ⟨⟨7⟩, [5, 4294967295]⟩ ⟨⟨1⟩, [9, 9, 9]⟩ (by decide) (by decide) (by decide)

/-- The 8-byte stream that declares two words and holds none is truncated, the local stream
fails on it, and a call of `load_voxel_octree` that returns leaves the very scene it
leaves for the complete file of a scene with two zero words. -/
theorem load_truncated_like_complete :
    Truncated [7, 0, 0, 0, 2, 0, 0, 0] ∧
      (loadStream ⟨⟨1⟩, []⟩ [7, 0, 0, 0, 2, 0, 0, 0]).2.good = false ∧
      ¬ Truncated (save_voxel_octree ⟨⟨7⟩, [0, 0]⟩) ∧
      (loadStream ⟨⟨1⟩, []⟩ (save_voxel_octree ⟨⟨7⟩, [0, 0]⟩)).2.good = true ∧
      load_voxel_octree ⟨⟨1⟩, []⟩ [7, 0, 0, 0, 2, 0, 0, 0] =
        load_voxel_octree ⟨⟨1⟩, []⟩ (save_voxel_octree ⟨⟨7⟩, [0, 0]⟩) := by
  unfold Truncated
  decide

/-- On a truncated stream the local `ifstream` fails, and a call of `load_voxel_octree`
that returns still leaves a scene. With fewer than 4 bytes the data is empty; with
at least 4 bytes the header is the one of the stream; with 4 to 7 bytes the data has as many
words as the partly read, zero-filled count; with 8 bytes or more the data has the declared
number of words, of which the first ones are the complete words present in the stream. -/
theorem load_truncated (prior : SparseVoxelOctree) (file : List Nat) (h : Truncated file) :
    (loadStream prior file).2.good = false ∧
      (file.length < 4 → (load_voxel_octree prior file).data = []) ∧
      (4 ≤ file.length →
        (load_voxel_octree prior file).header.max_level_size = u32OfBytes (file.take 4)) ∧
      (4 ≤ file.length → file.length < 8 →
        (load_voxel_octree prior file).data.length =
          u32OfBytes (file.drop 4 ++ List.replicate (8 - file.length) 0)) ∧
      (8 ≤ file.length →
        (load_voxel_octree prior file).data.length = u32OfBytes ((file.drop 4).take 4) ∧
          (load_voxel_octree prior file).data.take ((file.length - 8) / 4) =
            wordsOfBytes (file.drop 8)) := by
  by_cases h4 : file.length < 4
  · have hl : loadStream prior file =
        ({ header := { max_level_size :=
              u32OfBytes (file ++ (bytesOfU32 prior.header.max_level_size).drop file.length) },
            data := [] }, { rest := [], good := false }) := by
      unfold loadStream
      simp only []
      rw [read_short _ _ (by rw [length_bytesOfU32]; exact h4), read_failed, read_failed]
      simp [u32OfBytes, bytesOfU32, resizeWords, bytesOfWords, wordsOfBytes]
    unfold load_voxel_octree
    rw [hl]
    exact ⟨rfl, fun _ => rfl, fun h => by omega, fun h => by omega, fun h => by omega⟩
  · have h4' : 4 ≤ file.length := not_lt.1 h4
    have hr1 : IStream.read { rest := file, good := true }
        (bytesOfU32 prior.header.max_level_size) =
        ({ rest := file.drop 4, good := true }, file.take 4) :=
      read_enough _ _ (by rw [length_bytesOfU32]; exact h4')
    by_cases h8 : file.length < 8
    · have hl : loadStream prior file =
          ({ header := { max_level_size := u32OfBytes (file.take 4) },
              data := wordsOfBytes (bytesOfWords (resizeWords prior.data
                (u32OfBytes (file.drop 4 ++ List.replicate (8 - file.length) 0)))) },
            { rest := [], good := false }) := by
        unfold loadStream
        simp only []
        rw [hr1]
        simp only []
        rw [read_short _ _ (by rw [length_bytesOfU32, List.length_drop]; omega), read_failed]
        have hz : (bytesOfU32 0).drop (file.drop 4).length =
            List.replicate (8 - file.length) 0 := by
          have hlen : (file.drop 4).length = file.length - 4 := List.length_drop _ _
          rw [hlen]
          have hc : file.length - 4 = 0 ∨ file.length - 4 = 1 ∨ file.length - 4 = 2 ∨
              file.length - 4 = 3 := by omega
          rcases hc with hc | hc | hc | hc <;> rw [hc] <;>
            rw [show 8 - file.length = 4 - (file.length - 4) by omega, hc] <;> rfl
        rw [hz]
      unfold load_voxel_octree
      rw [hl]
      refine ⟨rfl, fun h => by omega, fun _ => rfl, fun _ _ => ?_, fun h => by omega⟩
      simp only [length_wordsOfBytes, length_bytesOfWords, length_resizeWords]
      omega
    · have h8' : 8 ≤ file.length := not_lt.1 h8
      have hm : (file.length - 8) / 4 < u32OfBytes ((file.drop 4).take 4) := by
        rcases h with h | h
        · omega
        · exact h
      have hr2 : IStream.read { rest := file.drop 4, good := true } (bytesOfU32 0) =
          ({ rest := file.drop 8, good := true }, (file.drop 4).take 4) := by
        rw [read_enough _ _ (by rw [length_bytesOfU32, List.length_drop]; omega)]
        simp only [length_bytesOfU32, List.drop_drop]
      have hl : loadStream prior file =
          ({ header := { max_level_size := u32OfBytes (file.take 4) },
              data := wordsOfBytes (file.drop 8 ++
                (bytesOfWords (resizeWords prior.data
                  (u32OfBytes ((file.drop 4).take 4)))).drop (file.drop 8).length) },
            { rest := [], good := false }) := by
        unfold loadStream
        simp only []
        rw [hr1]
        simp only []
        rw [hr2]
        simp only []
        rw [read_short _ _ (by
          rw [length_bytesOfWords, length_resizeWords, List.length_drop]; omega)]
      unfold load_voxel_octree
      rw [hl]
      refine ⟨rfl, fun h => by omega, fun _ => rfl, fun _ h => by omega, fun _ => ⟨?_, ?_⟩⟩
      · simp only [length_wordsOfBytes, List.length_append, List.length_drop,
          length_bytesOfWords, length_resizeWords]
        omega
      · have := wordsOfBytes_append_take (file.drop 8)
          ((bytesOfWords (resizeWords prior.data
            (u32OfBytes ((file.drop 4).take 4)))).drop (file.drop 8).length)
        rw [List.length_drop] at this
        simp only [List.length_drop]
        exact this

/-- An instance of `load_truncated`: a stream that declares three words and holds one
complete word and two more bytes. -/
theorem load_truncated_witness :
    (loadStream ⟨⟨1⟩, [9, 9, 9]⟩ [7, 0, 0, 0, 3, 0, 0, 0, 5, 0, 0, 0, 6, 0]).2.good = false ∧
      (load_voxel_octree ⟨⟨1⟩, [9, 9, 9]⟩
        [7, 0, 0, 0, 3, 0, 0, 0, 5, 0, 0, 0, 6, 0]).data.length = 3 :=
  have h := load_truncated ⟨⟨1⟩, [9, 9, 9]⟩ [7, 0, 0, 0, 3, 0, 0, 0, 5, 0, 0, 0, 6, 0]
    (by unfold Truncated; decide)
  ⟨h.1, (h.2.2.2.2 (by decide)).1⟩

theorem read_stream_of_length (fs : IStream) (d1 d2 : List Nat) (h : d1.length = d2.length) :
    (fs.read d1).1 = (fs.read d2).1 := by
  unfold IStream.read
  rw [h]
  split
  · rfl
  · split <;> rfl

theorem loadCount_eq (prior : SparseVoxelOctree) (file : List Nat) :
    loadCount file =
      u32OfBytes ((((⟨file, true⟩ : IStream).read
        (bytesOfU32 prior.header.max_level_size)).1.read (bytesOfU32 0)).2) := by
  unfold loadCount
  simp only []
  rw [read_stream_of_length ⟨file, true⟩ (bytesOfU32 0)
    (bytesOfU32 prior.header.max_level_size) rfl]

/-- The two exits of `load_voxel_octree`: it returns, with the scene and the stream of
`loadStream`, when `data.resize(size)` returns, and else the exception leaves it with the
header read and the data untouched. -/
theorem load_voxel_octree_outcome_eq (canGrow : Nat → Bool) (prior : SparseVoxelOctree)
    (file : List Nat) :
    load_voxel_octree_outcome canGrow prior file =
      if loadCount file ≤ prior.data.length ∨ canGrow (loadCount file) = true then
        LoadOutcome.returned (loadStream prior file).1 (loadStream prior file).2
      else LoadOutcome.threw ⟨(loadStream prior file).1.header, prior.data⟩ := by
  rw [loadCount_eq prior file]
  unfold load_voxel_octree_outcome loadStream vectorResize
  simp only []
  by_cases hc : u32OfBytes ((((⟨file, true⟩ : IStream).read
      (bytesOfU32 prior.header.max_level_size)).1.read (bytesOfU32 0)).2) ≤ prior.data.length ∨
      canGrow (u32OfBytes ((((⟨file, true⟩ : IStream).read
        (bytesOfU32 prior.header.max_level_size)).1.read (bytesOfU32 0)).2)) = true
  · rw [if_pos hc, if_pos hc]
  · rw [if_neg hc, if_neg hc]

theorem loadCount_cases (file : List Nat) :
    (file.length < 4 → loadCount file = 0) ∧
      (4 ≤ file.length → file.length < 8 →
        loadCount file = u32OfBytes (file.drop 4 ++ List.replicate (8 - file.length) 0)) ∧
      (8 ≤ file.length → loadCount file = u32OfBytes ((file.drop 4).take 4)) := by
  refine ⟨fun h4 => ?_, fun h4 h8 => ?_, fun h8 => ?_⟩
  · unfold loadCount
    simp only []
    rw [read_short _ _ (by rw [length_bytesOfU32]; exact h4), read_failed]
    rfl
  · unfold loadCount
    simp only []
    rw [read_enough _ _ (by rw [length_bytesOfU32]; exact h4)]
    simp only []
    rw [read_short _ _ (by rw [length_bytesOfU32, List.length_drop]; omega)]
    simp only []
    have hz : (bytesOfU32 0).drop (file.drop 4).length =
        List.replicate (8 - file.length) 0 := by
      have hlen : (file.drop 4).length = file.length - 4 := List.length_drop _ _
      rw [hlen]
      have hc : file.length - 4 = 0 ∨ file.length - 4 = 1 ∨ file.length - 4 = 2 ∨
          file.length - 4 = 3 := by omega
      rcases hc with hc | hc | hc | hc <;> rw [hc] <;>
        rw [show 8 - file.length = 4 - (file.length - 4) by omega, hc] <;> rfl
    rw [length_bytesOfU32, hz]
  · unfold loadCount
    simp only []
    rw [read_enough _ _ (by rw [length_bytesOfU32]; omega)]
    simp only []
    rw [read_enough _ _ (by rw [length_bytesOfU32, List.length_drop]; omega)]
    simp only [length_bytesOfU32]

/-- C13 (counterexample): the 8-byte stream that declares two words and holds none is
truncated. Loaded into a scene that holds three words, so that `data.resize(2)` cannot
throw, `load_voxel_octree` returns in every environment, with the local stream failed, and
leaves the very scene that it leaves for the complete file of a scene with the header 7
and the words 9 and 9, on which the stream stays good. -/
theorem load_truncated_returns_like_complete :
    Truncated [7, 0, 0, 0, 2, 0, 0, 0] ∧
      ¬ Truncated (save_voxel_octree ⟨⟨7⟩, [9, 9]⟩) ∧
      ∀ canGrow : Nat → Bool,
        load_voxel_octree_outcome canGrow ⟨⟨1⟩, [9, 9, 9]⟩ [7, 0, 0, 0, 2, 0, 0, 0] =
            LoadOutcome.returned ⟨⟨7⟩, [9, 9]⟩ ⟨[], false⟩ ∧
          load_voxel_octree_outcome canGrow ⟨⟨1⟩, [9, 9, 9]⟩
              (save_voxel_octree ⟨⟨7⟩, [9, 9]⟩) =
            LoadOutcome.returned ⟨⟨7⟩, [9, 9]⟩ ⟨[], true⟩ := by
  refine ⟨by unfold Truncated; decide, by unfold Truncated; decide, fun canGrow => ⟨?_, ?_⟩⟩
  · exact (load_voxel_octree_outcome_eq canGrow _ _).trans
      ((if_pos (Or.inl (by decide))).trans (by decide))
  · exact (load_voxel_octree_outcome_eq canGrow _ _).trans
      ((if_pos (Or.inl (by decide))).trans (by decide))

/-- C13 (amended): a truncated stream is not detected. `load_voxel_octree` calls
`data.resize(n)` with the count `n` that its second `read` left (0 for a stream of fewer
than 4 bytes, the partly read, zero-filled count for 4 to 7 bytes, the declared count for 8
bytes or more). When that call returns (always, when `n` is at most the number of words the
scene held), `load_voxel_octree` returns with the local stream failed and leaves a scene:
with fewer than 4 bytes the data is empty; with at least 4 bytes the header is the one of
the stream and the data has `n` words, of which, with 8 bytes or more, the first ones are
the complete words present in the stream. When that call throws, the exception leaves
`load_voxel_octree`, the stream has at least 4 bytes, the header is the one of the stream
and the data is what the scene held before. -/
theorem load_truncated_outcome (canGrow : Nat → Bool) (prior : SparseVoxelOctree)
    (file : List Nat) (h : Truncated file) :
    ((file.length < 4 → loadCount file = 0) ∧
        (4 ≤ file.length → file.length < 8 →
          loadCount file = u32OfBytes (file.drop 4 ++ List.replicate (8 - file.length) 0)) ∧
        (8 ≤ file.length → loadCount file = u32OfBytes ((file.drop 4).take 4))) ∧
      (loadCount file ≤ prior.data.length ∨ canGrow (loadCount file) = true →
        ∃ scene fs, load_voxel_octree_outcome canGrow prior file =
            LoadOutcome.returned scene fs ∧
          fs.good = false ∧
          (file.length < 4 → scene.data = []) ∧
          (4 ≤ file.length → scene.header.max_level_size = u32OfBytes (file.take 4)) ∧
          (4 ≤ file.length → scene.data.length = loadCount file) ∧
          (8 ≤ file.length →
            scene.data.take ((file.length - 8) / 4) = wordsOfBytes (file.drop 8))) ∧
      (¬ (loadCount file ≤ prior.data.length ∨ canGrow (loadCount file) = true) →
        4 ≤ file.length ∧
          load_voxel_octree_outcome canGrow prior file =
            LoadOutcome.threw ⟨⟨u32OfBytes (file.take 4)⟩, prior.data⟩) := by
  have hc := loadCount_cases file
  have ht := load_truncated prior file h
  refine ⟨hc, fun hr => ?_, fun hr => ?_⟩
  · refine ⟨(loadStream prior file).1, (loadStream prior file).2, ?_, ht.1, ht.2.1, ht.2.2.1,
      fun h4 => ?_, fun h8 => (ht.2.2.2.2 h8).2⟩
    · rw [load_voxel_octree_outcome_eq, if_pos hr]
    · by_cases h8 : file.length < 8
      · rw [hc.2.1 h4 h8]
        exact ht.2.2.2.1 h4 h8
      · rw [hc.2.2 (not_lt.1 h8)]
        exact (ht.2.2.2.2 (not_lt.1 h8)).1
  · have h4 : 4 ≤ file.length := by
      by_contra hlt
      exact hr (Or.inl (by rw [hc.1 (not_le.1 hlt)]; exact Nat.zero_le _))
    refine ⟨h4, ?_⟩
    rw [load_voxel_octree_outcome_eq, if_neg hr]
    have hh := ht.2.2.1 h4
    unfold load_voxel_octree at hh
    cases hs : (loadStream prior file).1 with
    | mk header data =>
      rw [hs] at hh
      cases header with
      | mk m =>
        simp only at hh
        rw [hh]

/-- Witness for C13 (amended): in an environment in which a vector can be grown to at most
1024 words. A scene that holds three words and the 8-byte stream that declares 4294967295
words: the exception of `data.resize` leaves `load_voxel_octree`, with the header 7 and the
three words in the scene. An empty scene and the stream that declares three words and holds
one complete word and two more bytes: `load_voxel_octree` returns, the local stream has
failed, and the scene holds three words. -/
theorem load_truncated_outcome_witness :
    Truncated [7, 0, 0, 0, 255, 255, 255, 255] ∧
      loadCount [7, 0, 0, 0, 255, 255, 255, 255] = 4294967295 ∧
      load_voxel_octree_outcome canGrow1024 ⟨⟨1⟩, [9, 9, 9]⟩
          [7, 0, 0, 0, 255, 255, 255, 255] =
        LoadOutcome.threw ⟨⟨7⟩, [9, 9, 9]⟩ ∧
      Truncated [7, 0, 0, 0, 3, 0, 0, 0, 5, 0, 0, 0, 6, 0] ∧
      ∃ scene fs,
        load_voxel_octree_outcome canGrow1024 ⟨⟨1⟩, []⟩
            [7, 0, 0, 0, 3, 0, 0, 0, 5, 0, 0, 0, 6, 0] = LoadOutcome.returned scene fs ∧
          fs.good = false ∧ scene.data.length = 3 :=
  ⟨by unfold Truncated; decide, by decide,
    ((load_truncated_outcome canGrow1024 ⟨⟨1⟩, [9, 9, 9]⟩ [7, 0, 0, 0, 255, 255, 255, 255]
      (by unfold Truncated; decide)).2.2 (by decide)).2,
    by unfold Truncated; decide,
    match (load_truncated_outcome canGrow1024 ⟨⟨1⟩, []⟩
      [7, 0, 0, 0, 3, 0, 0, 0, 5, 0, 0, 0, 6, 0] (by unfold Truncated; decide)).2.1
      (Or.inr (by decide)) with
    | ⟨scene, fs, h1, h2, _, _, h5, _⟩ => ⟨scene, fs, h1, h2, (h5 (by decide)).trans (by decide)⟩⟩

/-- C19 (evaluation at the failing input): for the 4x4x4 world with one cell set, 17 nodes
and 15 leaves, `getDescription` returns the dimensions and the two counts and nothing else;
the ratio `100 * (1 - 17 / 64) = 73.4375` that the function computes does not appear. -/
theorem getDescription_omits_compression :
    world444Grass.getDescription = "Octree (4x4x4), Nodes: 17, Leaves: 15" ∧
      XF.eq (world444Grass.descriptionCompression : XF) (XF.fin 734375 10000) = true := by
  decide

theorem create_128 : OctreeVoxelWorld.create 128 64 128 = some world128 := by rfl

theorem inRange_inCube {w : OctreeVoxelWorld} (hw : Reachable w) {x y z : Int}
    (h : ¬ (x < 0 ∨ x ≥ w.worldSizeX ∨ y < 0 ∨ y ≥ w.worldSizeY ∨ z < 0 ∨ z ≥ w.worldSizeZ)) :
    InCube w.root x y z := by
  obtain ⟨hg, hle, _⟩ := reachable_root hw
  obtain ⟨g1, g2, g3, g4⟩ := (geom_eq_iff _ _).1 (hg.trans (by rfl :
    ((0 : Int), (0 : Int), (0 : Int), (2 : Int) ^ w.maxDepth) =
      (OctreeNode.create 0 0 0 (2 ^ w.maxDepth)).geom))
  have hX : w.worldSizeX ≤ 2 ^ w.maxDepth := le_trans (le_max_left _ _) hle
  have hY : w.worldSizeY ≤ 2 ^ w.maxDepth :=
    le_trans (le_trans (le_max_left _ _) (le_max_right _ _)) hle
  have hZ : w.worldSizeZ ≤ 2 ^ w.maxDepth :=
    le_trans (le_trans (le_max_right _ _) (le_max_right _ _)) hle
  unfold InCube
  rw [g1, g2, g3, g4]
  simp only [OctreeNode.create, OctreeNode.minX, OctreeNode.minY, OctreeNode.minZ,
    OctreeNode.size]
  omega

/-- In a reachable world `setVoxel` at one coordinate does not change what `getVoxel`
returns at another coordinate. -/
theorem getVoxel_setVoxel_other {w : OctreeVoxelWorld} (hw : Reachable w) (x y z a b c : Int)
    (v : Voxel) (hne : ¬ (a = x ∧ b = y ∧ c = z)) :
    (w.setVoxel x y z v).getVoxel a b c = w.getVoxel a b c := by
  by_cases hr : x < 0 ∨ x ≥ w.worldSizeX ∨ y < 0 ∨ y ≥ w.worldSizeY ∨ z < 0 ∨ z ≥ w.worldSizeZ
  · have hs : w.setVoxel x y z v = w := by unfold OctreeVoxelWorld.setVoxel; rw [if_pos hr]
    rw [hs]
  · by_cases hv : v.type ≠ 0
    · have hs : w.setVoxel x y z v =
          { w with root := insertVoxelRecursive x y z v w.maxDepth w.root } := by
        unfold OctreeVoxelWorld.setVoxel; rw [if_neg hr, if_pos hv]
      rw [hs]
      unfold OctreeVoxelWorld.getVoxel
      by_cases hq : a < 0 ∨ a ≥ w.worldSizeX ∨ b < 0 ∨ b ≥ w.worldSizeY ∨ c < 0 ∨
          c ≥ w.worldSizeZ
      · rw [if_pos hq, if_pos hq]
      · rw [if_neg hq, if_neg hq]
        exact getVoxelRecursive_insert_frame x y z v a b c hne _ _ w.maxDepth 0
          (reachable_wellFormed hw) (by omega) (inRange_inCube hw hr) (inRange_inCube hw hq)
    · have hs : w.setVoxel x y z v = w := by
        unfold OctreeVoxelWorld.setVoxel; rw [if_neg hr, if_neg hv]
      rw [hs]

theorem world128Cell500_assignment (x y z : Int) :
    (world128Cell500.getVoxel x y z).type = gridCell500 x y z := by
  by_cases h : x = 5 ∧ y = 0 ∧ z = 0
  · obtain ⟨rfl, rfl, rfl⟩ := h
    decide
  · unfold world128Cell500
    rw [getVoxel_setVoxel_other (Reachable.create create_128) 5 0 0 x y z grass h]
    have hg : gridCell500 x y z = 0 := by unfold gridCell500; rw [if_neg h]; rfl
    rw [hg]
    unfold OctreeVoxelWorld.getVoxel
    split
    · rfl
    · rfl

set_option maxRecDepth 100000 in
/-- C14 (evaluation at the failing input): the grid and the octree hold the same assignment,
cell (5,0,0) alone being solid. For the ray from grid-space (-10, 0.5, 0.5) along +X with
`maxDistance = 12`, `rayCastDDA` reports a hit of `SURFACE` at distance 5 and at the
world-space x-coordinate -69, and `OctreeVoxelWorld::rayCast` returns false. -/
theorem backends_disagree :
    OctreeVoxelWorld.create 128 64 128 = some world128 ∧
      (∀ x y z, (world128Cell500.getVoxel x y z).type = gridCell500 x y z) ∧
      (rayCastDDA gridCell500 321 originLeft dirPlusX (XF.fin 12 1)).map
          (fun r => (r.hit, r.voxelType, XF.eq r.distance (XF.fin 5 1),
            XF.eq r.position.x (XF.fin (-69) 1))) =
        some (true, SURFACE, true, true) ∧
      (world128Cell500.rayCast originLeft dirPlusX (XF.fin 12 1) Voxel.empty).isSome = false :=
  ⟨create_128, world128Cell500_assignment, by decide, by decide⟩

theorem initVoxelGrid_bottom (height : Int → Int → Int) (x z : Int)
    (hx : 0 ≤ x ∧ x < GRID_SIZE_X) (hz : 0 ≤ z ∧ z < GRID_SIZE_Z) :
    initVoxelGrid height x 0 z = SURFACE := by
  unfold initVoxelGrid
  apply if_pos
  refine ⟨hx.1, hx.2, hz.1, hz.2, le_refl _, ?_⟩
  unfold clampInt GRID_SIZE_Y
  split
  · exact le_refl _
  · split <;> omega

/-- On every terrain that `initVoxelGrid` can generate, whatever the column heights, the
ray from world-space (0,0,0) with direction (0,-1,0) is reported as a hit at distance 0: the
bottom layer of the terrain is solid. -/
theorem rayCastDDA_terrain_bottom_face (height : Int → Int → Int) (fuel : Nat) :
    (rayCastDDA (initVoxelGrid height) (fuel + 1) originZero dirDown (XF.fin 1000 1)).map
        (fun r => (r.hit, r.voxelType, r.distance)) =
      some (true, SURFACE, XF.fin 0 1) := by
  have hcell : ¬ outsideGrid (64 : Int) 0 64 := by decide
  have hsolid : initVoxelGrid height 64 0 64 = SURFACE :=
    initVoxelGrid_bottom height 64 64 (by decide) (by decide)
  have hstart : ddaStart (Vec3.add originZero gridOffset) (FloatOps.normalize dirDown)
      (XF.fin 1000 1) = some (Vec3.add originZero gridOffset, 64, 0, 64) := by
    rfl
  unfold rayCastDDA
  simp only [hstart]
  rw [ddaLoop]
  have hlt : FloatOps.lt (FloatOps.ofInt 0 : XF) (XF.fin 1000 1) = true := by decide
  simp only [hlt, if_true, if_neg hcell, hsolid, Option.map_some']
  rfl

set_option maxRecDepth 100000 in
/-- On the terrain with flat columns the ray from world-space (0,0,0), which is (64,0,64) on
the bottom face in grid space, with direction (0,-1,0) is reported as a hit of `SURFACE` at
distance 0. -/
theorem rayCastDDA_bottom_face_hit :
    (rayCastDDA flatTerrain 321 originZero dirDown (XF.fin 1000 1)).map
        (fun r => (r.hit, r.voxelType, XF.eq r.distance (XF.fin 0 1))) =
      some (true, SURFACE, true) := by
  decide

/-- When the cell that holds the grid-space origin of the ray (the floor of its
coordinates, so the boundary cell for an origin on a low face of the box) lies in the grid
and is `SURFACE`, and `maxDistance` is positive, the first iteration of the traversal of
`rayCastDDA` returns a hit in that cell at distance 0, whatever the direction of the ray and
whatever the arithmetic of `float`. -/
theorem rayCastDDA_origin_cell_solid {F : Type} [FloatOps F] (grid : VoxelGrid) (fuel : Nat)
    (rayOrigin rayDir : Vec3 F) (maxDistance : F)
    (hcell : ¬ outsideGrid (FloatOps.floorInt (Vec3.add rayOrigin gridOffset).x)
      (FloatOps.floorInt (Vec3.add rayOrigin gridOffset).y)
      (FloatOps.floorInt (Vec3.add rayOrigin gridOffset).z))
    (hsolid : grid (FloatOps.floorInt (Vec3.add rayOrigin gridOffset).x)
      (FloatOps.floorInt (Vec3.add rayOrigin gridOffset).y)
      (FloatOps.floorInt (Vec3.add rayOrigin gridOffset).z) = SURFACE)
    (hmax : FloatOps.lt (FloatOps.ofInt 0) maxDistance = true) :
    rayCastDDA grid (fuel + 1) rayOrigin rayDir maxDistance =
      some
        { hit := true
          position := Vec3.sub (Vec3.add rayOrigin gridOffset) gridOffset
          normal := ddaNormal grid (FloatOps.floorInt (Vec3.add rayOrigin gridOffset).x)
            (FloatOps.floorInt (Vec3.add rayOrigin gridOffset).y)
            (FloatOps.floorInt (Vec3.add rayOrigin gridOffset).z)
          distance := FloatOps.ofInt 0
          voxelType := SURFACE } := by
  unfold rayCastDDA ddaStart
  simp only [if_neg hcell]
  rw [ddaLoop]
  simp only [hmax, if_true, if_neg hcell, hsolid]

set_option maxRecDepth 100000 in
/-- The ray from world-space (0,0,0) with direction (0,-1,0) on the terrain with flat
columns, as an instance of `rayCastDDA_origin_cell_solid`. -/
theorem rayCastDDA_origin_cell_solid_witness :
    rayCastDDA flatTerrain (320 + 1) originZero dirDown (XF.fin 1000 1) =
      some
        { hit := true
          position := Vec3.sub (Vec3.add originZero gridOffset) gridOffset
          normal := ddaNormal flatTerrain
            (FloatOps.floorInt (Vec3.add originZero (gridOffset : Vec3 XF)).x)
            (FloatOps.floorInt (Vec3.add originZero (gridOffset : Vec3 XF)).y)
            (FloatOps.floorInt (Vec3.add originZero (gridOffset : Vec3 XF)).z)
          distance := FloatOps.ofInt 0
          voxelType := SURFACE } :=
  rayCastDDA_origin_cell_solid flatTerrain 320 originZero dirDown (XF.fin 1000 1) (by decide)
    (by decide) (by decide)

theorem world128Cell64_assignment (x y z : Int) :
    (world128Cell64.getVoxel x y z).type = gridCell64 x y z := by
  by_cases h : x = 64 ∧ y = 0 ∧ z = 64
  · obtain ⟨rfl, rfl, rfl⟩ := h
    decide
  · unfold world128Cell64
    rw [getVoxel_setVoxel_other (Reachable.create create_128) 64 0 64 x y z grass h]
    have hg : gridCell64 x y z = 0 := by unfold gridCell64; rw [if_neg h]; rfl
    rw [hg]
    unfold OctreeVoxelWorld.getVoxel
    split
    · rfl
    · rfl

set_option maxRecDepth 100000 in
/-- C17 (evaluation at the failing input): the ray from world-space (0,0,0), which is
(64,0,64) on the bottom face in grid space, with direction (0,-1,0) and
`maxDistance = 1000`. On a terrain of the generator `rayCastDDA` reports a hit of `SURFACE`
at distance 0. With cell (64,0,64) alone solid in the grid and in the octree, `rayCastDDA`
reports a hit of `SURFACE` and `OctreeVoxelWorld::rayCast` returns false on the same ray. On
the opposite face, the ray from world-space (0,64,0) with direction (0,1,0) is reported as a
miss by `rayCastDDA`. -/
theorem rayCastDDA_low_face_hit :
    (rayCastDDA flatTerrain 321 originZero dirDown (XF.fin 1000 1)).map
        (fun r => (r.hit, r.voxelType, XF.eq r.distance (XF.fin 0 1))) =
      some (true, SURFACE, true) ∧
      (∀ x y z, (world128Cell64.getVoxel x y z).type = gridCell64 x y z) ∧
      (rayCastDDA gridCell64 321 originZero dirDown (XF.fin 1000 1)).map
          (fun r => (r.hit, r.voxelType, XF.eq r.distance (XF.fin 0 1))) =
        some (true, SURFACE, true) ∧
      (world128Cell64.rayCast originZero dirDown (XF.fin 1000 1) Voxel.empty).isSome = false ∧
      (rayCastDDA flatTerrain 321 originTop dirPlusY (XF.fin 1000 1)).map (fun r => r.hit) =
        some false ∧
      (rayCastDDA gridCell64 321 originTop dirPlusY (XF.fin 1000 1)).map (fun r => r.hit) =
        some false :=
  ⟨by decide, world128Cell64_assignment, by decide, by decide, by decide, by decide⟩

set_option maxRecDepth 100000 in
/-- The 4x4x4 scenario on exact values: with only cell (2,2,2) set, the ray from world-space
(0,0,0) towards the grid centre (direction (0,1,0)) hits material 1 at world-space (0,2,0),
the ray with direction (0,-1,0) misses, and the ray along +X from grid-space (0.5,2.5,2.5)
hits material 1 where it enters the cell. -/
theorem rayCast_scenario_444 :
    (world444Grass.rayCast originZero (⟨XF.fin 0 1, XF.fin 1 1, XF.fin 0 1⟩ : Vec3 XF)
        (XF.fin 100 1) Voxel.empty).map
        (fun r => (r.2.2.type, XF.eq r.1.x (XF.fin 0 1), XF.eq r.1.y (XF.fin 2 1),
          XF.eq r.1.z (XF.fin 0 1))) = some (1, true, true, true) ∧
      (world444Grass.rayCast originZero dirDown (XF.fin 100 1) Voxel.empty).isSome = false ∧
      (world444Grass.rayCast (⟨XF.halves (-3), XF.halves 5, XF.halves 1⟩ : Vec3 XF) dirPlusX
        (XF.fin 100 1) Voxel.empty).map
        (fun r => (r.2.2.type, XF.eq r.1.x (XF.fin 0 1), XF.eq r.1.y (XF.halves 5),
          XF.eq r.1.z (XF.halves 1))) = some (1, true, true, true) := by
  decide

/-- A pass that directly follows a pass reports no compression and changes nothing. -/
theorem compressRecursive_idem (n : OctreeNode) :
    compressRecursive (compressRecursive n).1 = ((compressRecursive n).1, false) := by
  induction n with
  | null => rfl
  | node ch t c u l mx my mz sz ih =>
    cases l
    · have h1 : (compressRecursive (.node ch t c u false mx my mz sz)).1 =
          (tryCompress (.node (fun i => (compressRecursive (ch i)).1) t c u false mx my mz sz)).1 := by
        rw [compressRecursive_node]
      rw [h1, tryCompress_node]
      by_cases hc : (false = false) ∧ (compressRecursive (ch 0)).1.isNull = false ∧
          allSame (fun i => (compressRecursive (ch i)).1) = true
      · rw [if_pos hc]
        exact compressRecursive_leaf _ _ _ _ _ _ _ _
      · rw [if_neg hc]
        have hch : (fun i => (compressRecursive ((compressRecursive (ch i)).1)).1) =
            fun i => (compressRecursive (ch i)).1 := funext fun i => by rw [ih i]
        have hfl : (any8 fun i => (compressRecursive ((compressRecursive (ch i)).1)).2) = false := by
          rw [any8_eq_false]; intro i; rw [ih i]
        show compressRecursive (.node (fun i => (compressRecursive (ch i)).1) t c u false mx my mz sz) =
          (.node (fun i => (compressRecursive (ch i)).1) t c u false mx my mz sz, false)
        rw [compressRecursive_node, hch, hfl, tryCompress_node, if_neg hc]
        rfl
    · rw [compressRecursive_leaf]
      exact compressRecursive_leaf _ _ _ _ _ _ _ _

/-- The loop of `compressTree` needs at most two passes. -/
theorem compressLoop_two (n : OctreeNode) (fuel : Nat) (hf : 2 ≤ fuel) :
    compressLoop fuel n = some (compressRecursive n).1 := by
  obtain ⟨f, rfl⟩ : ∃ f, fuel = f + 2 := ⟨fuel - 2, by omega⟩
  rw [compressLoop]
  by_cases hc : (compressRecursive n).2 = true
  · simp only [hc, if_true]
    rw [compressLoop, compressRecursive_idem]
    rfl
  · simp only [hc]
    rfl

/-- C21 (counterexample): there is no world reachable by `setVoxel` calls on which a second
complete pass, run after one complete pass from the root, performs a compression. -/
theorem no_second_pass_compression :
    ¬ ∃ w : OctreeVoxelWorld, ReachableBySet w ∧
      (compressRecursive (compressRecursive w.root).1).2 = true := by
  rintro ⟨w, _, h⟩
  rw [compressRecursive_idem] at h
  cases h

/-- C21 (amended): a single post-order pass is sufficient. On every tree a second complete
pass that follows a complete pass reports no compression and returns the tree unchanged, so
the loop of `compressTree` ends after at most two passes and returns the tree of the first
pass. -/
theorem second_pass_changes_nothing (n : OctreeNode) :
    compressRecursive (compressRecursive n).1 = ((compressRecursive n).1, false) ∧
      (∀ fuel, 2 ≤ fuel → compressLoop fuel n = some (compressRecursive n).1) ∧
      (∀ (w : OctreeVoxelWorld) (fuel : Nat), 2 ≤ fuel →
        w.compressTree fuel = some { w with root := (compressRecursive w.root).1 }) := by
  refine ⟨compressRecursive_idem n, fun fuel hf => compressLoop_two n fuel hf, ?_⟩
  intro w fuel hf
  unfold OctreeVoxelWorld.compressTree
  rw [compressLoop_two w.root fuel hf]
/-- In a well-formed tree that a pass leaves unchanged, the pass leaves every subtree
unchanged. -/
theorem compressRecursive_fixed_nodeAt {root : OctreeNode} {md : Nat}
    (hroot : WellFormed md root) (hfix : compressRecursive root = (root, false)) {d : Nat}
    {n : OctreeNode} (hn : NodeAt root d n) : compressRecursive n = (n, false) := by
  induction hn with
  | root _ => exact hfix
  | @child d n i hn hc ih =>
    obtain ⟨rem, _, hwf⟩ := nodeAt_wellFormed hroot hn
    cases hwf with
    | leaf hsz hch =>
      simp only [OctreeNode.children, hch] at hc
      cases hc
    | @inner r ch t c u mx my mz sz hsz hwf hx hy hz =>
      rw [compressRecursive_node] at ih
      have hflag := congrArg Prod.snd ih
      simp only [Bool.or_eq_false_iff, any8_eq_false] at hflag
      show compressRecursive (ch i) = (ch i, false)
      exact Prod.ext (compressRecursive_false _ (hflag.1 i)) (hflag.1 i)

/-- On a node that a pass leaves unchanged `tryCompress` returns false. -/
theorem tryCompress_of_fixed {n : OctreeNode} (hfix : compressRecursive n = (n, false)) :
    tryCompress n = (n, false) := by
  cases n with
  | null => rfl
  | node ch t c u l mx my mz sz =>
    cases l
    · rw [compressRecursive_node] at hfix
      have hflag := congrArg Prod.snd hfix
      simp only [Bool.or_eq_false_iff, any8_eq_false] at hflag
      have hch : (fun i => (compressRecursive (ch i)).1) = ch :=
        funext fun i => compressRecursive_false _ (hflag.1 i)
      rw [hch] at hflag
      exact Prod.ext (tryCompress_false _ hflag.2) hflag.2
    · rw [tryCompress_node]
      simp

/-- C22: in a reachable world `compressTree` returns, and in the world it returns no node
is compressible: on every node reached from the root `tryCompress` returns false and leaves
the node as it is, and no internal node has eight present children that all carry the
material and the colour of the child in slot 0. -/
theorem compressTree_fixed_point (w : OctreeVoxelWorld) (hw : Reachable w) :
    (∃ w2, w.compressTree (w.getNodeCount + 1) = some w2) ∧
      ∀ (fuel : Nat) (w2 : OctreeVoxelWorld), w.compressTree fuel = some w2 →
        ∀ (d : Nat) (n : OctreeNode), NodeAt w2.root d n →
          tryCompress n = (n, false) ∧
            ¬ (n.isLeaf = false ∧ ∀ i, (n.children i).isNull = false ∧
              (n.children i).voxelType = (n.children 0).voxelType ∧
              (n.children i).voxelColor = (n.children 0).voxelColor) := by
  refine ⟨compressTree_terminates w, ?_⟩
  intro fuel w2 h2 d n hn
  obtain ⟨hl, _, _, _, hmd⟩ := compressTree_some h2
  have hwf2 : WellFormed w.maxDepth w2.root :=
    wellFormed_compressLoop fuel _ _ (reachable_wellFormed hw) hl
  have hfix := compressLoop_fixed _ _ _ hl
  have hnfix := compressRecursive_fixed_nodeAt hwf2 hfix hn
  have htry := tryCompress_of_fixed hnfix
  refine ⟨htry, ?_⟩
  rintro ⟨hleaf, hall⟩
  cases n with
  | null => cases (hall 0).1
  | node ch t c u l mx my mz sz =>
    have hl2 : l = false := hleaf
    subst hl2
    rw [tryCompress_node] at htry
    have h0 : (ch 0).isNull = false := (hall 0).1
    have hs : allSame ch = true := (allSame_iff ch h0).2 hall
    rw [if_pos ⟨rfl, h0, hs⟩] at htry
    have := congrArg Prod.snd htry
    cases this

/-- Witness for C22: the 2x2x2 world with only cell (1,1,1) set keeps its nine nodes, and
`tryCompress` returns false on the root of the world that `compressTree` returns. -/
theorem compressTree_fixed_point_witness :
    ∃ w2, (world222.setVoxel 1 1 1 grass).compressTree 2 = some w2 ∧
      tryCompress w2.root = (w2.root, false) ∧ w2.getNodeCount = 9 :=
  ⟨{ world222.setVoxel 1 1 1 grass with
      root := (compressRecursive (world222.setVoxel 1 1 1 grass).root).1 }, rfl,
    ((compressTree_fixed_point (world222.setVoxel 1 1 1 grass)
      (Reachable.setVoxel 1 1 1 grass (Reachable.create create_222))).2 2 _ rfl 0 _
      (NodeAt.root (by decide))).1, by decide⟩
theorem sum8_add_le (f g : Fin 8 → Nat) (k : Nat) (h : ∀ i, f i ≤ g i) (i : Fin 8)
    (hi : f i + k ≤ g i) : sum8 f + k ≤ sum8 g := by
  have h0 := h 0; have h1 := h 1; have h2 := h 2; have h3 := h 3
  have h4 := h 4; have h5 := h 5; have h6 := h 6; have h7 := h 7
  simp only [sum8]
  fin_cases i
  · change f 0 + k ≤ g 0 at hi; omega
  · change f 1 + k ≤ g 1 at hi; omega
  · change f 2 + k ≤ g 2 at hi; omega
  · change f 3 + k ≤ g 3 at hi; omega
  · change f 4 + k ≤ g 4 at hi; omega
  · change f 5 + k ≤ g 5 at hi; omega
  · change f 6 + k ≤ g 6 at hi; omega
  · change f 7 + k ≤ g 7 at hi; omega

/-- A successful `tryCompress` removes at least eight nodes. -/
theorem countNodes_tryCompress (n : OctreeNode) (h : (tryCompress n).2 = true) :
    countNodes (tryCompress n).1 + 8 ≤ countNodes n := by
  cases n with
  | null => cases h
  | node ch t c u l mx my mz sz =>
    rw [tryCompress_node] at h ⊢
    by_cases hc : l = false ∧ (ch 0).isNull = false ∧ allSame ch = true
    · rw [if_pos hc]
      obtain ⟨hl, h0, hs⟩ := hc
      subst hl
      have hall := (allSame_iff ch h0).1 hs
      have h8 := sum8_ge (fun i => countNodes (ch i)) (fun i => countNodes_pos _ (hall i).1)
      simp only [countNodes, Bool.true_eq_false, if_false, if_true]
      omega
    · rw [if_neg hc] at h
      cases h

/-- A pass that reports a compression removes at least eight nodes. -/
theorem countNodes_compressRecursive_eight (n : OctreeNode) :
    (compressRecursive n).2 = true → countNodes (compressRecursive n).1 + 8 ≤ countNodes n := by
  induction n with
  | null => intro h; cases h
  | node ch t c u l mx my mz sz ih =>
    cases l
    · rw [compressRecursive_node]
      intro h
      have hle : sum8 (fun i => countNodes (compressRecursive (ch i)).1) ≤
          sum8 (fun i => countNodes (ch i)) :=
        sum8_le _ _ fun i => (countNodes_compressRecursive (ch i)).1
      by_cases ht : (tryCompress
          (.node (fun i => (compressRecursive (ch i)).1) t c u false mx my mz sz)).2 = true
      · have h8 := countNodes_tryCompress _ ht
        simp only [countNodes, if_true] at h8 ⊢
        omega
      · have htf : (tryCompress
            (.node (fun i => (compressRecursive (ch i)).1) t c u false mx my mz sz)).2 = false := by
          simpa using ht
        rw [tryCompress_false _ htf]
        rw [htf, Bool.or_false, any8_eq_true] at h
        obtain ⟨i, hi⟩ := h
        have := sum8_add_le (fun i => countNodes (compressRecursive (ch i)).1)
          (fun i => countNodes (ch i)) 8 (fun i => (countNodes_compressRecursive (ch i)).1) i
          (ih i hi)
        simp only [countNodes, if_true]
        omega
    · rw [compressRecursive_leaf]; intro h; cases h

theorem countNodes_compressLoop :
    ∀ (fuel : Nat) (n m : OctreeNode), compressLoop fuel n = some m →
      countNodes m ≤ countNodes n := by
  intro fuel
  induction fuel with
  | zero => intro n m h; cases h
  | succ f ih =>
    intro n m h
    rw [compressLoop] at h
    split at h
    · exact le_trans (ih _ _ h) (countNodes_compressRecursive n).1
    · cases h; exact (countNodes_compressRecursive n).1

/-- C23: a successful `tryCompress` removes at least eight nodes and a pass that reports a
compression lowers the node count by at least eight; on a world (whose root exists) the
loop of `compressTree` ends after a number of passes `k` between 1 and `getNodeCount()` (no
smaller budget of passes lets it return), and the node count of the world returned is never
larger than before. -/
theorem compressTree_pass_count (w : OctreeVoxelWorld) (hroot : w.root.isNull = false) :
    (∀ n : OctreeNode, (tryCompress n).2 = true →
        countNodes (tryCompress n).1 + 8 ≤ countNodes n) ∧
      (∀ n : OctreeNode, (compressRecursive n).2 = true →
        countNodes (compressRecursive n).1 + 8 ≤ countNodes n) ∧
      (∃ (k : Nat) (w2 : OctreeVoxelWorld), 1 ≤ k ∧ k ≤ w.getNodeCount ∧
        w.compressTree k = some w2 ∧ (∀ j, j < k → w.compressTree j = none) ∧
        w2.getNodeCount ≤ w.getNodeCount) ∧
      ∀ (fuel : Nat) (w2 : OctreeVoxelWorld), w.compressTree fuel = some w2 →
        w2.getNodeCount ≤ w.getNodeCount := by
  have hlast : ∀ (fuel : Nat) (w2 : OctreeVoxelWorld), w.compressTree fuel = some w2 →
      w2.getNodeCount ≤ w.getNodeCount := by
    intro fuel w2 h
    exact countNodes_compressLoop fuel _ _ (compressTree_some h).1
  refine ⟨countNodes_tryCompress, countNodes_compressRecursive_eight, ?_, hlast⟩
  have hpos : 1 ≤ countNodes w.root := countNodes_pos _ hroot
  have hzero : w.compressTree 0 = none := rfl
  by_cases hc : (compressRecursive w.root).2 = true
  · have h8 := countNodes_compressRecursive_eight w.root hc
    have h2 : w.compressTree 2 = some { w with root := (compressRecursive w.root).1 } := by
      unfold OctreeVoxelWorld.compressTree
      rw [compressLoop_two w.root 2 (le_refl _)]
    have h1 : w.compressTree 1 = none := by
      unfold OctreeVoxelWorld.compressTree
      rw [compressLoop]
      simp only [hc, if_true]
      rfl
    refine ⟨2, _, by omega, ?_, h2, ?_, hlast 2 _ h2⟩
    · unfold OctreeVoxelWorld.getNodeCount; omega
    · intro j hj
      have : j = 0 ∨ j = 1 := by omega
      rcases this with rfl | rfl
      · exact hzero
      · exact h1
  · have h1 : w.compressTree 1 = some { w with root := (compressRecursive w.root).1 } := by
      unfold OctreeVoxelWorld.compressTree
      rw [compressLoop]
      simp only [hc]
      rfl
    refine ⟨1, _, le_refl _, ?_, h1, ?_, hlast 1 _ h1⟩
    · unfold OctreeVoxelWorld.getNodeCount; omega
    · intro j hj
      have : j = 0 := by omega
      subst this
      exact hzero

/-- Witness for C23: the 4x4x4 world with one set cell, 17 nodes. -/
theorem compressTree_pass_count_witness :
    (∃ (k : Nat) (w2 : OctreeVoxelWorld), 1 ≤ k ∧ k ≤ world444Grass.getNodeCount ∧
        world444Grass.compressTree k = some w2 ∧
        (∀ j, j < k → world444Grass.compressTree j = none) ∧
        w2.getNodeCount ≤ world444Grass.getNodeCount) ∧
      world444Grass.getNodeCount = 17 :=
  ⟨(compressTree_pass_count world444Grass (by decide)).2.2.1, by decide⟩
/-- The voxel that `getVoxelRecursive` returns carries only a material and a colour. -/
theorem getVoxelRecursive_eq_nodeVoxel (md : Nat) (x y z : Int) (n : OctreeNode) :
    ∀ depth, getVoxelRecursive md x y z n depth =
      nodeVoxel (getVoxelRecursive md x y z n depth).type
        (getVoxelRecursive md x y z n depth).color := by
  induction n with
  | null => intro _; rfl
  | node ch t c u l mx my mz sz ih =>
    intro depth
    simp only [getVoxelRecursive]
    split
    · rfl
    · split
      · exact ih _ _
      · rfl

/-- Inserting the material and colour that the tree already reads at the coordinate leaves
the subtree as it is. -/
theorem insertVoxelRecursive_same (x y z : Int) (v : Voxel) :
    ∀ (rem : Nat) (n : OctreeNode) (md depth : Nat), WellFormed rem n → depth + rem = md →
      getVoxelRecursive md x y z n depth = nodeVoxel v.type v.color →
      insertVoxelRecursive x y z v rem n = n := by
  intro rem
  induction rem with
  | zero =>
    intro n md depth h _ hread
    cases h with
    | leaf hsz hch =>
      rw [getVoxelRecursive_leaf] at hread
      obtain ⟨h1, h2⟩ := nodeVoxel_inj hread
      subst h1 h2
      rfl
  | succ r ih =>
    intro n md depth h hmd hread
    cases h with
    | @leaf _ ch t c u mx my mz sz hsz hch =>
      subst hsz
      rw [getVoxelRecursive_leaf] at hread
      obtain ⟨h1, h2⟩ := nodeVoxel_inj hread
      subst h1 h2
      exact insert_leaf_same x y z v _ _ _ _ _ _
    | @inner _ ch t c u mx my mz sz hsz hwf hx hy hz =>
      subst hsz
      rw [getVoxelRecursive_inner x y z md _ _ _ _ _ _ _ _ depth (by omega)
        (hwf _).isNull_eq] at hread
      rw [insert_inner x y z v _ _ _ _ _ _ _ _ (fun i => (hwf i).isNull_eq),
        ih _ md (depth + 1) (hwf _) (by omega) hread]
      congr 1
      funext j
      split
      · rename_i hj; rw [hj]
      · rfl

theorem setVoxel_of_same {w : OctreeVoxelWorld} (hw : Reachable w) (x y z : Int) (v : Voxel)
    (hsame : (w.getVoxel x y z).type = v.type ∧ (w.getVoxel x y z).color = v.color) :
    w.setVoxel x y z v = w := by
  unfold OctreeVoxelWorld.setVoxel
  split
  · rfl
  · rename_i hr
    split
    · unfold OctreeVoxelWorld.getVoxel at hsame
      rw [if_neg hr] at hsame
      have hread : getVoxelRecursive w.maxDepth x y z w.root 0 = nodeVoxel v.type v.color := by
        rw [getVoxelRecursive_eq_nodeVoxel, hsame.1, hsame.2]
      rw [insertVoxelRecursive_same x y z v w.maxDepth w.root w.maxDepth 0
        (reachable_wellFormed hw) (by omega) hread]
    · rfl

/-- C24: in a reachable world, `setVoxel` of a voxel at a coordinate that already reads the
material and the colour of the voxel returns the world unchanged (the same tree, node count
and leaf count), in particular for a non-air voxel at an in-range coordinate, where the
call does descend into the tree; and in every reachable world a `setVoxel` call repeated
right after itself changes nothing. -/
theorem setVoxel_same_material (w : OctreeVoxelWorld) (hw : Reachable w) (x y z : Int)
    (v : Voxel)
    (hsame : (w.getVoxel x y z).type = v.type ∧ (w.getVoxel x y z).color = v.color) :
    w.setVoxel x y z v = w ∧ (w.setVoxel x y z v).root = w.root ∧
      (w.setVoxel x y z v).getNodeCount = w.getNodeCount ∧
      (w.setVoxel x y z v).getLeafCount = w.getLeafCount ∧
      ∀ (a b c : Int) (v2 : Voxel),
        (w.setVoxel a b c v2).setVoxel a b c v2 = w.setVoxel a b c v2 := by
  have hs := setVoxel_of_same hw x y z v hsame
  refine ⟨hs, by rw [hs], by rw [hs], by rw [hs], ?_⟩
  intro a b c v2
  by_cases hr : a < 0 ∨ a ≥ w.worldSizeX ∨ b < 0 ∨ b ≥ w.worldSizeY ∨ c < 0 ∨ c ≥ w.worldSizeZ
  · have h1 : w.setVoxel a b c v2 = w := by unfold OctreeVoxelWorld.setVoxel; rw [if_pos hr]
    rw [h1, h1]
  · by_cases hv2 : v2.type ≠ 0
    · have hset : w.setVoxel a b c v2 =
          { w with root := insertVoxelRecursive a b c v2 w.maxDepth w.root } := by
        unfold OctreeVoxelWorld.setVoxel; rw [if_neg hr, if_pos hv2]
      apply setVoxel_of_same (Reachable.setVoxel a b c v2 hw)
      rw [hset]
      unfold OctreeVoxelWorld.getVoxel
      rw [if_neg hr, getVoxelRecursive_insert a b c v2 w.maxDepth w.root w.maxDepth 0
        (reachable_wellFormed hw) (by omega)]
      exact ⟨rfl, rfl⟩
    · have h1 : w.setVoxel a b c v2 = w := by
        unfold OctreeVoxelWorld.setVoxel; rw [if_neg hr, if_neg hv2]
      rw [h1, h1]

/-- Witness for C24: `setVoxel(2,2,2, grass)` on the 4x4x4 world in which cell (2,2,2) is
already grass. -/
theorem setVoxel_same_material_witness :
    world444Grass.setVoxel 2 2 2 grass = world444Grass ∧
      (world444Grass.setVoxel 2 2 2 grass).getNodeCount = 17 :=
  ⟨(setVoxel_same_material world444Grass reachable_world444Grass 2 2 2 grass (by decide)).1,
    by decide⟩

theorem firstSome8_eq_some {α : Type} (f : Fin 8 → Option α) (r : α) :
    firstSome8 f = some r ↔ ∃ i, f i = some r ∧ ∀ j, j < i → f j = none := by
  constructor
  · intro h
    unfold firstSome8 at h
    split at h
    · rename_i a h0
      cases h
      refine ⟨0, h0, ?_⟩
      intro j hj
      fin_cases j <;> first | exact absurd hj (by decide)
    · rename_i h0
      split at h
      · rename_i a h1
        cases h
        refine ⟨1, h1, ?_⟩
        intro j hj
        fin_cases j <;> first | exact h0 | exact absurd hj (by decide)
      · rename_i h1
        split at h
        · rename_i a h2
          cases h
          refine ⟨2, h2, ?_⟩
          intro j hj
          fin_cases j <;> first | exact h0 | exact h1 | exact absurd hj (by decide)
        · rename_i h2
          split at h
          · rename_i a h3
            cases h
            refine ⟨3, h3, ?_⟩
            intro j hj
            fin_cases j <;> first | exact h0 | exact h1 | exact h2 | exact absurd hj (by decide)
          · rename_i h3
            split at h
            · rename_i a h4
              cases h
              refine ⟨4, h4, ?_⟩
              intro j hj
              fin_cases j <;> first | exact h0 | exact h1 | exact h2 | exact h3 | exact absurd hj (by decide)
            · rename_i h4
              split at h
              · rename_i a h5
                cases h
                refine ⟨5, h5, ?_⟩
                intro j hj
                fin_cases j <;> first | exact h0 | exact h1 | exact h2 | exact h3 | exact h4 | exact absurd hj (by decide)
              · rename_i h5
                split at h
                · rename_i a h6
                  cases h
                  refine ⟨6, h6, ?_⟩
                  intro j hj
                  fin_cases j <;> first | exact h0 | exact h1 | exact h2 | exact h3 | exact h4 | exact h5 | exact absurd hj (by decide)
                · rename_i h6
                  refine ⟨7, h, ?_⟩
                  intro j hj
                  fin_cases j <;> first | exact h0 | exact h1 | exact h2 | exact h3 | exact h4 | exact h5 | exact h6 | exact absurd hj (by decide)
  · rintro ⟨i, hi, hn⟩
    unfold firstSome8
    fin_cases i
    · change f 0 = some r at hi
      simp only [hi]
    · change f 1 = some r at hi
      simp only [hn 0 (by decide), hi]
    · change f 2 = some r at hi
      simp only [hn 0 (by decide), hn 1 (by decide), hi]
    · change f 3 = some r at hi
      simp only [hn 0 (by decide), hn 1 (by decide), hn 2 (by decide), hi]
    · change f 4 = some r at hi
      simp only [hn 0 (by decide), hn 1 (by decide), hn 2 (by decide), hn 3 (by decide), hi]
    · change f 5 = some r at hi
      simp only [hn 0 (by decide), hn 1 (by decide), hn 2 (by decide), hn 3 (by decide), hn 4 (by decide), hi]
    · change f 6 = some r at hi
      simp only [hn 0 (by decide), hn 1 (by decide), hn 2 (by decide), hn 3 (by decide), hn 4 (by decide), hn 5 (by decide), hi]
    · change f 7 = some r at hi
      simp only [hn 0 (by decide), hn 1 (by decide), hn 2 (by decide), hn 3 (by decide), hn 4 (by decide), hn 5 (by decide), hn 6 (by decide), hi]
theorem nodeAt_of_child {n : OctreeNode} (hn : n.isNull = false) (i : Fin 8) {d : Nat}
    {m : OctreeNode} (h : NodeAt (n.children i) d m) : NodeAt n (d + 1) m := by
  induction h with
  | root hc => exact NodeAt.child i (NodeAt.root hn) hc
  | child j _ hc ih => exact NodeAt.child j ih hc

theorem rayCastRecursive_internal_eq {F : Type} [FloatOps F] (rayStart rayDir : Vec3 F)
    (ch : Fin 8 → OctreeNode) (t c : Nat) (u : Bool) (mx my mz sz : Int) (tMin tMax : F)
    (hv : Voxel) :
    rayCastRecursive rayStart rayDir (.node ch t c u false mx my mz sz) tMin tMax hv =
      firstSome8 fun i =>
        if (ch i).isNull = true then none
        else
          match nodeSlab (ch i) rayStart rayDir tMin tMax with
          | none => none
          | some t01 =>
              if FloatOps.lt t01.1 tMax = true then
                rayCastRecursive rayStart rayDir (ch i) t01.1 t01.2 Voxel.empty
              else none := by
  rw [rayCastRecursive]
  simp

theorem childCandidate_eq_some {F : Type} [FloatOps F] (rayStart rayDir : Vec3 F)
    (k : OctreeNode) (tMin tMax : F) (r : Vec3 F × Vec3 F × Voxel) :
    (if k.isNull = true then none
      else
        match nodeSlab k rayStart rayDir tMin tMax with
        | none => none
        | some t01 =>
            if FloatOps.lt t01.1 tMax = true then
              rayCastRecursive rayStart rayDir k t01.1 t01.2 Voxel.empty
            else none) = some r ↔
      ∃ t01, k.isNull = false ∧ nodeSlab k rayStart rayDir tMin tMax = some t01 ∧
        FloatOps.lt t01.1 tMax = true ∧
        rayCastRecursive rayStart rayDir k t01.1 t01.2 Voxel.empty = some r := by
  constructor
  · intro h
    split at h
    · cases h
    · rename_i hk
      split at h
      · cases h
      · rename_i t01 hs
        split at h
        · rename_i hlt
          exact ⟨t01, by simpa using hk, hs, hlt, h⟩
        · cases h
  · rintro ⟨t01, hk, hs, hlt, h⟩
    rw [if_neg (by rw [hk]; simp), hs]
    simp only [hlt, if_true]
    exact h

theorem childCandidate_eq_none {F : Type} [FloatOps F] (rayStart rayDir : Vec3 F)
    (k : OctreeNode) (tMin tMax : F) :
    (if k.isNull = true then none
      else
        match nodeSlab k rayStart rayDir tMin tMax with
        | none => none
        | some t01 =>
            if FloatOps.lt t01.1 tMax = true then
              rayCastRecursive rayStart rayDir k t01.1 t01.2 Voxel.empty
            else none) = none ↔
      ∀ t01, k.isNull = false → nodeSlab k rayStart rayDir tMin tMax = some t01 →
        FloatOps.lt t01.1 tMax = true →
        rayCastRecursive rayStart rayDir k t01.1 t01.2 Voxel.empty = none := by
  constructor
  · intro h t01 hk hs hlt
    rw [if_neg (by rw [hk]; simp), hs] at h
    simp only [hlt, if_true] at h
    exact h
  · intro h
    split
    · rfl
    · rename_i hk
      split
      · rfl
      · rename_i t01 hs
        split
        · rename_i hlt
          exact h t01 (by simpa using hk) hs hlt
        · rfl
theorem reachableBySet_world222Pair :
    ReachableBySet world222Pair :=
  ReachableBySet.setVoxel 1 0 0 _ (ReachableBySet.setVoxel 0 0 0 _ (ReachableBySet.create create_222))

theorem world222Pair_assignment (x y z : Int) :
    (world222Pair.getVoxel x y z).type =
      if x = 0 ∧ y = 0 ∧ z = 0 then 1 else if x = 1 ∧ y = 0 ∧ z = 0 then 2 else 0 := by
  by_cases h0 : x = 0 ∧ y = 0 ∧ z = 0
  · obtain ⟨rfl, rfl, rfl⟩ := h0
    decide
  · by_cases h1 : x = 1 ∧ y = 0 ∧ z = 0
    · obtain ⟨rfl, rfl, rfl⟩ := h1
      decide
    · rw [if_neg h0, if_neg h1]
      unfold world222Pair
      rw [getVoxel_setVoxel_other (Reachable.setVoxel 0 0 0 _ (Reachable.create create_222))
          1 0 0 x y z _ h1,
        getVoxel_setVoxel_other (Reachable.create create_222) 0 0 0 x y z _ h0]
      unfold OctreeVoxelWorld.getVoxel
      split
      · rfl
      · rfl

set_option maxRecDepth 100000 in
/-- C25: at an internal node `rayCastRecursive` returns the result of the child of lowest
index among the children that are present, whose cube passes the slab test on the current
interval with an entry below `tMax`, and whose recursive call reports a hit. In the 2x2x2
world reached by two `setVoxel` calls, with material 1 in cell (0,0,0) (octant 0), material 2
in cell (1,0,0) (octant 1) and air elsewhere, the ray from octree-space (3, 0.5, 0.5) along
-X enters the cube of cell (1,0,0) at parameter 1 and the cube of cell (0,0,0) at parameter
2, the recursive call on octant 1 alone reports material 2, and `rayCast` returns material 1
at octree-space x = 1 (world-space x = 0), the hit in octant 0. -/
theorem rayCast_sibling_order :
    (∀ (F : Type) [FloatOps F] (rayStart rayDir : Vec3 F) (ch : Fin 8 → OctreeNode)
        (t c : Nat) (u : Bool) (mx my mz sz : Int) (tMin tMax : F) (hv : Voxel)
        (r : Vec3 F × Vec3 F × Voxel),
        rayCastRecursive rayStart rayDir (.node ch t c u false mx my mz sz) tMin tMax hv =
            some r ↔
          ∃ i : Fin 8,
            (∃ t01, (ch i).isNull = false ∧
              nodeSlab (ch i) rayStart rayDir tMin tMax = some t01 ∧
              FloatOps.lt t01.1 tMax = true ∧
              rayCastRecursive rayStart rayDir (ch i) t01.1 t01.2 Voxel.empty = some r) ∧
            ∀ j : Fin 8, j < i →
              ∀ t01, (ch j).isNull = false →
                nodeSlab (ch j) rayStart rayDir tMin tMax = some t01 →
                FloatOps.lt t01.1 tMax = true →
                rayCastRecursive rayStart rayDir (ch j) t01.1 t01.2 Voxel.empty = none) ∧
      ReachableBySet world222Pair ∧
      (∀ x y z, (world222Pair.getVoxel x y z).type =
        if x = 0 ∧ y = 0 ∧ z = 0 then 1 else if x = 1 ∧ y = 0 ∧ z = 0 then 2 else 0) ∧
      (nodeSlab (world222Pair.root.children 1) (Vec3.add originRight world222Pair.offset)
          (FloatOps.normalize dirMinusX) (XF.fin 0 1) (XF.fin 100 1)).map
          (fun t => XF.eq t.1 (XF.fin 1 1)) = some true ∧
      (nodeSlab (world222Pair.root.children 0) (Vec3.add originRight world222Pair.offset)
          (FloatOps.normalize dirMinusX) (XF.fin 0 1) (XF.fin 100 1)).map
          (fun t => XF.eq t.1 (XF.fin 2 1)) = some true ∧
      (rayCastRecursive (Vec3.add originRight world222Pair.offset)
          (FloatOps.normalize dirMinusX) (world222Pair.root.children 1) (XF.fin 1 1)
          (XF.fin 3 1) Voxel.empty).map (fun r => r.2.2.type) = some 2 ∧
      (world222Pair.rayCast originRight dirMinusX (XF.fin 100 1) Voxel.empty).map
          (fun r => (r.2.2.type, XF.eq r.1.x (XF.fin 0 1))) = some (1, true) := by
  refine ⟨?_, reachableBySet_world222Pair, world222Pair_assignment, by decide, by decide, by decide,
    by decide⟩
  intro F _ rayStart rayDir ch t c u mx my mz sz tMin tMax hv r
  rw [rayCastRecursive_internal_eq, firstSome8_eq_some]
  constructor
  · rintro ⟨i, hi, hn⟩
    exact ⟨i, (childCandidate_eq_some _ _ _ _ _ _).1 hi,
      fun j hj => (childCandidate_eq_none _ _ _ _ _).1 (hn j hj)⟩
  · rintro ⟨i, hi, hn⟩
    exact ⟨i, (childCandidate_eq_some _ _ _ _ _ _).2 hi,
      fun j hj => (childCandidate_eq_none _ _ _ _ _).2 (hn j hj)⟩
theorem leafNormal_axis {F : Type} [FloatOps F] (localHit : Vec3 F) :
    ∃ s : Int, (s = 1 ∨ s = -1) ∧
      (leafNormal localHit = Vec3.ofInts s 0 0 ∨ leafNormal localHit = Vec3.ofInts 0 s 0 ∨
        leafNormal localHit = Vec3.ofInts 0 0 s) := by
  unfold leafNormal
  simp only []
  split
  · split
    · exact ⟨1, Or.inl rfl, Or.inl rfl⟩
    · exact ⟨-1, Or.inr rfl, Or.inl rfl⟩
  · split
    · split
      · exact ⟨1, Or.inl rfl, Or.inr (Or.inl rfl)⟩
      · exact ⟨-1, Or.inr rfl, Or.inr (Or.inl rfl)⟩
    · split
      · exact ⟨1, Or.inl rfl, Or.inr (Or.inr rfl)⟩
      · exact ⟨-1, Or.inr rfl, Or.inr (Or.inr rfl)⟩

/-- A hit of `rayCastRecursive` comes from a leaf of the subtree with a material other than
0: the voxel returned carries the material and colour of that leaf, the position is a point
`rayStart + rayDir * t0`, and the normal is the one chosen from the displacement of the
position from the centre of the leaf. -/
theorem rayCastRecursive_some {F : Type} [FloatOps F] (rayStart rayDir : Vec3 F)
    (n : OctreeNode) :
    ∀ (tMin tMax : F) (hv : Voxel) (r : Vec3 F × Vec3 F × Voxel),
      rayCastRecursive rayStart rayDir n tMin tMax hv = some r →
      ∃ (d : Nat) (leaf : OctreeNode) (t0 : F), NodeAt n d leaf ∧ leaf.isLeaf = true ∧
        leaf.voxelType ≠ 0 ∧ r.1 = Vec3.add rayStart (Vec3.scale rayDir t0) ∧
        r.2.1 = leafNormal (Vec3.sub r.1 (nodeCenter leaf)) ∧
        r.2.2.type = leaf.voxelType ∧ r.2.2.color = leaf.voxelColor := by
  induction n with
  | null => intro tMin tMax hv r h; rw [rayCastRecursive] at h; cases h
  | node ch t c u l mx my mz sz ih =>
    intro tMin tMax hv r h
    cases l
    · rw [rayCastRecursive_internal_eq, firstSome8_eq_some] at h
      obtain ⟨i, hi, _⟩ := h
      obtain ⟨t01, hk, _, _, hrec⟩ := (childCandidate_eq_some _ _ _ _ _ _).1 hi
      obtain ⟨d, leaf, t0, hat, hrest⟩ := ih i _ _ _ _ hrec
      exact ⟨d + 1, leaf, t0,
        nodeAt_of_child (n := .node ch t c u false mx my mz sz) rfl i hat, hrest⟩
    · rw [rayCastRecursive] at h
      simp only [if_true] at h
      split at h
      · cases h
      · rename_i ht
        split at h
        · cases h
        · rename_i t01 _
          split at h
          · cases h
            exact ⟨0, _, t01.1, NodeAt.root rfl, rfl, ht, rfl, rfl, rfl, rfl⟩
          · cases h

/-- C26: when `OctreeVoxelWorld::rayCast` reports a hit, the normal it returns is one of
the six axis-aligned unit vectors, chosen at a leaf of the tree from the displacement
`localHit` of the hit position (before the world offset is subtracted) from the centre of
the leaf: the X axis when `|localHit.x|` is strictly above `|localHit.y|` and `|localHit.z|`,
otherwise the Y axis when `|localHit.y|` is strictly above `|localHit.z|`, otherwise the Z
axis; the component is `1` when the displacement on the chosen axis is above 0 and `-1`
otherwise. -/
theorem rayCast_normal_axis {F : Type} [FloatOps F] (w : OctreeVoxelWorld)
    (origin direction : Vec3 F) (maxDist : F) (hitVoxel : Voxel)
    (r : Vec3 F × Vec3 F × Voxel)
    (h : w.rayCast origin direction maxDist hitVoxel = some r) :
    (∃ s : Int, (s = 1 ∨ s = -1) ∧
        (r.2.1 = Vec3.ofInts s 0 0 ∨ r.2.1 = Vec3.ofInts 0 s 0 ∨ r.2.1 = Vec3.ofInts 0 0 s)) ∧
      ∃ (d : Nat) (leaf : OctreeNode) (hitPos localHit : Vec3 F),
        NodeAt w.root d leaf ∧ leaf.isLeaf = true ∧ r.1 = Vec3.sub hitPos w.offset ∧
        localHit = Vec3.sub hitPos (nodeCenter leaf) ∧
        ((FloatOps.lt (FloatOps.abs localHit.y) (FloatOps.abs localHit.x) = true ∧
            FloatOps.lt (FloatOps.abs localHit.z) (FloatOps.abs localHit.x) = true) →
          r.2.1 =
            Vec3.ofInts (if FloatOps.lt (FloatOps.ofInt 0) localHit.x = true then 1 else -1) 0 0) ∧
        (¬ (FloatOps.lt (FloatOps.abs localHit.y) (FloatOps.abs localHit.x) = true ∧
            FloatOps.lt (FloatOps.abs localHit.z) (FloatOps.abs localHit.x) = true) →
          FloatOps.lt (FloatOps.abs localHit.z) (FloatOps.abs localHit.y) = true →
          r.2.1 =
            Vec3.ofInts 0 (if FloatOps.lt (FloatOps.ofInt 0) localHit.y = true then 1 else -1) 0) ∧
        (¬ (FloatOps.lt (FloatOps.abs localHit.y) (FloatOps.abs localHit.x) = true ∧
            FloatOps.lt (FloatOps.abs localHit.z) (FloatOps.abs localHit.x) = true) →
          ¬ FloatOps.lt (FloatOps.abs localHit.z) (FloatOps.abs localHit.y) = true →
          r.2.1 =
            Vec3.ofInts 0 0 (if FloatOps.lt (FloatOps.ofInt 0) localHit.z = true then 1 else -1)) := by
  unfold OctreeVoxelWorld.rayCast at h
  simp only [] at h
  split at h
  · cases h
  · rename_i t _
    split at h
    · cases h
    · rename_i q hq
      cases h
      obtain ⟨d, leaf, t0, hat, hleaf, _, _, hnorm, _, _⟩ :=
        rayCastRecursive_some _ _ _ _ _ _ _ hq
      refine ⟨?_, d, leaf, q.1, Vec3.sub q.1 (nodeCenter leaf), hat, hleaf, rfl, rfl, ?_, ?_, ?_⟩
      · show ∃ s : Int, (s = 1 ∨ s = -1) ∧
          (q.2.1 = Vec3.ofInts s 0 0 ∨ q.2.1 = Vec3.ofInts 0 s 0 ∨ q.2.1 = Vec3.ofInts 0 0 s)
        rw [hnorm]
        exact leafNormal_axis _
      · intro hx
        show q.2.1 = _
        rw [hnorm]
        unfold leafNormal
        simp only []
        rw [if_pos hx]
      · intro hx hy
        show q.2.1 = _
        rw [hnorm]
        unfold leafNormal
        simp only []
        rw [if_neg hx, if_pos hy]
      · intro hx hy
        show q.2.1 = _
        rw [hnorm]
        unfold leafNormal
        simp only []
        rw [if_neg hx, if_neg hy]

set_option maxRecDepth 100000 in
/-- Witness for C26: in the 4x4x4 world with only cell (2,2,2) set, the ray along +X from
octree-space (0.5, 2.5, 2.5) hits the face x = 2 of the cell and gets the normal
(-1, 0, 0). -/
theorem rayCast_normal_axis_witness :
    (∃ r, world444Grass.rayCast (⟨XF.halves (-3), XF.halves 5, XF.halves 1⟩ : Vec3 XF) dirPlusX
          (XF.fin 100 1) Voxel.empty = some r ∧
        ∃ s : Int, (s = 1 ∨ s = -1) ∧
          (r.2.1 = Vec3.ofInts s 0 0 ∨ r.2.1 = Vec3.ofInts 0 s 0 ∨
            r.2.1 = Vec3.ofInts 0 0 s)) ∧
      (world444Grass.rayCast (⟨XF.halves (-3), XF.halves 5, XF.halves 1⟩ : Vec3 XF) dirPlusX
          (XF.fin 100 1) Voxel.empty).map
          (fun r => (XF.eq r.2.1.x (XF.fin (-1) 1), XF.eq r.2.1.y (XF.fin 0 1),
            XF.eq r.2.1.z (XF.fin 0 1))) = some (true, true, true) :=
  ⟨match Option.isSome_iff_exists.1
      (by decide : (world444Grass.rayCast (⟨XF.halves (-3), XF.halves 5, XF.halves 1⟩ : Vec3 XF)
        dirPlusX (XF.fin 100 1) Voxel.empty).isSome = true) with
    | ⟨r, hr⟩ => ⟨r, hr, (rayCast_normal_axis world444Grass _ _ _ _ r hr).1⟩,
    by decide⟩

theorem ddaStep_cases {F : Type} [FloatOps F] (d : F) : ddaStep d = 1 ∨ ddaStep d = -1 := by
  unfold ddaStep
  split
  · exact Or.inl rfl
  · exact Or.inr rfl

/-- One step of the traversal moves exactly one cell coordinate, by the step of its axis. -/
theorem ddaAdvance_cell {F : Type} [FloatOps F] (stepX stepY stepZ : Int)
    (tDeltaX tDeltaY tDeltaZ : F) (s : DDAState F) :
    ((ddaAdvance stepX stepY stepZ tDeltaX tDeltaY tDeltaZ s).x = s.x + stepX ∧
        (ddaAdvance stepX stepY stepZ tDeltaX tDeltaY tDeltaZ s).y = s.y ∧
        (ddaAdvance stepX stepY stepZ tDeltaX tDeltaY tDeltaZ s).z = s.z) ∨
      ((ddaAdvance stepX stepY stepZ tDeltaX tDeltaY tDeltaZ s).x = s.x ∧
        (ddaAdvance stepX stepY stepZ tDeltaX tDeltaY tDeltaZ s).y = s.y + stepY ∧
        (ddaAdvance stepX stepY stepZ tDeltaX tDeltaY tDeltaZ s).z = s.z) ∨
      ((ddaAdvance stepX stepY stepZ tDeltaX tDeltaY tDeltaZ s).x = s.x ∧
        (ddaAdvance stepX stepY stepZ tDeltaX tDeltaY tDeltaZ s).y = s.y ∧
        (ddaAdvance stepX stepY stepZ tDeltaX tDeltaY tDeltaZ s).z = s.z + stepZ) := by
  unfold ddaAdvance
  split
  · exact Or.inl ⟨rfl, rfl, rfl⟩
  · split
    · exact Or.inr (Or.inl ⟨rfl, rfl, rfl⟩)
    · exact Or.inr (Or.inr ⟨rfl, rfl, rfl⟩)

theorem cellsAhead_step (step cell size : Int) (h : step = 1 ∨ step = -1) :
    cellsAhead step (cell + step) size = cellsAhead step cell size - 1 := by
  rcases h with rfl | rfl
  · simp only [cellsAhead, if_true]; omega
  · simp only [cellsAhead]; rw [if_neg (by decide), if_neg (by decide)]; omega

theorem cellsAhead_pos (step cell size : Int) (h : 0 ≤ cell ∧ cell < size) :
    1 ≤ cellsAhead step cell size ∧ cellsAhead step cell size ≤ size := by
  unfold cellsAhead
  split <;> omega

/-- The traversal loop returns within a budget that covers the cells ahead on the three
axes. -/
theorem ddaLoop_terminates {F : Type} [FloatOps F] (grid : VoxelGrid) (rayStart dir : Vec3 F)
    (maxDistance : F) (stepX stepY stepZ : Int) (tDeltaX tDeltaY tDeltaZ : F)
    (hX : stepX = 1 ∨ stepX = -1) (hY : stepY = 1 ∨ stepY = -1) (hZ : stepZ = 1 ∨ stepZ = -1) :
    ∀ (fuel : Nat) (s : DDAState F), 1 ≤ fuel →
      (outsideGrid s.x s.y s.z ∨
        cellsAhead stepX s.x GRID_SIZE_X + cellsAhead stepY s.y GRID_SIZE_Y +
          cellsAhead stepZ s.z GRID_SIZE_Z ≤ fuel) →
      ∃ r, ddaLoop grid rayStart dir maxDistance stepX stepY stepZ tDeltaX tDeltaY tDeltaZ
        fuel s = some r := by
  intro fuel
  induction fuel with
  | zero => intro s h; omega
  | succ f ih =>
    intro s _ hm
    rw [ddaLoop]
    split
    · split
      · exact ⟨_, rfl⟩
      · rename_i hin
        split
        · exact ⟨_, rfl⟩
        · have hm2 : cellsAhead stepX s.x GRID_SIZE_X + cellsAhead stepY s.y GRID_SIZE_Y +
              cellsAhead stepZ s.z GRID_SIZE_Z ≤ (f : Int) + 1 := by
            rcases hm with hm | hm
            · exact absurd hm hin
            · exact_mod_cast hm
          have hb : (0 ≤ s.x ∧ s.x < GRID_SIZE_X) ∧ (0 ≤ s.y ∧ s.y < GRID_SIZE_Y) ∧
              (0 ≤ s.z ∧ s.z < GRID_SIZE_Z) := by
            unfold outsideGrid at hin
            omega
          have p1 := cellsAhead_pos stepX s.x GRID_SIZE_X hb.1
          have p2 := cellsAhead_pos stepY s.y GRID_SIZE_Y hb.2.1
          have p3 := cellsAhead_pos stepZ s.z GRID_SIZE_Z hb.2.2
          apply ih _ (by omega)
          right
          show cellsAhead stepX (ddaAdvance stepX stepY stepZ tDeltaX tDeltaY tDeltaZ s).x
              GRID_SIZE_X +
            cellsAhead stepY (ddaAdvance stepX stepY stepZ tDeltaX tDeltaY tDeltaZ s).y
              GRID_SIZE_Y +
            cellsAhead stepZ (ddaAdvance stepX stepY stepZ tDeltaX tDeltaY tDeltaZ s).z
              GRID_SIZE_Z ≤ (f : Int)
          rcases ddaAdvance_cell stepX stepY stepZ tDeltaX tDeltaY tDeltaZ s with
            ⟨e1, e2, e3⟩ | ⟨e1, e2, e3⟩ | ⟨e1, e2, e3⟩
          · rw [e1, e2, e3, cellsAhead_step _ _ _ hX]; omega
          · rw [e1, e2, e3, cellsAhead_step _ _ _ hY]; omega
          · rw [e1, e2, e3, cellsAhead_step _ _ _ hZ]; omega
    · exact ⟨_, rfl⟩

/-- A larger budget does not change what the traversal loop returns. -/
theorem ddaLoop_fuel_mono {F : Type} [FloatOps F] (grid : VoxelGrid) (rayStart dir : Vec3 F)
    (maxDistance : F) (stepX stepY stepZ : Int) (tDeltaX tDeltaY tDeltaZ : F) :
    ∀ (fuel : Nat) (s : DDAState F) (r : DDAHit F),
      ddaLoop grid rayStart dir maxDistance stepX stepY stepZ tDeltaX tDeltaY tDeltaZ fuel s =
        some r →
      ∀ fuel2, fuel ≤ fuel2 →
        ddaLoop grid rayStart dir maxDistance stepX stepY stepZ tDeltaX tDeltaY tDeltaZ fuel2 s =
          some r := by
  intro fuel
  induction fuel with
  | zero => intro s r h; rw [ddaLoop] at h; cases h
  | succ f ih =>
    intro s r h fuel2 hf
    obtain ⟨g, rfl⟩ : ∃ g, fuel2 = g + 1 := ⟨fuel2 - 1, by omega⟩
    rw [ddaLoop] at h ⊢
    split
    · rename_i hlt
      rw [if_pos hlt] at h
      split
      · rename_i ho
        rw [if_pos ho] at h
        exact h
      · rename_i ho
        rw [if_neg ho] at h
        split
        · rename_i hg
          rw [if_pos hg] at h
          exact h
        · rename_i hg
          rw [if_neg hg] at h
          exact ih _ _ h g (by omega)
    · rename_i hlt
      rw [if_neg hlt] at h
      exact h

/-- C29: with a budget of `GRID_SIZE_X + GRID_SIZE_Y + GRID_SIZE_Z` iterations the traversal
loop of `rayCastDDA` returns, for every grid content, every ray and every `maxDistance`, and
a larger budget returns the same result; the step of an axis is `1` or `-1`, and a step of
the traversal moves exactly one of the cell coordinates, by the step of its axis, whatever
the `tMax` and `tDelta` values. -/
theorem rayCastDDA_terminates {F : Type} [FloatOps F] (grid : VoxelGrid)
    (rayOrigin rayDir : Vec3 F) (maxDistance : F) :
    (∃ r, ∀ fuel, (GRID_SIZE_X + GRID_SIZE_Y + GRID_SIZE_Z).toNat ≤ fuel →
        rayCastDDA grid fuel rayOrigin rayDir maxDistance = some r) ∧
      (∀ d : F, ddaStep d = 1 ∨ ddaStep d = -1) ∧
      ∀ (stepX stepY stepZ : Int) (tDeltaX tDeltaY tDeltaZ : F) (s : DDAState F),
        ((ddaAdvance stepX stepY stepZ tDeltaX tDeltaY tDeltaZ s).x = s.x + stepX ∧
            (ddaAdvance stepX stepY stepZ tDeltaX tDeltaY tDeltaZ s).y = s.y ∧
            (ddaAdvance stepX stepY stepZ tDeltaX tDeltaY tDeltaZ s).z = s.z) ∨
          ((ddaAdvance stepX stepY stepZ tDeltaX tDeltaY tDeltaZ s).x = s.x ∧
            (ddaAdvance stepX stepY stepZ tDeltaX tDeltaY tDeltaZ s).y = s.y + stepY ∧
            (ddaAdvance stepX stepY stepZ tDeltaX tDeltaY tDeltaZ s).z = s.z) ∨
          ((ddaAdvance stepX stepY stepZ tDeltaX tDeltaY tDeltaZ s).x = s.x ∧
            (ddaAdvance stepX stepY stepZ tDeltaX tDeltaY tDeltaZ s).y = s.y ∧
            (ddaAdvance stepX stepY stepZ tDeltaX tDeltaY tDeltaZ s).z = s.z + stepZ) := by
  refine ⟨?_, ddaStep_cases, ddaAdvance_cell⟩
  have h320 : (GRID_SIZE_X + GRID_SIZE_Y + GRID_SIZE_Z).toNat = 320 := by decide
  rw [h320]
  unfold rayCastDDA
  simp only []
  cases hs : ddaStart (Vec3.add rayOrigin gridOffset) (FloatOps.normalize rayDir) maxDistance with
  | none => exact ⟨_, fun _ _ => rfl⟩
  | some p =>
    obtain ⟨pos, x, y, z⟩ := p
    simp only []
    have hm : outsideGrid x y z ∨
        cellsAhead (ddaStep (FloatOps.normalize rayDir).x) x GRID_SIZE_X +
          cellsAhead (ddaStep (FloatOps.normalize rayDir).y) y GRID_SIZE_Y +
          cellsAhead (ddaStep (FloatOps.normalize rayDir).z) z GRID_SIZE_Z ≤ ((320 : Nat) : Int) := by
      by_cases ho : outsideGrid x y z
      · exact Or.inl ho
      · right
        have hb : (0 ≤ x ∧ x < GRID_SIZE_X) ∧ (0 ≤ y ∧ y < GRID_SIZE_Y) ∧
            (0 ≤ z ∧ z < GRID_SIZE_Z) := by
          unfold outsideGrid at ho
          omega
        have p1 := cellsAhead_pos (ddaStep (FloatOps.normalize rayDir).x) x GRID_SIZE_X hb.1
        have p2 := cellsAhead_pos (ddaStep (FloatOps.normalize rayDir).y) y GRID_SIZE_Y hb.2.1
        have p3 := cellsAhead_pos (ddaStep (FloatOps.normalize rayDir).z) z GRID_SIZE_Z hb.2.2
        unfold GRID_SIZE_X at p1
        unfold GRID_SIZE_Y at p2
        unfold GRID_SIZE_Z at p3
        unfold GRID_SIZE_X GRID_SIZE_Y GRID_SIZE_Z
        push_cast
        omega
    obtain ⟨r, hr⟩ := ddaLoop_terminates grid (Vec3.add rayOrigin gridOffset)
      (FloatOps.normalize rayDir) maxDistance _ _ _ (ddaTDelta (FloatOps.normalize rayDir).x)
      (ddaTDelta (FloatOps.normalize rayDir).y) (ddaTDelta (FloatOps.normalize rayDir).z)
      (ddaStep_cases _) (ddaStep_cases _) (ddaStep_cases _) 320
      { x := x, y := y, z := z,
        tMaxX := ddaInitTMax x (ddaStep (FloatOps.normalize rayDir).x) pos.x
          (FloatOps.normalize rayDir).x,
        tMaxY := ddaInitTMax y (ddaStep (FloatOps.normalize rayDir).y) pos.y
          (FloatOps.normalize rayDir).y,
        tMaxZ := ddaInitTMax z (ddaStep (FloatOps.normalize rayDir).z) pos.z
          (FloatOps.normalize rayDir).z,
        distance := FloatOps.ofInt 0, pos := pos } (by norm_num) hm
    exact ⟨r, fun fuel hf => ddaLoop_fuel_mono _ _ _ _ _ _ _ _ _ _ _ _ _ hr fuel hf⟩
set_option maxRecDepth 100000 in
/-- C27 (counterexample): two rays whose origin lies outside the grid. The ray from
grid-space (130, 0.5, 0.5) along -X enters the box `[0,128] x [0,64] x [0,128]` at parameter
2: with `maxDistance = 2.5` the slab test against that box accepts it with the entry 2 and
`rayCastDDA` rejects it before the traversal, with `maxDistance = 1000` the entry parameter
of `rayCastDDA` is 3 and the traversal starts at x = 127. The ray from grid-space
(200.5, -5, 0.5) along +Y never enters the box, the slab test rejects it, and `rayCastDDA`
does not reject it before the traversal but starts the traversal in the cell (200, 0, 0). -/
theorem ddaEntry_differs_from_box_test :
    outsideGrid (FloatOps.floorInt (Vec3.add originFar gridOffset).x)
        (FloatOps.floorInt (Vec3.add originFar gridOffset).y)
        (FloatOps.floorInt (Vec3.add originFar gridOffset).z) ∧
      ddaEntry (Vec3.add originFar gridOffset) (FloatOps.normalize dirMinusX) (XF.halves 5) =
        none ∧
      (specEntry true GRID_SIZE_X GRID_SIZE_Y GRID_SIZE_Z (Vec3.add originFar gridOffset)
          (FloatOps.normalize dirMinusX) (XF.halves 5)).map
          (fun t => (XF.eq t.1 (XF.fin 2 1), XF.lt (XF.fin 0 1) t.1, XF.lt (XF.halves 5) t.1)) =
        some (true, true, false) ∧
      (rayCastDDA flatTerrain 321 originFar dirMinusX (XF.halves 5)).map (fun r => r.hit) =
        some false ∧
      (ddaEntry (Vec3.add originFar gridOffset) (FloatOps.normalize dirMinusX)
          (XF.fin 1000 1)).map (fun t => XF.eq t.1 (XF.fin 3 1)) = some true ∧
      (specEntry true GRID_SIZE_X GRID_SIZE_Y GRID_SIZE_Z (Vec3.add originFar gridOffset)
          (FloatOps.normalize dirMinusX) (XF.fin 1000 1)).map
          (fun t => XF.eq t.1 (XF.fin 2 1)) = some true ∧
      (ddaStart (Vec3.add originFar gridOffset) (FloatOps.normalize dirMinusX)
          (XF.fin 1000 1)).map (fun p => (XF.eq p.1.x (XF.fin 127 1), p.2)) =
        some (true, 127, 0, 0) ∧
      outsideGrid (FloatOps.floorInt (Vec3.add originBeside gridOffset).x)
        (FloatOps.floorInt (Vec3.add originBeside gridOffset).y)
        (FloatOps.floorInt (Vec3.add originBeside gridOffset).z) ∧
      specEntry true GRID_SIZE_X GRID_SIZE_Y GRID_SIZE_Z (Vec3.add originBeside gridOffset)
          (FloatOps.normalize dirPlusY) (XF.fin 1000 1) = none ∧
      (ddaStart (Vec3.add originBeside gridOffset) (FloatOps.normalize dirPlusY)
          (XF.fin 1000 1)).map (fun p => p.2) = some (200, 0, 0) := by
  decide

/-- The entry loop of `rayCastDDA` is the slab test against the box
`[0,X-1] x [0,Y-1] x [0,Z-1]` over the axes with a non-zero direction component. -/
theorem ddaEntry_eq_specEntry {F : Type} [FloatOps F] (pos dir : Vec3 F) (maxDistance : F) :
    ddaEntry pos dir maxDistance =
      specEntry false (GRID_SIZE_X - 1) (GRID_SIZE_Y - 1) (GRID_SIZE_Z - 1) pos dir
        maxDistance := by
  have h : ∀ (p d : F) (g : Int) (t : F × F),
      ddaSlabAxis p d g t = specSlabAxis false (g - 1) p d t := by
    intro p d g t
    unfold ddaSlabAxis specSlabAxis
    simp
  unfold ddaEntry specEntry
  simp only [h]

/-- C27 (amended): for a ray whose grid-space origin floors to a cell outside the grid, the
entry computation of `rayCastDDA` is the slab test of the ray against the box
`[0,X-1] x [0,Y-1] x [0,Z-1]`, started with `[0, maxDistance]` and taken over the axes with a
non-zero direction component. `rayCastDDA` reports a miss before the traversal exactly when
that test leaves an empty interval or gives an entry parameter that is not above 0;
otherwise the traversal starts at the point `origin + dir * tMin`, in the cell obtained by
flooring its coordinates. -/
theorem rayCastDDA_entry {F : Type} [FloatOps F] (rayOrigin rayDir : Vec3 F) (maxDistance : F)
    (hout : outsideGrid (FloatOps.floorInt (Vec3.add rayOrigin gridOffset).x)
      (FloatOps.floorInt (Vec3.add rayOrigin gridOffset).y)
      (FloatOps.floorInt (Vec3.add rayOrigin gridOffset).z)) :
    ddaEntry (Vec3.add rayOrigin gridOffset) (FloatOps.normalize rayDir) maxDistance =
        specEntry false (GRID_SIZE_X - 1) (GRID_SIZE_Y - 1) (GRID_SIZE_Z - 1)
          (Vec3.add rayOrigin gridOffset) (FloatOps.normalize rayDir) maxDistance ∧
      (ddaStart (Vec3.add rayOrigin gridOffset) (FloatOps.normalize rayDir) maxDistance = none ↔
        (specEntry false (GRID_SIZE_X - 1) (GRID_SIZE_Y - 1) (GRID_SIZE_Z - 1)
            (Vec3.add rayOrigin gridOffset) (FloatOps.normalize rayDir) maxDistance = none ∨
          ∃ t, specEntry false (GRID_SIZE_X - 1) (GRID_SIZE_Y - 1) (GRID_SIZE_Z - 1)
              (Vec3.add rayOrigin gridOffset) (FloatOps.normalize rayDir) maxDistance = some t ∧
            FloatOps.lt (FloatOps.ofInt 0) t.1 = false)) ∧
      (ddaStart (Vec3.add rayOrigin gridOffset) (FloatOps.normalize rayDir) maxDistance = none →
        ∀ (grid : VoxelGrid) (fuel : Nat),
          rayCastDDA grid fuel rayOrigin rayDir maxDistance = some DDAHit.miss) ∧
      ∀ t, specEntry false (GRID_SIZE_X - 1) (GRID_SIZE_Y - 1) (GRID_SIZE_Z - 1)
            (Vec3.add rayOrigin gridOffset) (FloatOps.normalize rayDir) maxDistance = some t →
        FloatOps.lt (FloatOps.ofInt 0) t.1 = true →
        ddaStart (Vec3.add rayOrigin gridOffset) (FloatOps.normalize rayDir) maxDistance =
          some
            (Vec3.add (Vec3.add rayOrigin gridOffset)
                (Vec3.scale (FloatOps.normalize rayDir) t.1),
              FloatOps.floorInt (Vec3.add (Vec3.add rayOrigin gridOffset)
                (Vec3.scale (FloatOps.normalize rayDir) t.1)).x,
              FloatOps.floorInt (Vec3.add (Vec3.add rayOrigin gridOffset)
                (Vec3.scale (FloatOps.normalize rayDir) t.1)).y,
              FloatOps.floorInt (Vec3.add (Vec3.add rayOrigin gridOffset)
                (Vec3.scale (FloatOps.normalize rayDir) t.1)).z) := by
  have he := ddaEntry_eq_specEntry (Vec3.add rayOrigin gridOffset) (FloatOps.normalize rayDir)
    maxDistance
  refine ⟨he, ?_, ?_, ?_⟩
  · rw [← he]
    unfold ddaStart
    rw [if_pos hout]
    cases hs : ddaEntry (Vec3.add rayOrigin gridOffset) (FloatOps.normalize rayDir)
        maxDistance with
    | none => simp
    | some t =>
      simp only []
      by_cases hlt : FloatOps.lt (FloatOps.ofInt 0) t.1 = true
      · simp [hlt]
      · have hf : FloatOps.lt (FloatOps.ofInt 0) t.1 = false := by simpa using hlt
        simp [hf]
  · intro hs grid fuel
    unfold rayCastDDA
    simp only [hs]
  · intro t ht hlt
    rw [← he] at ht
    unfold ddaStart
    rw [if_pos hout, ht]
    simp only [hlt, if_true]

set_option maxRecDepth 100000 in
/-- Witness for C27 (amended): the ray from grid-space (130, 0.5, 0.5) along -X with
`maxDistance = 1000`: the entry parameter is 3 and the traversal starts in cell
(127, 0, 0). -/
theorem rayCastDDA_entry_witness :
    ddaEntry (Vec3.add originFar gridOffset) (FloatOps.normalize dirMinusX) (XF.fin 1000 1) =
        specEntry false (GRID_SIZE_X - 1) (GRID_SIZE_Y - 1) (GRID_SIZE_Z - 1)
          (Vec3.add originFar gridOffset) (FloatOps.normalize dirMinusX) (XF.fin 1000 1) ∧
      (ddaStart (Vec3.add originFar gridOffset) (FloatOps.normalize dirMinusX)
          (XF.fin 1000 1)).map (fun p => p.2) = some (127, 0, 0) :=
  ⟨(rayCastDDA_entry originFar dirMinusX (XF.fin 1000 1) (by decide)).1, by decide⟩

set_option maxRecDepth 100000 in
/-- C30 (evaluation at the failing inputs): the ray from world-space (-74, 0.5, -63.5),
grid-space (-10, 0.5, 0.5), along +X starts outside the grid and enters it at parameter 10.
On the terrain, whose cell (0,0,0) is `SURFACE`, `rayCastDDA` reports the hit at distance 0
and world-space x = -64, the entry point, where `rayOrigin + dir * distance` is x = -74.
With cell (5,0,0) as the only solid cell, which spans world-space x from -59 to -58, it
reports distance 5 and x = -69. -/
theorem rayCastDDA_distance_from_entry :
    flatTerrain 0 0 0 = SURFACE ∧
      (rayCastDDA flatTerrain 321 originLeft dirPlusX (XF.fin 12 1)).map
        (fun r => (r.hit, XF.eq r.distance (XF.fin 0 1), XF.eq r.position.x (XF.fin (-64) 1),
          XF.eq (Vec3.add originLeft
            (Vec3.scale (FloatOps.normalize dirPlusX) r.distance)).x (XF.fin (-74) 1))) =
        some (true, true, true, true) ∧
      (rayCastDDA gridCell500 321 originLeft dirPlusX (XF.fin 1000 1)).map
        (fun r => (r.hit, XF.eq r.distance (XF.fin 5 1), XF.eq r.position.x (XF.fin (-69) 1),
          XF.eq (FloatOps.sub (FloatOps.ofInt 5) (gridOffset : Vec3 XF).x) (XF.fin (-59) 1))) =
        some (true, true, true, true) := by
  decide

/-- A hit of the traversal loop is reported either in the cell the loop starts in, at the
position and distance it starts with, or at the position
`rayStart + dir * distance - gridOffset` computed from the distance that the loop
accumulated. -/
theorem ddaLoop_hit_position {F : Type} [FloatOps F] (grid : VoxelGrid) (rayStart dir : Vec3 F)
    (maxDistance : F) (stepX stepY stepZ : Int) (tDeltaX tDeltaY tDeltaZ : F) :
    ∀ (fuel : Nat) (s : DDAState F) (r : DDAHit F),
      ddaLoop grid rayStart dir maxDistance stepX stepY stepZ tDeltaX tDeltaY tDeltaZ fuel s =
        some r →
      r.hit = true →
      (r.position = Vec3.sub s.pos gridOffset ∧ r.distance = s.distance) ∨
        r.position = Vec3.sub (Vec3.add rayStart (Vec3.scale dir r.distance)) gridOffset := by
  intro fuel
  induction fuel with
  | zero => intro s r h; rw [ddaLoop] at h; cases h
  | succ f ih =>
    intro s r h hhit
    rw [ddaLoop] at h
    split at h
    · split at h
      · cases h; cases hhit
      · split at h
        · cases h
          exact Or.inl ⟨rfl, rfl⟩
        · rcases ih _ _ h hhit with ⟨h1, h2⟩ | h1
          · right
            rw [h1, h2]
          · exact Or.inr h1
    · cases h; cases hhit
/-- The guards of `rayCastDDA` on an axis whose direction component compares equal to 0: the
entry loop leaves the interval as it is, and the initial `tMax` and the `tDelta` of the axis
are the constant `FLT_MAX`; no quotient by the component is formed. -/
theorem dda_zero_component_guards {F : Type} [FloatOps F] (p d : F) (gridSize cell step : Int)
    (t : F × F) (hd : FloatOps.eq d (FloatOps.ofInt 0) = true) :
    ddaSlabAxis p d gridSize t = some t ∧ ddaInitTMax cell step p d = FloatOps.fltMax ∧
      ddaTDelta d = FloatOps.fltMax := by
  unfold ddaSlabAxis ddaInitTMax ddaTDelta
  simp [hd]

/-- The choice of the axis in a step of the traversal: the Z coordinate moves exactly when
neither `tMaxX < tMaxY && tMaxX < tMaxZ` nor `tMaxY < tMaxZ` holds, also when the Z axis
carries the constant `FLT_MAX`. -/
theorem ddaAdvance_z_iff {F : Type} [FloatOps F] (stepX stepY stepZ : Int)
    (tDeltaX tDeltaY tDeltaZ : F) (s : DDAState F) (hz : stepZ ≠ 0) :
    (ddaAdvance stepX stepY stepZ tDeltaX tDeltaY tDeltaZ s).z ≠ s.z ↔
      ¬ (FloatOps.lt s.tMaxX s.tMaxY = true ∧ FloatOps.lt s.tMaxX s.tMaxZ = true) ∧
        ¬ FloatOps.lt s.tMaxY s.tMaxZ = true := by
  unfold ddaAdvance
  split
  · rename_i h
    simp [h]
  · rename_i h
    split
    · rename_i h2
      simp [h2]
    · rename_i h2
      simp only [ne_eq, add_right_eq_self, hz, not_false_eq_true, true_iff]
      exact ⟨h, h2⟩

/-- Once the accumulated distance is `FLT_MAX`, the loop ends with a miss when
`maxDistance` is not above `FLT_MAX`. -/
theorem ddaLoop_miss_at_fltMax {F : Type} [FloatOps F] (grid : VoxelGrid)
    (rayStart dir : Vec3 F) (maxDistance : F) (stepX stepY stepZ : Int)
    (tDeltaX tDeltaY tDeltaZ : F)
    (hmax : FloatOps.lt (FloatOps.fltMax : F) maxDistance = false) (fuel : Nat)
    (s : DDAState F) (r : DDAHit F) (hd : s.distance = FloatOps.fltMax)
    (h : ddaLoop grid rayStart dir maxDistance stepX stepY stepZ tDeltaX tDeltaY tDeltaZ fuel
      s = some r) : r.hit = false := by
  cases fuel with
  | zero => rw [ddaLoop] at h; cases h
  | succ f =>
    rw [ddaLoop, hd, hmax] at h
    simp only [Bool.false_eq_true, if_false] at h
    cases h
    rfl

/-- The cell of a hit: it is `SURFACE`, the normal returned is the one built at it, and on an
axis whose `tMax` is the constant `FLT_MAX` its coordinate is the one the loop started with,
when `maxDistance` is not above `FLT_MAX` (a step on such an axis sets the distance to
`FLT_MAX` and ends the loop with a miss). -/
theorem ddaLoop_hit_cell {F : Type} [FloatOps F] (grid : VoxelGrid) (rayStart dir : Vec3 F)
    (maxDistance : F) (stepX stepY stepZ : Int) (tDeltaX tDeltaY tDeltaZ : F)
    (hmax : FloatOps.lt (FloatOps.fltMax : F) maxDistance = false) :
    ∀ (fuel : Nat) (s : DDAState F) (r : DDAHit F),
      ddaLoop grid rayStart dir maxDistance stepX stepY stepZ tDeltaX tDeltaY tDeltaZ fuel s =
        some r →
      r.hit = true →
      ∃ x y z, grid x y z = SURFACE ∧ r.normal = ddaNormal grid x y z ∧
        (s.tMaxX = FloatOps.fltMax → x = s.x) ∧ (s.tMaxY = FloatOps.fltMax → y = s.y) ∧
        (s.tMaxZ = FloatOps.fltMax → z = s.z) := by
  intro fuel
  induction fuel with
  | zero => intro s r h; rw [ddaLoop] at h; cases h
  | succ f ih =>
    intro s r h hhit
    rw [ddaLoop] at h
    split at h
    · split at h
      · cases h; cases hhit
      · split at h
        · rename_i hg
          cases h
          exact ⟨s.x, s.y, s.z, hg, rfl, fun _ => rfl, fun _ => rfl, fun _ => rfl⟩
        · by_cases hbx : FloatOps.lt s.tMaxX s.tMaxY = true ∧ FloatOps.lt s.tMaxX s.tMaxZ = true
          · have e : ddaAdvance stepX stepY stepZ tDeltaX tDeltaY tDeltaZ s =
                { s with x := s.x + stepX, distance := s.tMaxX,
                         tMaxX := FloatOps.add s.tMaxX tDeltaX } := by
              unfold ddaAdvance; rw [if_pos hbx]
            rw [e] at h
            obtain ⟨x, y, z, hg, hn, _, hy, hz⟩ := ih _ _ h hhit
            refine ⟨x, y, z, hg, hn, ?_, hy, hz⟩
            intro hx
            have := ddaLoop_miss_at_fltMax grid rayStart dir maxDistance stepX stepY stepZ
              tDeltaX tDeltaY tDeltaZ hmax f _ r hx h
            rw [this] at hhit
            cases hhit
          · by_cases hby : FloatOps.lt s.tMaxY s.tMaxZ = true
            · have e : ddaAdvance stepX stepY stepZ tDeltaX tDeltaY tDeltaZ s =
                  { s with y := s.y + stepY, distance := s.tMaxY,
                           tMaxY := FloatOps.add s.tMaxY tDeltaY } := by
                unfold ddaAdvance; rw [if_neg hbx, if_pos hby]
              rw [e] at h
              obtain ⟨x, y, z, hg, hn, hx, _, hz⟩ := ih _ _ h hhit
              refine ⟨x, y, z, hg, hn, hx, ?_, hz⟩
              intro hy
              have := ddaLoop_miss_at_fltMax grid rayStart dir maxDistance stepX stepY stepZ
                tDeltaX tDeltaY tDeltaZ hmax f _ r hy h
              rw [this] at hhit
              cases hhit
            · have e : ddaAdvance stepX stepY stepZ tDeltaX tDeltaY tDeltaZ s =
                  { s with z := s.z + stepZ, distance := s.tMaxZ,
                           tMaxZ := FloatOps.add s.tMaxZ tDeltaZ } := by
                unfold ddaAdvance; rw [if_neg hbx, if_neg hby]
              rw [e] at h
              obtain ⟨x, y, z, hg, hn, hx, hy, _⟩ := ih _ _ h hhit
              refine ⟨x, y, z, hg, hn, hx, hy, ?_⟩
              intro hz
              have := ddaLoop_miss_at_fltMax grid rayStart dir maxDistance stepX stepY stepZ
                tDeltaX tDeltaY tDeltaZ hmax f _ r hz h
              rw [this] at hhit
              cases hhit
    · cases h; cases hhit

/-- A hit of `rayCastDDA` for a `maxDistance` that is not above `FLT_MAX`: the hit cell is
`SURFACE`, and on every axis whose direction component compares equal to 0 it has the
coordinate of the cell in which the traversal started. -/
theorem rayCastDDA_hit_zero_axis {F : Type} [FloatOps F] (grid : VoxelGrid) (fuel : Nat)
    (rayOrigin rayDir : Vec3 F) (maxDistance : F)
    (hmax : FloatOps.lt (FloatOps.fltMax : F) maxDistance = false) (r : DDAHit F)
    (h : rayCastDDA grid fuel rayOrigin rayDir maxDistance = some r) (hhit : r.hit = true) :
    ∃ (pos : Vec3 F) (x0 y0 z0 x y z : Int),
      ddaStart (Vec3.add rayOrigin gridOffset) (FloatOps.normalize rayDir) maxDistance =
        some (pos, x0, y0, z0) ∧
      grid x y z = SURFACE ∧ r.normal = ddaNormal grid x y z ∧
      (FloatOps.eq (FloatOps.normalize rayDir).x (FloatOps.ofInt 0) = true → x = x0) ∧
      (FloatOps.eq (FloatOps.normalize rayDir).y (FloatOps.ofInt 0) = true → y = y0) ∧
      (FloatOps.eq (FloatOps.normalize rayDir).z (FloatOps.ofInt 0) = true → z = z0) := by
  unfold rayCastDDA at h
  simp only [] at h
  cases hs : ddaStart (Vec3.add rayOrigin gridOffset) (FloatOps.normalize rayDir) maxDistance with
  | none => rw [hs] at h; cases h; cases hhit
  | some p =>
    obtain ⟨pos, x0, y0, z0⟩ := p
    rw [hs] at h
    simp only [] at h
    obtain ⟨x, y, z, hg, hn, hx, hy, hz⟩ :=
      ddaLoop_hit_cell grid _ _ maxDistance _ _ _ _ _ _ hmax fuel _ r h hhit
    refine ⟨pos, x0, y0, z0, x, y, z, rfl, hg, hn, ?_, ?_, ?_⟩
    · intro hd
      exact hx (dda_zero_component_guards pos.x _ GRID_SIZE_X x0 _ (FloatOps.ofInt 0, maxDistance)
        hd).2.1
    · intro hd
      exact hy (dda_zero_component_guards pos.y _ GRID_SIZE_Y y0 _ (FloatOps.ofInt 0, maxDistance)
        hd).2.1
    · intro hd
      exact hz (dda_zero_component_guards pos.z _ GRID_SIZE_Z z0 _ (FloatOps.ofInt 0, maxDistance)
        hd).2.1

/-- C31: in a reachable world, `setVoxel` at a coordinate `p` leaves what `getVoxel` returns
at every other coordinate `q` as it was: the same voxel, in particular the same material and
colour. This holds for every voxel and every `p`, so also for a non-air voxel at an in-range
`p`, the case in which the call subdivides the leaves on its path. -/
theorem setVoxel_frame (w : OctreeVoxelWorld) (hw : Reachable w) (px py pz : Int) (v : Voxel)
    (qx qy qz : Int) (hne : ¬ (qx = px ∧ qy = py ∧ qz = pz)) :
    (w.setVoxel px py pz v).getVoxel qx qy qz = w.getVoxel qx qy qz ∧
      ((w.setVoxel px py pz v).getVoxel qx qy qz).type = (w.getVoxel qx qy qz).type ∧
      ((w.setVoxel px py pz v).getVoxel qx qy qz).color = (w.getVoxel qx qy qz).color := by
  have h := getVoxel_setVoxel_other hw px py pz qx qy qz v hne
  exact ⟨h, by rw [h], by rw [h]⟩

/-- Witness for C31: in the 4x4x4 world with grass at (2,2,2), writing material 7 at the
neighbouring cell (3,2,2) of the same finest octant leaves the grass at (2,2,2). -/
theorem setVoxel_frame_witness :
    ((world444Grass.setVoxel 3 2 2 (Voxel.ofTypeColor 7 0xFF112233)).getVoxel 2 2 2).type =
        (world444Grass.getVoxel 2 2 2).type ∧
      (world444Grass.getVoxel 2 2 2).type = 1 ∧
      ((world444Grass.setVoxel 3 2 2 (Voxel.ofTypeColor 7 0xFF112233)).getVoxel 3 2 2).type = 7 :=
  ⟨(setVoxel_frame world444Grass reachable_world444Grass 3 2 2 (Voxel.ofTypeColor 7 0xFF112233)
    2 2 2 (by decide)).2.1, by decide, by decide⟩
/-- In a well-formed tree seven times the number of nodes is one less than eight times the
number of leaves. -/
theorem countNodes_countLeaves {rem : Nat} {n : OctreeNode} (h : WellFormed rem n) :
    7 * countNodes n + 1 = 8 * countLeaves n := by
  induction h with
  | leaf hsz hch => simp [countNodes, countLeaves]
  | inner hsz hwf hx hy hz ih =>
    have h0 := ih 0; have h1 := ih 1; have h2 := ih 2; have h3 := ih 3
    have h4 := ih 4; have h5 := ih 5; have h6 := ih 6; have h7 := ih 7
    simp only [countNodes, countLeaves, sum8, if_true, Bool.false_eq_true, if_false]
    omega

/-- C32: in every world reachable from construction by `setVoxel` and `compressTree` calls,
`getNodeCount() = 1 + 8 * (getNodeCount() - getLeafCount())`, equivalently
`7 * getNodeCount() = 8 * getLeafCount() - 1`; and a freshly constructed world has one node
and one leaf. -/
theorem counter_invariant (w : OctreeVoxelWorld) (hw : Reachable w) :
    w.getNodeCount = 1 + 8 * (w.getNodeCount - w.getLeafCount) ∧
      7 * (w.getNodeCount : Int) = 8 * (w.getLeafCount : Int) - 1 ∧
      w.getLeafCount ≤ w.getNodeCount ∧
      ∀ (sizeX sizeY sizeZ : Int) (w0 : OctreeVoxelWorld),
        OctreeVoxelWorld.create sizeX sizeY sizeZ = some w0 →
          w0.getNodeCount = 1 ∧ w0.getLeafCount = 1 := by
  have h := countNodes_countLeaves (reachable_wellFormed hw)
  unfold OctreeVoxelWorld.getNodeCount OctreeVoxelWorld.getLeafCount
  refine ⟨by omega, by omega, by omega, ?_⟩
  intro sizeX sizeY sizeZ w0 h0
  rw [(create_some h0).1]
  exact ⟨rfl, rfl⟩

/-- Witness for C32: the 4x4x4 world with one set cell has 17 nodes and 15 leaves. -/
theorem counter_invariant_witness :
    world444Grass.getNodeCount = 1 + 8 * (world444Grass.getNodeCount - world444Grass.getLeafCount) ∧
      world444Grass.getNodeCount = 17 ∧ world444Grass.getLeafCount = 15 :=
  ⟨(counter_invariant world444Grass reachable_world444Grass).1, by decide, by decide⟩
theorem IsLeafOf.isLeaf_eq {n leaf : OctreeNode} (h : IsLeafOf n leaf) : leaf.isLeaf = true := by
  induction h with
  | here => rfl
  | child _ _ _ _ _ _ _ _ _ _ ih => exact ih

/-- A leaf of the tree is reached from the root through non-empty child slots. -/
theorem IsLeafOf.nodeAt {n leaf : OctreeNode} (h : IsLeafOf n leaf) : ∃ d, NodeAt n d leaf := by
  induction h with
  | here ch t c u mx my mz sz => exact ⟨0, NodeAt.root rfl⟩
  | child ch t c u mx my mz sz i h ih =>
    obtain ⟨d, hd⟩ := ih
    exact ⟨d + 1, nodeAt_of_child (n := .node ch t c u false mx my mz sz) rfl i hd⟩

/-- A hit of `rayCastRecursive` carries the material and the colour of a leaf of the subtree
whose material is not 0. -/
theorem rayCastRecursive_leaf {F : Type} [FloatOps F] (rayStart rayDir : Vec3 F)
    (n : OctreeNode) :
    ∀ (tMin tMax : F) (hv : Voxel) (r : Vec3 F × Vec3 F × Voxel),
      rayCastRecursive rayStart rayDir n tMin tMax hv = some r →
      ∃ leaf, IsLeafOf n leaf ∧ leaf.voxelType ≠ 0 ∧ r.2.2.type = leaf.voxelType ∧
        r.2.2.color = leaf.voxelColor := by
  induction n with
  | null => intro tMin tMax hv r h; rw [rayCastRecursive] at h; cases h
  | node ch t c u l mx my mz sz ih =>
    intro tMin tMax hv r h
    cases l
    · rw [rayCastRecursive_internal_eq, firstSome8_eq_some] at h
      obtain ⟨i, hi, _⟩ := h
      obtain ⟨t01, _, _, _, hrec⟩ := (childCandidate_eq_some _ _ _ _ _ _).1 hi
      obtain ⟨leaf, hleaf, hrest⟩ := ih i _ _ _ _ hrec
      exact ⟨leaf, IsLeafOf.child ch t c u mx my mz sz i hleaf, hrest⟩
    · rw [rayCastRecursive] at h
      simp only [if_true] at h
      split at h
      · cases h
      · rename_i ht
        split at h
        · cases h
        · split at h
          · cases h
            exact ⟨_, IsLeafOf.here ch t c u mx my mz sz, ht, rfl, rfl⟩
          · cases h

theorem rayCast_leaf {F : Type} [FloatOps F] (w : OctreeVoxelWorld)
    (origin direction : Vec3 F) (maxDist : F) (hitVoxel : Voxel)
    (r : Vec3 F × Vec3 F × Voxel) (h : w.rayCast origin direction maxDist hitVoxel = some r) :
    ∃ leaf, IsLeafOf w.root leaf ∧ leaf.voxelType ≠ 0 ∧ r.2.2.type = leaf.voxelType ∧
      r.2.2.color = leaf.voxelColor := by
  unfold OctreeVoxelWorld.rayCast at h
  simp only [] at h
  split at h
  · cases h
  · split at h
    · cases h
    · rename_i q hq
      cases h
      exact rayCastRecursive_leaf _ _ _ _ _ _ q hq

/-- C33: for every world and every ray, a hit of `OctreeVoxelWorld::rayCast` returns a voxel
whose material is not 0 and whose material and colour are those of one leaf of the tree
(reached from the root through non-empty child slots); the call returns false for every ray
when every leaf of the tree has material 0, in particular in a freshly constructed world. -/
theorem rayCast_sound {F : Type} [FloatOps F] (w : OctreeVoxelWorld)
    (origin direction : Vec3 F) (maxDist : F) (hitVoxel : Voxel) :
    (∀ r, w.rayCast origin direction maxDist hitVoxel = some r →
        r.2.2.type ≠ 0 ∧
          ∃ (leaf : OctreeNode) (d : Nat), IsLeafOf w.root leaf ∧ NodeAt w.root d leaf ∧
            leaf.isLeaf = true ∧ r.2.2.type = leaf.voxelType ∧
            r.2.2.color = leaf.voxelColor) ∧
      ((∀ leaf, IsLeafOf w.root leaf → leaf.voxelType = 0) →
        w.rayCast origin direction maxDist hitVoxel = none) ∧
      ∀ sizeX sizeY sizeZ : Int, OctreeVoxelWorld.create sizeX sizeY sizeZ = some w →
        w.rayCast origin direction maxDist hitVoxel = none := by
  have hair : (∀ leaf, IsLeafOf w.root leaf → leaf.voxelType = 0) →
      w.rayCast origin direction maxDist hitVoxel = none := by
    intro hall
    cases hr : w.rayCast origin direction maxDist hitVoxel with
    | none => rfl
    | some r =>
      obtain ⟨leaf, hleaf, hne, _, _⟩ := rayCast_leaf w origin direction maxDist hitVoxel r hr
      exact absurd (hall leaf hleaf) hne
  refine ⟨?_, hair, ?_⟩
  · intro r hr
    obtain ⟨leaf, hleaf, hne, ht, hc⟩ := rayCast_leaf w origin direction maxDist hitVoxel r hr
    obtain ⟨d, hd⟩ := hleaf.nodeAt
    exact ⟨by rw [ht]; exact hne, leaf, d, hleaf, hd, hleaf.isLeaf_eq, ht, hc⟩
  · intro sizeX sizeY sizeZ hcreate
    apply hair
    intro leaf hleaf
    rw [(create_some hcreate).1] at hleaf
    cases hleaf
    rfl

set_option maxRecDepth 100000 in
/-- Witness for C33: in the 4x4x4 world with only cell (2,2,2) set to grass, the ray along
+X from octree-space (0.5, 2.5, 2.5) is a hit that returns the material 1 and the colour of
the grass leaf, and the same ray misses in the freshly constructed 4x4x4 world. -/
theorem rayCast_sound_witness :
    (∃ r, world444Grass.rayCast (⟨XF.halves (-3), XF.halves 5, XF.halves 1⟩ : Vec3 XF) dirPlusX
          (XF.fin 100 1) Voxel.empty = some r ∧ r.2.2.type ≠ 0 ∧
        ∃ (leaf : OctreeNode) (d : Nat), IsLeafOf world444Grass.root leaf ∧
          NodeAt world444Grass.root d leaf ∧ leaf.isLeaf = true ∧
          r.2.2.type = leaf.voxelType ∧ r.2.2.color = leaf.voxelColor) ∧
      (world444Grass.rayCast (⟨XF.halves (-3), XF.halves 5, XF.halves 1⟩ : Vec3 XF) dirPlusX
          (XF.fin 100 1) Voxel.empty).map (fun r => (r.2.2.type, r.2.2.color)) =
        some (1, 0xFF00FF00) ∧
      world444.rayCast (⟨XF.halves (-3), XF.halves 5, XF.halves 1⟩ : Vec3 XF) dirPlusX
          (XF.fin 100 1) Voxel.empty = none :=
  ⟨match Option.isSome_iff_exists.1
      (by decide : (world444Grass.rayCast (⟨XF.halves (-3), XF.halves 5, XF.halves 1⟩ : Vec3 XF)
        dirPlusX (XF.fin 100 1) Voxel.empty).isSome = true) with
    | ⟨r, hr⟩ =>
      ⟨r, hr, (rayCast_sound world444Grass _ _ _ _).1 r hr⟩,
    by decide,
    (rayCast_sound world444 (⟨XF.halves (-3), XF.halves 5, XF.halves 1⟩ : Vec3 XF) dirPlusX
      (XF.fin 100 1) Voxel.empty).2.2 4 4 4 create_444⟩

end Claims

end Octree
